import Mathlib

/-!
# Aptomi: resolution aggregator (`pkg/engine/resolve`)

A shallow embedding of `component_instance.go` and `policy_resolution.go`.

* A Go `map[string]V` is a `GoMap V`: a list of entries with pairwise distinct keys.
  The order of the list is the order in which a `range` loop visits the entries, so a
  statement that holds for every `GoMap` holds for every iteration order.
* A pointer to a component instance stored in `ComponentInstanceMap` is modelled by the value
  it points to; a method that mutates through the pointer returns the new value, which is
  written back under the same key.
-/

namespace Aptomi

/-! ## Go maps with string keys -/

/-- A Go `map[string]V`: entries with pairwise distinct keys. -/
structure GoMap (V : Type) where
  entries : List (String × V)
  nodup : (entries.map Prod.fst).Nodup

namespace GoMap

variable {V : Type}

/-- The result of `make(map[string]V)`. -/
def empty : GoMap V := ⟨[], List.nodup_nil⟩

/-- Lookup in a list of entries: the value of the first entry with key `k`. -/
def lookupEntries (k : String) : List (String × V) → Option V
  | [] => none
  | (k', v) :: rest => if k' = k then some v else lookupEntries k rest

/-- Assignment in a list of entries: overwrite the entry of `k`, or add one at the end. -/
def setEntries (k : String) (v : V) : List (String × V) → List (String × V)
  | [] => [(k, v)]
  | (k', v') :: rest => if k' = k then (k', v) :: rest else (k', v') :: setEntries k v rest

theorem keys_setEntries (k : String) (v : V) (l : List (String × V)) :
    (setEntries k v l).map Prod.fst =
      if k ∈ l.map Prod.fst then l.map Prod.fst else l.map Prod.fst ++ [k] := by
  induction l with
  | nil => simp [setEntries]
  | cons hd tl ih =>
    obtain ⟨k', v'⟩ := hd
    by_cases h : k' = k
    · simp [setEntries, h]
    · have h' : ¬ k = k' := fun e => h e.symm
      simp only [setEntries, h, if_false, List.map_cons, ih, List.mem_cons, h', false_or]
      split <;> simp

theorem nodup_setEntries (k : String) (v : V) (l : List (String × V))
    (h : (l.map Prod.fst).Nodup) : ((setEntries k v l).map Prod.fst).Nodup := by
  rw [keys_setEntries]
  split
  · exact h
  · rename_i hk
    exact List.Nodup.append h (List.nodup_singleton k) (by simpa using hk)

/-- The value `m[k]` with its presence flag: `v, ok := m[k]`. -/
def get (m : GoMap V) (k : String) : Option V := lookupEntries k m.entries

/-- The assignment `m[k] = v`. -/
def set (m : GoMap V) (k : String) (v : V) : GoMap V :=
  ⟨setEntries k v m.entries, nodup_setEntries k v m.entries m.nodup⟩

/-- The keys of the map, in iteration order. -/
def keys (m : GoMap V) : List String := m.entries.map Prod.fst

/-- The Go builtin `len(m)`. -/
def len (m : GoMap V) : Nat := m.entries.length

/-- Presence test: `_, ok := m[k]`. -/
def contains (m : GoMap V) (k : String) : Bool := (m.get k).isSome

/-- The loop `for k, v := range src { dst[k] = v }`. -/
def assignAll (dst src : GoMap V) : GoMap V :=
  src.entries.foldl (fun acc kv => acc.set kv.1 kv.2) dst

/-- The Go builtin `delete(m, k)`. -/
def delete (m : GoMap V) (k : String) : GoMap V :=
  ⟨m.entries.filter (fun kv => kv.1 != k),
    List.Nodup.sublist (List.Sublist.map Prod.fst (List.filter_sublist _)) m.nodup⟩

/-- The entries that a `range` loop visits in a map that may be nil (`none`): none for a nil
map. -/
def rangeOf (m : Option (GoMap V)) : List (String × V) :=
  match m with
  | none => []
  | some m => m.entries

/-- Reading key `k` of a map that may be nil: a nil map has no key. -/
def getOf (m : Option (GoMap V)) (k : String) : Option V :=
  match m with
  | none => none
  | some m => m.get k

/-- The Go builtin `len` of a map that may be nil. -/
def lenOf (m : Option (GoMap V)) : Nat := (rangeOf m).length

end GoMap

/-! ## Types declared outside `pkg/engine/resolve` -/

/-- The operations of `util.NestedParameterMap` that the resolution code uses. The type is
declared in `pkg/util`, so it is a parameter of the development: `len` is the Go builtin
applied to the map, `DeepEqual` and `Diff` are its methods, and `empty` is the literal
`util.NestedParameterMap{}`. -/
class NestedParameterMap (P : Type) where
  empty : P
  len : P → Nat
  DeepEqual : P → P → Bool
  Diff : P → P → P
  len_empty : len empty = 0

/-- A Go `error` value as the resolution code builds it: `fmt.Errorf` gives a bare message,
`errors.NewErrorWithDetails` a message with a map of details. -/
inductive GoError (P : Type) where
  | errorf (message : String)
  | withDetails (message : String) (details : GoMap P)

/-- The details of an error: empty for an error without details. -/
def GoError.details {P : Type} : GoError P → GoMap P
  | .errorf _ => GoMap.empty
  | .withDetails _ d => d

/-- The message of an error. -/
def GoError.message {P : Type} : GoError P → String
  | .errorf m => m
  | .withDetails m _ => m

/-- Modelled from the spec: `ComponentInstanceKey` is declared outside the sources at hand.
The spec describes it as the tuple "(namespace, contract, context,
allocation-name-resolved, service, component-or-root, cluster) serialized to a stable
string". -/
structure ComponentInstanceKey where
  Namespace : String
  ContractName : String
  ContextName : String
  AllocationNameResolved : String
  ServiceName : String
  ComponentName : String
  ClusterName : String
deriving DecidableEq, Repr

/-- Modelled from the spec: `ComponentInstanceKey.GetKey` is not in the sources at hand; the
spec says that "the key is a pure function of its tuple", here the fields joined by `#`. -/
def ComponentInstanceKey.GetKey (cik : ComponentInstanceKey) : String :=
  String.intercalate "#" [cik.Namespace, cik.ContractName, cik.ContextName,
    cik.AllocationNameResolved, cik.ServiceName, cik.ComponentName, cik.ClusterName]

/-- Modelled from the spec: `lang.LabelSet` is declared outside the sources at hand; it wraps
a `map[string]string` of labels. -/
structure LabelSet where
  Labels : GoMap String

/-- Modelled from the spec: `lang.NewLabelSet`, which wraps the given map. -/
def NewLabelSet (labels : GoMap String) : LabelSet := ⟨labels⟩

/-- Modelled from the spec: `lang.LabelSet.AddLabels`, of which the spec says "Aggregation
(`addLabels`) is union with right-biased overwrite". -/
def LabelSet.AddLabels (ls : LabelSet) (labels : GoMap String) : LabelSet :=
  ⟨ls.Labels.assignAll labels⟩

/-- The part of `lang.RuleActionResult` that the code reads and writes: the flag
`RejectIngress`, and the map `RoleMap` from the ID of a role to the namespaces to which the
role applies. -/
structure RuleActionResult where
  RejectIngress : Bool
  RoleMap : GoMap (GoMap Bool)

/-- Go `strconv.FormatBool`. -/
def FormatBool (b : Bool) : String := if b then "true" else "false"

/-- The only field of `DependencyResolution` that `policy_resolution.go` reads. -/
structure DependencyResolution where
  Resolved : Bool

/-! ## `component_instance.go` -/

/-- The metadata of a component instance. -/
structure ComponentInstanceMetadata where
  Key : ComponentInstanceKey

/-- The special key of `DataForPlugins` that says whether ingress traffic is allowed. -/
def AllowIngres : String := "allow_ingress"

/-- A component instance. `time.Time` values are instants counted from the zero time, so
that `IsZero` is equality with `0`. -/
structure ComponentInstance (P : Type) where
  Kind : String
  Metadata : ComponentInstanceMetadata
  Error : Option (GoError P)
  DependencyKeys : GoMap Int
  IsCode : Bool
  CalculatedLabels : LabelSet
  CalculatedDiscovery : P
  CalculatedCodeParams : P
  DataForPlugins : GoMap String
  EdgesOut : GoMap Bool
  CreatedAt : Int
  UpdatedAt : Int
  EndpointsUpToDate : Bool
  Endpoints : GoMap String

namespace ComponentInstance

variable {P : Type} [NestedParameterMap P]

/-- Creates a new component instance (`newComponentInstance`). -/
def new (cik : ComponentInstanceKey) : ComponentInstance P :=
  { Kind := "component-instance"
    Metadata := ⟨cik⟩
    Error := none
    DependencyKeys := GoMap.empty
    IsCode := false
    CalculatedLabels := NewLabelSet GoMap.empty
    CalculatedDiscovery := NestedParameterMap.empty
    CalculatedCodeParams := NestedParameterMap.empty
    DataForPlugins := GoMap.empty
    EdgesOut := GoMap.empty
    CreatedAt := 0
    UpdatedAt := 0
    EndpointsUpToDate := false
    Endpoints := GoMap.empty }

/-- The key of the instance, as generated by the engine. -/
def GetKey (inst : ComponentInstance P) : String := inst.Metadata.Key.GetKey

/-- `instance.DependencyKeys[dependencyKey] = depth`. -/
def addDependency (inst : ComponentInstance P) (dependencyKey : String) (depth : Int) :
    ComponentInstance P :=
  { inst with DependencyKeys := inst.DependencyKeys.set dependencyKey depth }

/-- `instance.DataForPlugins[AllowIngres] = strconv.FormatBool(!result.RejectIngress)`. -/
def addRuleInformation (inst : ComponentInstance P) (result : RuleActionResult) :
    ComponentInstance P :=
  { inst with
    DataForPlugins := inst.DataForPlugins.set AllowIngres (FormatBool (!result.RejectIngress)) }

/-- Records code parameters, or reports a conflict with the recorded ones. The result is
the receiver after the call and the returned error. -/
def addCodeParams (inst : ComponentInstance P) (codeParams : P) :
    ComponentInstance P × Option (GoError P) :=
  if NestedParameterMap.len inst.CalculatedCodeParams = 0 then
    ({ inst with CalculatedCodeParams := codeParams }, none)
  else if !NestedParameterMap.DeepEqual inst.CalculatedCodeParams codeParams then
    (inst, some (.withDetails
      ("conflicting code parameters for component instance: " ++ inst.GetKey)
      (((GoMap.empty.set "code_params_existing" inst.CalculatedCodeParams).set
        "code_params_new" codeParams).set
        "diff" (NestedParameterMap.Diff inst.CalculatedCodeParams codeParams))))
  else
    (inst, none)

/-- Records discovery parameters, or reports a conflict with the recorded ones. The result
is the receiver after the call and the returned error. -/
def addDiscoveryParams (inst : ComponentInstance P) (discoveryParams : P) :
    ComponentInstance P × Option (GoError P) :=
  if NestedParameterMap.len inst.CalculatedDiscovery = 0 then
    ({ inst with CalculatedDiscovery := discoveryParams }, none)
  else if !NestedParameterMap.DeepEqual inst.CalculatedDiscovery discoveryParams then
    (inst, some (.withDetails
      ("conflicting discovery parameters for component instance: " ++ inst.GetKey)
      (((GoMap.empty.set "discovery_params_existing" inst.CalculatedDiscovery).set
        "discovery_params_new" discoveryParams).set
        "diff" (NestedParameterMap.Diff inst.CalculatedDiscovery discoveryParams))))
  else
    (inst, none)

/-- `instance.CalculatedLabels.AddLabels(labels.Labels)`. -/
def addLabels (inst : ComponentInstance P) (labels : LabelSet) : ComponentInstance P :=
  { inst with CalculatedLabels := inst.CalculatedLabels.AddLabels labels.Labels }

/-- `instance.EdgesOut[dstKey] = true`. -/
def addEdgeOut (inst : ComponentInstance P) (dstKey : String) : ComponentInstance P :=
  { inst with EdgesOut := inst.EdgesOut.set dstKey true }

/-- Appends the data of `ops` to `instance`; both have been populated already. A conflict is
recorded in `Error` and ends the merge at that point. -/
def appendData (inst ops : ComponentInstance P) : ComponentInstance P :=
  -- Combine dependencies which are keeping this component instantiated
  let inst := ops.DependencyKeys.entries.foldl
    (fun inst kv => inst.addDependency kv.1 kv.2) inst
  -- Transfer IsCode bool
  if inst.IsCode != ops.IsCode then
    { inst with
      Error := some (.errorf ("component " ++ inst.GetKey ++
        " can't be converted from code to non-code and vice versa")) }
  else
    let inst := { inst with IsCode := inst.IsCode || ops.IsCode }
    -- Combine labels
    let inst := inst.addLabels ops.CalculatedLabels
    -- Combine discovery params
    match inst.addDiscoveryParams ops.CalculatedDiscovery with
    | (inst, some err) => { inst with Error := some err }
    | (inst, none) =>
      -- Combine code params
      match inst.addCodeParams ops.CalculatedCodeParams with
      | (inst, some err) => { inst with Error := some err }
      | (inst, none) =>
        -- Outgoing graph edges
        let inst := ops.EdgesOut.entries.foldl (fun inst kv => inst.addEdgeOut kv.1) inst
        -- Data for plugins
        ops.DataForPlugins.entries.foldl
          (fun inst kv => { inst with DataForPlugins := inst.DataForPlugins.set kv.1 kv.2 })
          inst

/-- A contribution `new` conflicts with the recorded parameters `existing`: the recorded map
is non-empty and not deep-equal to the contribution. -/
def paramsConflict (existing new : P) : Bool :=
  NestedParameterMap.len existing != 0 && !NestedParameterMap.DeepEqual existing new

/-- The merge of `ops` into `inst` conflicts: the `IsCode` flags differ, or the discovery
params conflict, or the code params conflict. -/
def mergeConflict (inst ops : ComponentInstance P) : Bool :=
  inst.IsCode != ops.IsCode ||
    paramsConflict inst.CalculatedDiscovery ops.CalculatedDiscovery ||
    paramsConflict inst.CalculatedCodeParams ops.CalculatedCodeParams

end ComponentInstance

/-! ## `policy_resolution.go` -/

/-- The resolution data of a policy: the desired state computed by the resolver, or the actual
state loaded from the store. -/
structure PolicyResolution (P : Type) where
  isDesired : Bool
  ComponentInstanceMap : GoMap (ComponentInstance P)
  dependencyInstanceMap : GoMap DependencyResolution
  componentProcessingOrderHas : GoMap Bool
  componentProcessingOrder : List String

/-- Creates a new empty resolution. -/
def NewPolicyResolution {P : Type} (isDesired : Bool) : PolicyResolution P :=
  { isDesired := isDesired
    ComponentInstanceMap := GoMap.empty
    dependencyInstanceMap := GoMap.empty
    componentProcessingOrderHas := GoMap.empty
    componentProcessingOrder := [] }

namespace PolicyResolution

variable {P : Type} [NestedParameterMap P]

/-- Retrieves the entry of a key, creating it when it does not exist. The result is the
resolution after the call and the entry that the returned pointer refers to. -/
def GetComponentInstanceEntry (resolution : PolicyResolution P) (cik : ComponentInstanceKey) :
    PolicyResolution P × ComponentInstance P :=
  let key := cik.GetKey
  match resolution.ComponentInstanceMap.get key with
  | some inst => (resolution, inst)
  | none =>
    ({ resolution with
        ComponentInstanceMap := resolution.ComponentInstanceMap.set key (ComponentInstance.new cik) },
      ComponentInstance.new cik)

/-- The effect on the map of a mutation made through the pointer that
`GetComponentInstanceEntry cik` returned: the entry of `cik.GetKey` now holds `inst`. -/
def storeEntry (resolution : PolicyResolution P) (cik : ComponentInstanceKey)
    (inst : ComponentInstance P) : PolicyResolution P :=
  { resolution with ComponentInstanceMap := resolution.ComponentInstanceMap.set cik.GetKey inst }

/-- Records the processing order of a key the first time the key is seen. A missing key of
`componentProcessingOrderHas` reads as `false`. -/
def recordProcessingOrder (resolution : PolicyResolution P) (cik : ComponentInstanceKey) :
    PolicyResolution P :=
  let key := cik.GetKey
  if !(resolution.componentProcessingOrderHas.get key).getD false then
    { resolution with
      componentProcessingOrderHas := resolution.componentProcessingOrderHas.set key true
      componentProcessingOrder := resolution.componentProcessingOrder ++ [key] }
  else
    resolution

/-- Adds a dependency record to the instance of `cik`. `dependencyKey` is the value of
`runtime.KeyForStorable(dependency)`; `depth` is the depth that `addDependency` stores with
it. -/
def RecordResolved (resolution : PolicyResolution P) (cik : ComponentInstanceKey)
    (dependencyKey : String) (depth : Int) (ruleResult : RuleActionResult) :
    PolicyResolution P :=
  let (resolution, inst) := resolution.GetComponentInstanceEntry cik
  let inst := inst.addDependency dependencyKey depth
  let inst := inst.addRuleInformation ruleResult
  let resolution := resolution.storeEntry cik inst
  resolution.recordProcessingOrder cik

/-- Stores calculated code params for the instance of `cik`; returns the error of
`addCodeParams`. -/
def RecordCodeParams (resolution : PolicyResolution P) (cik : ComponentInstanceKey)
    (codeParams : P) : PolicyResolution P × Option (GoError P) :=
  let (resolution, inst) := resolution.GetComponentInstanceEntry cik
  let (inst, err) := inst.addCodeParams codeParams
  (resolution.storeEntry cik inst, err)

/-- Stores calculated discovery params for the instance of `cik`; returns the error of
`addDiscoveryParams`. -/
def RecordDiscoveryParams (resolution : PolicyResolution P) (cik : ComponentInstanceKey)
    (discoveryParams : P) : PolicyResolution P × Option (GoError P) :=
  let (resolution, inst) := resolution.GetComponentInstanceEntry cik
  let (inst, err) := inst.addDiscoveryParams discoveryParams
  (resolution.storeEntry cik inst, err)

/-- Stores calculated labels for the instance of `cik`. -/
def RecordLabels (resolution : PolicyResolution P) (cik : ComponentInstanceKey)
    (labels : LabelSet) : PolicyResolution P :=
  let (resolution, inst) := resolution.GetComponentInstanceEntry cik
  resolution.storeEntry cik (inst.addLabels labels)

/-- Stores the graph edge from `src` to `dst`; a nil key is `none`. The entry of `dst` is
retrieved (and so created when absent) for `addEdgeIn`; a component instance has no field for
incoming edges, so that call changes none of its fields. -/
def StoreEdge (resolution : PolicyResolution P) (src dst : Option ComponentInstanceKey) :
    PolicyResolution P :=
  match src, dst with
  | some src, some dst =>
    let (resolution, inst) := resolution.GetComponentInstanceEntry src
    let resolution := resolution.storeEntry src (inst.addEdgeOut dst.GetKey)
    let (resolution, _) := resolution.GetComponentInstanceEntry dst
    resolution
  | _, _ => resolution

/-- The error of a call `entry.appendData(ops)`, which `AppendData` binds to `err`. In the
sources at hand `appendData` has no result and stores a conflict in `Error` of the receiver,
while `AppendData` tests the result of the call and is documented to report a conflict. The
error of the call is the conflict that ends the merge, at each of the three places where
`appendData` stores one and returns, and nil when the merge runs to its end. -/
def appendDataErr (inst ops : ComponentInstance P) : Option (GoError P) :=
  let inst := ops.DependencyKeys.entries.foldl
    (fun inst kv => inst.addDependency kv.1 kv.2) inst
  if inst.IsCode != ops.IsCode then
    some (.errorf ("component " ++ inst.GetKey ++
      " can't be converted from code to non-code and vice versa"))
  else
    let inst := { inst with IsCode := inst.IsCode || ops.IsCode }
    let inst := inst.addLabels ops.CalculatedLabels
    match inst.addDiscoveryParams ops.CalculatedDiscovery with
    | (_, some err) => some err
    | (inst, none) => (inst.addCodeParams ops.CalculatedCodeParams).2

/-- The first loop of `AppendData` over the entries of `ops.ComponentInstanceMap`: the entry
of the instance's own key is retrieved (or created) and the instance is appended to it; the
loop returns at the first call of `appendData` that reports a conflict. -/
def appendInstances (resolution : PolicyResolution P) :
    List (String × ComponentInstance P) → PolicyResolution P × Option (GoError P)
  | [] => (resolution, none)
  | (_, inst) :: rest =>
    let (resolution, entry) := resolution.GetComponentInstanceEntry inst.Metadata.Key
    let err := appendDataErr entry inst
    let resolution := resolution.storeEntry inst.Metadata.Key (entry.appendData inst)
    match err with
    | some err => (resolution, some err)
    | none => appendInstances resolution rest

/-- Aggregates the data of `ops` into the resolution, instance by instance, and then records
the processing order of the instances of `ops`; a conflict is returned at once, before the
instances that follow and before the processing order. -/
def AppendData (resolution ops : PolicyResolution P) : PolicyResolution P × Option (GoError P) :=
  match appendInstances resolution ops.ComponentInstanceMap.entries with
  | (resolution, some err) => (resolution, some err)
  | (resolution, none) =>
    (ops.ComponentInstanceMap.entries.foldl
      (fun res kv => res.recordProcessingOrder kv.2.Metadata.Key) resolution, none)

/-- Every instance of the map is stored under its own key: the map is `componentKey ->
componentInstance`. -/
def KeyedByInstanceKey (resolution : PolicyResolution P) : Prop :=
  ∀ kv ∈ resolution.ComponentInstanceMap.entries, kv.2.GetKey = kv.1

/-- The resolutions that can be reached from `NewPolicyResolution` by a sequence of
`RecordResolved`, `RecordCodeParams`, `RecordDiscoveryParams`, `RecordLabels`, `StoreEdge`
and `AppendData`, with any arguments. -/
inductive Reachable : PolicyResolution P → Prop where
  | new (isDesired : Bool) : Reachable (NewPolicyResolution isDesired)
  | recordResolved {r : PolicyResolution P} (cik : ComponentInstanceKey)
      (dependencyKey : String) (depth : Int) (ruleResult : RuleActionResult) :
      Reachable r → Reachable (r.RecordResolved cik dependencyKey depth ruleResult)
  | recordCodeParams {r : PolicyResolution P} (cik : ComponentInstanceKey) (codeParams : P) :
      Reachable r → Reachable (r.RecordCodeParams cik codeParams).1
  | recordDiscoveryParams {r : PolicyResolution P} (cik : ComponentInstanceKey)
      (discoveryParams : P) :
      Reachable r → Reachable (r.RecordDiscoveryParams cik discoveryParams).1
  | recordLabels {r : PolicyResolution P} (cik : ComponentInstanceKey) (labels : LabelSet) :
      Reachable r → Reachable (r.RecordLabels cik labels)
  | storeEdge {r : PolicyResolution P} (src dst : Option ComponentInstanceKey) :
      Reachable r → Reachable (r.StoreEdge src dst)
  | appendData {r : PolicyResolution P} (ops : PolicyResolution P) :
      Reachable r → Reachable (r.AppendData ops).1

/-- The resolutions that can be reached from `NewPolicyResolution` by a sequence of
`RecordResolved` and of calls of `AppendData` that return no error, with any arguments. -/
inductive ReachableByRecording : PolicyResolution P → Prop where
  | new (isDesired : Bool) : ReachableByRecording (NewPolicyResolution isDesired)
  | recordResolved {r : PolicyResolution P} (cik : ComponentInstanceKey)
      (dependencyKey : String) (depth : Int) (ruleResult : RuleActionResult) :
      ReachableByRecording r →
        ReachableByRecording (r.RecordResolved cik dependencyKey depth ruleResult)
  | appendData {r : PolicyResolution P} (ops : PolicyResolution P) :
      ReachableByRecording r → (r.AppendData ops).2 = none →
        ReachableByRecording (r.AppendData ops).1

/-- The invariant that ties the processing order to its membership map and to the instance
map: a key has been recorded exactly when it is in the order, the order has no key twice, and
every key of the order is a key of the instance map. -/
structure OrderInv (r : PolicyResolution P) : Prop where
  has_iff : ∀ k, (r.componentProcessingOrderHas.get k).getD false = true ↔
    k ∈ r.componentProcessingOrder
  nodup : r.componentProcessingOrder.Nodup
  mem_map : ∀ k, k ∈ r.componentProcessingOrder → k ∈ r.ComponentInstanceMap.keys

end PolicyResolution

/-! ## A concrete parameter map

Flat parameter maps with string values, such as `port: 5000`, instantiate
`NestedParameterMap`; the concrete examples below are evaluated on them. -/

/-- Deep equality of two flat maps: the same number of entries, and every entry of the first
is an entry of the second. -/
def GoMap.deepEqual (a b : GoMap String) : Bool :=
  a.len == b.len && a.entries.all (fun kv => b.get kv.1 == some kv.2)

/-- The entries of the first flat map that the second does not hold with the same value. -/
def GoMap.diff (a b : GoMap String) : GoMap String :=
  ⟨a.entries.filter (fun kv => !(b.get kv.1 == some kv.2)),
    List.Nodup.sublist (List.Sublist.map Prod.fst (List.filter_sublist _)) a.nodup⟩

instance : NestedParameterMap (GoMap String) where
  empty := GoMap.empty
  len := GoMap.len
  DeepEqual := GoMap.deepEqual
  Diff := GoMap.diff
  len_empty := rfl

/-- A flat map of one entry. -/
def GoMap.single {V : Type} (k : String) (v : V) : GoMap V := GoMap.empty.set k v

/-- The key of component `c` of service `S` on cluster `k1`. -/
def exampleKey : ComponentInstanceKey :=
  { Namespace := "main", ContractName := "S", ContextName := "prod",
    AllocationNameResolved := "a", ServiceName := "S", ComponentName := "c",
    ClusterName := "k1" }

/-- The key of the root instance of service `S` on cluster `k1`. -/
def exampleRootKey : ComponentInstanceKey := { exampleKey with ComponentName := "#root" }

/-- A code instance with code params `port: 5000`, ingress allowed, kept alive by claim
`dep1`. -/
def port5000 : ComponentInstance (GoMap String) :=
  { (ComponentInstance.new exampleKey) with
    IsCode := true
    CalculatedCodeParams := GoMap.single "port" "5000"
    DependencyKeys := GoMap.single "dep1" 0
    DataForPlugins := (GoMap.single AllowIngres "true").set "zone" "a" }

/-- A contribution for the same key with code params `port: 6000`, an outgoing edge and
ingress allowed, kept alive by claim `dep2`. -/
def port6000 : ComponentInstance (GoMap String) :=
  { (ComponentInstance.new exampleKey) with
    IsCode := true
    CalculatedCodeParams := GoMap.single "port" "6000"
    DependencyKeys := GoMap.single "dep2" 1
    EdgesOut := GoMap.single "x" true
    DataForPlugins := GoMap.single AllowIngres "true" }

/-- A contribution for the same key that agrees on `port: 5000`, has an outgoing edge, and
comes from a claim for which ingress is rejected. -/
def port5000NoIngress : ComponentInstance (GoMap String) :=
  { (ComponentInstance.new exampleKey) with
    IsCode := true
    CalculatedCodeParams := GoMap.single "port" "5000"
    DependencyKeys := GoMap.single "dep2" 1
    EdgesOut := GoMap.single "x" true
    DataForPlugins := (GoMap.single AllowIngres "false").set "zone" "b" }

/-- The resolution of a claim that resolved component `c` with code params `port: 5000`. -/
def resolved5000 : PolicyResolution (GoMap String) :=
  (((NewPolicyResolution true).RecordResolved exampleKey "dep1" 0 ⟨false, GoMap.empty⟩).RecordCodeParams
    exampleKey (GoMap.single "port" "5000")).1

/-- The resolution of a second claim that resolved component `c` with code params
`port: 6000` and then the root instance of the service. -/
def resolved6000 : PolicyResolution (GoMap String) :=
  ((((NewPolicyResolution true).RecordResolved exampleKey "dep2" 0 ⟨false, GoMap.empty⟩).RecordCodeParams
    exampleKey (GoMap.single "port" "6000")).1).RecordResolved exampleRootKey "dep2" 0 ⟨false, GoMap.empty⟩

/-- The resolution of a claim that resolved component `c` and recorded no params. -/
def recordedOnly : PolicyResolution (GoMap String) :=
  (NewPolicyResolution true).RecordResolved exampleKey "dep1" 0 ⟨false, GoMap.empty⟩

/-- A resolution in which the code params of component `c` have been recorded and the
component has not been recorded as resolved. -/
def paramsOnly : PolicyResolution (GoMap String) :=
  ((NewPolicyResolution true).RecordCodeParams exampleKey (GoMap.single "port" "5000")).1

/-- A new resolution to which the resolution `paramsOnly` has been appended: it holds
component `c` with code params `port: 5000`, and the component is in the processing order. -/
def appended5000 : PolicyResolution (GoMap String) :=
  ((NewPolicyResolution true).AppendData paramsOnly).1

/-- The resolution of a claim that resolved the root instance of the service and then
recorded the code params `port: 6000` of component `c`. The instance map is visited in this
order. -/
def rootThen6000 : PolicyResolution (GoMap String) :=
  (((NewPolicyResolution true).RecordResolved exampleRootKey "dep2" 0 ⟨false, GoMap.empty⟩).RecordCodeParams
    exampleKey (GoMap.single "port" "6000")).1

/-- A contribution for the same key that is not code and has an outgoing edge. -/
def nonCode : ComponentInstance (GoMap String) :=
  { (ComponentInstance.new exampleKey) with
    DependencyKeys := GoMap.single "dep2" 1
    EdgesOut := GoMap.single "x" true }

/-- The resolution of a claim on service `S`: component `c` is recorded first, the root of
the service after it. The instance map is visited in this order. -/
def resolvedComponentFirst : PolicyResolution (GoMap String) :=
  ((NewPolicyResolution true).RecordResolved exampleKey "dep1" 0 ⟨false, GoMap.empty⟩).RecordResolved
    exampleRootKey "dep1" 0 ⟨false, GoMap.empty⟩

/-- The same resolution with the same instance map, visited in the opposite order. -/
def resolvedRootFirst : PolicyResolution (GoMap String) :=
  { resolvedComponentFirst with
    ComponentInstanceMap :=
      ⟨resolvedComponentFirst.ComponentInstanceMap.entries.reverse, by
        rw [List.map_reverse]
        exact List.nodup_reverse.2 resolvedComponentFirst.ComponentInstanceMap.nodup⟩ }

/-- Modelled from the spec: the resolver that calls `StoreEdge` and `RecordResolved` is not in
the sources at hand. This is the resolution that the spec expects for a single claim on
service `S` with one code component `c`, "`processingOrder = [S/c@k1, S#root@k1]`;
`edgesOut[S#root@k1] ⊇ {S/c@k1}`": the edge from the root of the service to component `c` is
stored, then the component is recorded, then the root. -/
def resolvedScenario : PolicyResolution (GoMap String) :=
  (((NewPolicyResolution true).StoreEdge (some exampleRootKey) (some exampleKey)).RecordResolved
    exampleKey "dep1" 0 ⟨false, GoMap.empty⟩).RecordResolved exampleRootKey "dep1" 0 ⟨false, GoMap.empty⟩

/-! ## `pkg/slinga`: `label.go`

The first engine of the repository. In this package a label map may be nil, which is `none`
here. -/

namespace Slinga

/-- The set of labels that is manipulated; `Labels` is `none` for a nil map. -/
structure LabelSet where
  Labels : Option (GoMap String)

/-- Label operations, `map[string]map[string]string`: the code reads the keys `set` and
`remove`. The type is declared outside the sources at hand. -/
abbrev LabelOperations := GoMap (GoMap String)

/-- The map `(*ops)["set"]` of a pointer to label operations that may be nil. -/
def opsSet (ops : Option LabelOperations) : Option (GoMap String) :=
  match ops with
  | none => none
  | some ops => ops.get "set"

/-- The map `(*ops)["remove"]` of a pointer to label operations that may be nil. -/
def opsRemove (ops : Option LabelOperations) : Option (GoMap String) :=
  match ops with
  | none => none
  | some ops => ops.get "remove"

namespace LabelSet

/-- Applies a set of transformations to labels: copy the original labels, then set labels,
then remove labels. A nil `ops` is `none`. -/
def applyTransform (src : LabelSet) (ops : Option LabelOperations) : LabelSet :=
  let result : GoMap String := GoMap.empty
  -- copy original labels
  let result := (GoMap.rangeOf src.Labels).foldl (fun r kv => r.set kv.1 kv.2) result
  match ops with
  | none => ⟨some result⟩
  | some ops =>
    -- set labels
    let result := (GoMap.rangeOf (ops.get "set")).foldl (fun r kv => r.set kv.1 kv.2) result
    -- remove labels
    let result := (GoMap.rangeOf (ops.get "remove")).foldl (fun r kv => r.delete kv.1) result
    ⟨some result⟩

/-- Merges two sets of labels: copy the original labels, then put the new labels. -/
def addLabels (src ops : LabelSet) : LabelSet :=
  let result : GoMap String := GoMap.empty
  -- copy original labels
  let result := (GoMap.rangeOf src.Labels).foldl (fun r kv => r.set kv.1 kv.2) result
  -- put new labels
  let result := (GoMap.rangeOf ops.Labels).foldl (fun r kv => r.set kv.1 kv.2) result
  ⟨some result⟩

/-- Go `reflect.DeepEqual` on two values of type `map[string]string`: both are nil or both are
not nil, they have the same length, and the keys of the first map to the same values in the
second. -/
def deepEqualLabels : Option (GoMap String) → Option (GoMap String) → Bool
  | none, none => true
  | some a, some b => a.len == b.len && a.entries.all (fun kv => b.get kv.1 == some kv.2)
  | none, some _ => false
  | some _, none => false

/-- Compares two label sets. If one is nil and another one is empty, it returns true as
well. -/
def equal (src dst : LabelSet) : Bool :=
  if GoMap.lenOf src.Labels = 0 ∧ GoMap.lenOf dst.Labels = 0 then true
  else deepEqualLabels src.Labels dst.Labels

end LabelSet

/-- The fields of `User` that the engine reads. The type is declared outside the sources at
hand. -/
structure User where
  ID : String
  Name : String
  Labels : Option (GoMap String)

/-- The part of the value of `LoadUserSecretsByIDFromDir` that `getLabelSet` reads. -/
structure UserSecrets where
  Labels : Option (GoMap String)

/-- The labels of a user: the labels of the user overlaid with the labels of the secrets that
`loadSecrets`, standing for `LoadUserSecretsByIDFromDir`, returns for the directory and the
ID of the user. -/
def User.getLabelSet (loadSecrets : String → String → UserSecrets) (user : User)
    (dir : String) : LabelSet :=
  let secrets := loadSecrets dir user.ID
  LabelSet.addLabels ⟨user.Labels⟩ ⟨secrets.Labels⟩

/-! ## `pkg/slinga`: `engine.go` -/

/-- The fields of a service component that the engine reads; `Code` is only tested against
nil. The type is declared outside the sources at hand. -/
structure ServiceComponent where
  Name : String
  Service : String
  Code : Option String
  Dependencies : List String
  Labels : Option LabelOperations

/-- The fields of an allocation that the engine reads. The type is declared outside the
sources at hand. -/
structure Allocation where
  Name : String
  NameResolved : String
  Labels : Option LabelOperations

/-- The fields of a context that the engine reads. The type is declared outside the sources
at hand. -/
structure Context where
  Name : String
  Labels : Option LabelOperations
  Allocations : List Allocation

/-- The fields of a service that the engine reads. `componentsOrdered` caches the sorted
components; it starts as the nil slice and is only appended to, so nil is the empty list. -/
structure Service where
  Name : String
  Components : List ServiceComponent
  componentsOrdered : List ServiceComponent

/-- The fields of the policy that the engine reads. -/
structure Policy where
  Services : GoMap Service
  Contexts : GoMap (List Context)

/-- A recorded "user needs service" dependency, with the labels given with it. -/
structure Dependency where
  UserId : String
  Labels : Option (GoMap String)

/-- Modelled from the spec: `Dependency.getLabelSet` is not in the sources at hand; the spec
lists the labels among the fields of a claim and starts from "user labels ⨁ claim labels". -/
def Dependency.getLabelSet (d : Dependency) : LabelSet := ⟨d.Labels⟩

/-- The users by ID. -/
structure GlobalUsers where
  Users : GoMap User

/-- The state that the engine works on: the policy, the recorded dependencies by service
name, the component keys of every resolved service, the processing order of the recorded
usage keys, and the labels calculated for every recorded usage key (`istio.go` reads them for
a key of the processing order as `CalculatedLabels`). -/
structure ServiceUsageState where
  Policy : Policy
  Dependencies : GoMap (List Dependency)
  ComponentInstanceMap : GoMap (GoMap String)
  ComponentProcessingOrder : List String
  CalculatedLabels : GoMap LabelSet

/-- The functions of package `slinga` that the engine calls and that are declared outside the
sources at hand: the criteria of a context and of an allocation, `Allocation.resolveName`
(the allocation after the call and the returned error), the loader of user secrets, the
directory that `getLabelSet` is given, and the serialization of a usage key from the names
of the service, the context, the resolved allocation and the component (`none` for the
service itself). -/
structure Externals where
  contextMatches : Context → LabelSet → Bool
  allocationMatches : Allocation → LabelSet → Bool
  resolveName : Allocation → User → Allocation × Option String
  LoadUserSecretsByIDFromDir : String → String → UserSecrets
  secretsDir : String
  usageKey : String → String → String → Option String → String

/-- How a call ends: it returns, or the process exits in `glog.Fatalf`, or the recursion is
deeper than the fuel given to the model. -/
inductive Outcome (α : Type) where
  | returned (value : α)
  | fatal (message : String)
  | outOfFuel

/-- Helper to get a service. -/
def Policy.getService (policy : Policy) (serviceName : String) :
    Option Service × Option String :=
  match policy.Services.get serviceName with
  | none => (none, some ("Service " ++ serviceName ++ " not found"))
  | some service => (some service, none)

/-- The loop of `getMatchedContext`: the first context that matches, with `break`. -/
def firstMatchedContext (x : Externals) (labels : LabelSet) : List Context → Option Context
  | [] => none
  | c :: rest => if x.contextMatches c labels then some c else firstMatchedContext x labels rest

/-- Helper to get a matched context. -/
def Policy.getMatchedContext (x : Externals) (policy : Policy) (service : Service)
    (_user : User) (labels : LabelSet) : Option Context × Option String :=
  -- Locate the list of contexts for service
  match policy.Contexts.get service.Name with
  | none => (none, some ("No contexts found for " ++ service.Name))
  | some contexts =>
    -- See which context matches
    (firstMatchedContext x labels contexts, none)

/-- The loop of `getMatchedAllocation`: the first allocation that matches, with `break`. -/
def firstMatchedAllocation (x : Externals) (labels : LabelSet) :
    List Allocation → Option Allocation
  | [] => none
  | a :: rest =>
    if x.allocationMatches a labels then some a else firstMatchedAllocation x labels rest

/-- Helper to get a matched allocation. The result is the returned allocation, which is the
allocation after `resolveName`, and the returned error; `resolveName` is called through the
pointer to the allocation of the policy, and `Policy.storeResolvedName` is the policy after
the call. -/
def Policy.getMatchedAllocation (x : Externals) (_policy : Policy) (_service : Service)
    (user : User) (context : Context) (labels : LabelSet) :
    Option Allocation × Option String :=
  -- See which allocation matches
  match firstMatchedAllocation x labels context.Allocations with
  | some allocationMatched =>
    -- Check errors and resolve allocation name
    match x.resolveName allocationMatched user with
    | (_, some _) => (none, none)
    | (allocationMatched, none) => (some allocationMatched, none)
  | none => (none, none)

/-- The allocations of a context after `getMatchedAllocation`: `resolveName` is called
through the pointer to the first allocation that matches, so in the list that allocation is
the allocation after the call, whether or not the call returned an error. -/
def resolveFirstMatched (x : Externals) (user : User) (labels : LabelSet) :
    List Allocation → List Allocation
  | [] => []
  | a :: rest =>
    if x.allocationMatches a labels then (x.resolveName a user).1 :: rest
    else a :: resolveFirstMatched x user labels rest

/-- The contexts of a service after `getMatchedAllocation` was called for the context that
`getMatchedContext` returned for `contextLabels`, the first one that matches them: its
allocations are the allocations after the call. -/
def resolveInMatchedContext (x : Externals) (user : User) (contextLabels labels : LabelSet) :
    List Context → List Context
  | [] => []
  | c :: rest =>
    if x.contextMatches c contextLabels then
      { c with Allocations := resolveFirstMatched x user labels c.Allocations } :: rest
    else c :: resolveInMatchedContext x user contextLabels labels rest

/-- The policy after `getMatchedAllocation` was called with the context that
`getMatchedContext` returned for `contextLabels`: a context is a pointer into the policy and
holds pointers to its allocations, so the name that `resolveName` resolved is written into
the allocation of the policy. -/
def Policy.storeResolvedName (x : Externals) (policy : Policy) (service : Service)
    (user : User) (contextLabels labels : LabelSet) : Policy :=
  match policy.Contexts.get service.Name with
  | none => policy
  | some contexts =>
    { policy with
      Contexts := policy.Contexts.set service.Name
        (resolveInMatchedContext x user contextLabels labels contexts) }

/-- Modelled from the spec: `Service.getComponentsMap` is not in the sources at hand; the spec
describes it as the "component name map" of a bundle. Every component is stored under its
name. -/
def Service.getComponentsMap (service : Service) : GoMap ServiceComponent :=
  service.Components.foldl (fun m c => m.set c.Name c) GoMap.empty

/-- The colours and the cached list that `dfsComponentSort` mutates. -/
structure DfsState where
  colors : GoMap Int
  componentsOrdered : List ServiceComponent

/-- The loop of `dfsComponentSort` over the dependencies of a component; `visit` is the
recursive call. The result is `true` when a cycle was found. -/
def dfsDependencies (visit : ServiceComponent → DfsState → Outcome (DfsState × Bool))
    (service : Service) : List String → DfsState → Outcome (DfsState × Bool)
  | [], st => .returned (st, false)
  | vName :: rest, st =>
    match service.getComponentsMap.get vName with
    | none => .fatal ("Invalid dependency in service " ++ service.Name ++ ": " ++ vName)
    | some v =>
      match st.colors.get v.Name with
      | none =>
        -- not visited yet -> visit and exit if a cycle was found
        match visit v st with
        | .returned (st, true) => .returned (st, true)
        | .returned (st, false) => dfsDependencies visit service rest st
        | .fatal message => .fatal message
        | .outOfFuel => .outOfFuel
      | some vColor =>
        if vColor = 1 then .returned (st, true) else dfsDependencies visit service rest st

/-- Topologically sorts the components reachable from `u`; the result is `true` when a cycle
was detected. -/
def Service.dfsComponentSort : Nat → Service → ServiceComponent → DfsState →
    Outcome (DfsState × Bool)
  | 0, _, _, _ => .outOfFuel
  | fuel + 1, service, u, st =>
    let st := { st with colors := st.colors.set u.Name 1 }
    match dfsDependencies (Service.dfsComponentSort fuel service) service u.Dependencies st with
    | .returned (st, true) => .returned (st, true)
    | .returned (st, false) =>
      .returned ({ colors := st.colors.set u.Name 2
                   componentsOrdered := st.componentsOrdered ++ [u] }, false)
    | .fatal message => .fatal message
    | .outOfFuel => .outOfFuel

/-- The loop of `getComponentsSortedTopologically` over the components of the service, with
`break` at the first cycle. -/
def sortComponents (fuel : Nat) (service : Service) :
    List ServiceComponent → DfsState → Outcome (DfsState × Bool)
  | [], st => .returned (st, false)
  | c :: rest, st =>
    match st.colors.get c.Name with
    | none =>
      match service.dfsComponentSort fuel c st with
      | .returned (st, true) => .returned (st, true)
      | .returned (st, false) => sortComponents fuel service rest st
      | .fatal message => .fatal message
      | .outOfFuel => .outOfFuel
    | some _ => sortComponents fuel service rest st

/-- Sorts all components in a topological way. The result is the service after the call, the
returned list and the returned error. The depth-first search nests at most once per component
name, so it is given the number of components, plus one, as fuel. -/
def Service.getComponentsSortedTopologically (service : Service) :
    Outcome (Service × List ServiceComponent × Option String) :=
  if service.componentsOrdered.isEmpty then
    -- Initiate colors, Dfs
    match sortComponents (service.Components.length + 1) service service.Components
        ⟨GoMap.empty, service.componentsOrdered⟩ with
    | .returned (st, true) =>
      .returned ({ service with componentsOrdered := st.componentsOrdered }, [],
        some ("Component cycle detected in service " ++ service.Name))
    | .returned (st, false) =>
      .returned ({ service with componentsOrdered := st.componentsOrdered },
        st.componentsOrdered, none)
    | .fatal message => .fatal message
    | .outOfFuel => .outOfFuel
  else
    .returned (service, service.componentsOrdered, none)

/-- Modelled from the spec: the usage key of a component of a service, or of the service
itself for `none`; the spec says that the key "is a pure function of its tuple", serialized
by `usageKey`. -/
def createServiceUsageKey (x : Externals) (service : Service) (context : Context)
    (allocation : Allocation) (component : Option ServiceComponent) : String :=
  x.usageKey service.Name context.Name allocation.NameResolved (component.map (·.Name))

/-- Modelled from the spec: `recordUsage` is not in the sources at hand. It returns the usage
key. As the spec says, the labels are merged into the labels calculated for the key
("`calculatedLabels`: union across contributors", "all parameter/labels merges are keyed by"
the key; the union is `addLabels`), and the "processing order" is recorded "the first time a
key is finalized". -/
def ServiceUsageState.recordUsage (x : Externals) (usage : ServiceUsageState) (_user : User)
    (service : Service) (context : Context) (allocation : Allocation)
    (component : Option ServiceComponent) (labels : LabelSet) : ServiceUsageState × String :=
  let key := createServiceUsageKey x service context allocation component
  let usage := { usage with
    CalculatedLabels := usage.CalculatedLabels.set key
      (((usage.CalculatedLabels.get key).getD ⟨none⟩).addLabels labels) }
  if key ∈ usage.ComponentProcessingOrder then (usage, key)
  else ({ usage with ComponentProcessingOrder := usage.ComponentProcessingOrder ++ [key] }, key)

/-- The loop of `resolveWithLabels` over the sorted components; `resolve` is the recursive
call. The result is the state, the map `componentDepMap` and the error that ends
`resolveWithLabels`, if any. -/
def resolveComponents (x : Externals)
    (resolve : ServiceUsageState → User → String → LabelSet →
      Outcome (ServiceUsageState × Option String))
    (user : User) (service : Service) (context : Context) (allocation : Allocation)
    (labels : LabelSet) :
    List ServiceComponent → ServiceUsageState → GoMap String →
      Outcome (ServiceUsageState × GoMap String × Option String)
  | [], usage, componentDepMap => .returned (usage, componentDepMap, none)
  | component :: rest, usage, componentDepMap =>
    -- Process component and transform labels
    let componentLabels := labels.applyTransform component.Labels
    -- Is it a code?
    let resolved : Outcome (ServiceUsageState × Option String) :=
      if component.Code.isSome then .returned (usage, none)
      else if component.Service ≠ "" then resolve usage user component.Service componentLabels
      else .fatal ("Invalid component: " ++ component.Name ++ " (in " ++ service.Name ++ ")")
    match resolved with
    | .returned (usage, some err) => .returned (usage, componentDepMap, some err)
    | .returned (usage, none) =>
      -- Record usage of a given component
      let (usage, componentKey) :=
        usage.recordUsage x user service context allocation (some component) componentLabels
      resolveComponents x resolve user service context allocation labels rest usage
        (componentDepMap.set component.Name componentKey)
    | .fatal message => .fatal message
    | .outOfFuel => .outOfFuel

/-- The body of `resolveWithLabels`; `resolve` is the recursive call. The result is the state
after the call and the returned error. -/
def resolveStep (x : Externals)
    (resolve : ServiceUsageState → User → String → LabelSet →
      Outcome (ServiceUsageState × Option String))
    (usage : ServiceUsageState) (user : User) (serviceName : String) (labels : LabelSet) :
    Outcome (ServiceUsageState × Option String) :=
  -- Locate the service
  match usage.Policy.getService serviceName with
  | (_, some err) => .returned (usage, some err)
  | (none, none) => .fatal "nil pointer dereference"
  | (some service, none) =>
    -- Match the context
    match usage.Policy.getMatchedContext x service user labels with
    | (_, some err) => .returned (usage, some err)
    | (none, none) => .returned (usage, none)
    | (some context, none) =>
      -- The state once the allocation has been matched and its name resolved
      let matched : ServiceUsageState := { usage with
        Policy := usage.Policy.storeResolvedName x service user labels
          (labels.applyTransform context.Labels) }
      -- Process context and transform labels
      let labels := labels.applyTransform context.Labels
      -- Match the allocation
      match usage.Policy.getMatchedAllocation x service user context labels with
      | (_, some err) => .returned (matched, some err)
      | (none, none) => .returned (matched, none)
      | (some allocation, none) =>
        let usage := matched
        -- Process allocation and transform labels
        let labels := labels.applyTransform allocation.Labels
        -- Now, sort all components in topological order
        match service.getComponentsSortedTopologically with
        | .fatal message => .fatal message
        | .outOfFuel => .outOfFuel
        | .returned (service, componentsOrdered, err) =>
          let usage := { usage with
            Policy := { usage.Policy with
              Services := usage.Policy.Services.set serviceName service } }
          match err with
          | some err => .returned (usage, some err)
          | none =>
            -- Resolve every component
            match resolveComponents x resolve user service context allocation labels
                componentsOrdered usage GoMap.empty with
            | .fatal message => .fatal message
            | .outOfFuel => .outOfFuel
            | .returned (usage, _, some err) => .returned (usage, some err)
            | .returned (usage, componentDepMap, none) =>
              -- Record usage of a given service
              let (usage, serviceKey) :=
                usage.recordUsage x user service context allocation none labels
              .returned ({ usage with
                ComponentInstanceMap :=
                  usage.ComponentInstanceMap.set serviceKey componentDepMap }, none)

/-- Evaluates a "user needs service" statement: `resolveStep` with itself as the recursive
call, nested at most `fuel` deep. -/
def ServiceUsageState.resolveWithLabels (x : Externals) :
    Nat → ServiceUsageState → User → String → LabelSet →
      Outcome (ServiceUsageState × Option String)
  | 0, _, _, _, _ => .outOfFuel
  | fuel + 1, usage, user, serviceName, labels =>
    resolveStep x (ServiceUsageState.resolveWithLabels x fuel) usage user serviceName labels

/-- The labels with which `ResolveUsage` resolves a dependency: the labels of the user
combined with the labels of the dependency. -/
def initialLabels (x : Externals) (user : User) (d : Dependency) : LabelSet :=
  -- take user labels
  let labels := user.getLabelSet x.LoadUserSecretsByIDFromDir x.secretsDir
  -- combine them with dependency labels
  labels.addLabels d.getLabelSet

/-- The inner loop of `ResolveUsage`, over the dependencies recorded for one service name. A
user ID that is not in the map reads as the zero value of `User`. -/
def resolveDependencies (x : Externals) (fuel : Nat) (users : GlobalUsers)
    (serviceName : String) :
    List Dependency → ServiceUsageState → Outcome (ServiceUsageState × Option String)
  | [], usage => .returned (usage, none)
  | d :: rest, usage =>
    let user := (users.Users.get d.UserId).getD ⟨"", "", none⟩
    let labels := initialLabels x user d
    -- resolve usage via applying policy
    match usage.resolveWithLabels x fuel user serviceName labels with
    | .returned (usage, some err) => .returned (usage, some err)
    | .returned (usage, none) => resolveDependencies x fuel users serviceName rest usage
    | .fatal message => .fatal message
    | .outOfFuel => .outOfFuel

/-- The outer loop of `ResolveUsage`, over the entries of the dependency map in iteration
order. -/
def resolveServices (x : Externals) (fuel : Nat) (users : GlobalUsers) :
    List (String × List Dependency) → ServiceUsageState →
      Outcome (ServiceUsageState × Option String)
  | [], usage => .returned (usage, none)
  | (serviceName, dependencies) :: rest, usage =>
    match resolveDependencies x fuel users serviceName dependencies usage with
    | .returned (usage, some err) => .returned (usage, some err)
    | .returned (usage, none) => resolveServices x fuel users rest usage
    | .fatal message => .fatal message
    | .outOfFuel => .outOfFuel

/-- Evaluates all recorded "user needs service" dependencies. -/
def ServiceUsageState.ResolveUsage (x : Externals) (fuel : Nat) (usage : ServiceUsageState)
    (users : GlobalUsers) : Outcome (ServiceUsageState × Option String) :=
  resolveServices x fuel users usage.Dependencies.entries usage

/-! ### Predicates on the state of the engine -/

/-- In the list `l` the string `a` occurs before an occurrence of `b`. -/
def Precedes (l : List String) (a b : String) : Prop :=
  ∃ l1 l2, l = l1 ++ b :: l2 ∧ a ∈ l1

/-- The service sorts to `comps`: `getComponentsSortedTopologically` returns `comps` and no
error. -/
def Service.SortsTo (service : Service) (comps : List ServiceComponent) : Prop :=
  ∃ service', service.getComponentsSortedTopologically = .returned (service', comps, none)

/-- The invariant of the state of the engine: the processing order has no key twice; every
service is stored under its name; the component keys stored for a service key precede the
service key in the processing order; and when the key of a service is in the processing
order, the keys of the sorted components of the service precede it. -/
structure StateInv (x : Externals) (u : ServiceUsageState) : Prop where
  nodup : u.ComponentProcessingOrder.Nodup
  named : ∀ s svc, u.Policy.Services.get s = some svc → svc.Name = s
  edges : ∀ kr m name kc, u.ComponentInstanceMap.get kr = some m → m.get name = some kc →
    Precedes u.ComponentProcessingOrder kc kr
  roots : ∀ s svc c a, u.Policy.Services.get s = some svc →
    x.usageKey s c a none ∈ u.ComponentProcessingOrder →
    ∃ comps, svc.SortsTo comps ∧ ∀ comp ∈ comps,
      Precedes u.ComponentProcessingOrder (x.usageKey s c a (some comp.Name))
        (x.usageKey s c a none)

/-- The services of `u` that sort without error are services of `u'` that sort to the same
list. -/
def SortStable (u u' : ServiceUsageState) : Prop :=
  ∀ s svc comps, u.Policy.Services.get s = some svc → svc.SortsTo comps →
    ∃ svc', u'.Policy.Services.get s = some svc' ∧ svc'.SortsTo comps

/-- Example criteria: a context named `any` matches every label set and any other context
matches when the label `env` is its name; every allocation matches; the name of the
allocation `dynamic` resolves to the label `team` of the user and cannot be resolved without
it, any other name resolves to itself; there are no secrets; a usage key is the four names
joined by `#`, with `#root` for the service itself. -/
def exampleExternals : Externals where
  contextMatches := fun c labels =>
    c.Name == "any" || GoMap.getOf labels.Labels "env" == some c.Name
  allocationMatches := fun _ _ => true
  resolveName := fun a user =>
    if a.Name == "dynamic" then
      match GoMap.getOf user.Labels "team" with
      | some team => ({ a with NameResolved := team }, none)
      | none => (a, some "cannot resolve allocation name")
    else ({ a with NameResolved := a.Name }, none)
  LoadUserSecretsByIDFromDir := fun _ _ => ⟨none⟩
  secretsDir := ""
  usageKey := fun service context allocation component =>
    String.intercalate "#" [service, context, allocation, component.getD "#root"]

/-- A code component named `name`. -/
def codeComponent (name : String) : ServiceComponent :=
  { Name := name, Service := "", Code := some "helm", Dependencies := [], Labels := none }

/-- A component named `name` that refers to the service `service`. -/
def serviceComponent (name service : String) : ServiceComponent :=
  { Name := name, Service := service, Code := none, Dependencies := [], Labels := none }

/-- A context named `name` with the single allocation `a`. -/
def simpleContext (name : String) : Context :=
  { Name := name, Labels := none, Allocations := [⟨"a", "", none⟩] }

/-- A policy whose services all have the single context `any`. -/
def policyOf (services : List Service) : Policy :=
  { Services := services.foldl (fun m s => m.set s.Name s) GoMap.empty
    Contexts := services.foldl (fun m s => m.set s.Name [simpleContext "any"]) GoMap.empty }

/-- The state in which nothing is resolved yet. -/
def initialState (policy : Policy) (dependencies : GoMap (List Dependency)) :
    ServiceUsageState :=
  { Policy := policy, Dependencies := dependencies, ComponentInstanceMap := GoMap.empty,
    ComponentProcessingOrder := [], CalculatedLabels := GoMap.empty }

/-- The user `alice` with the label `env: prod`. -/
def alice : User := { ID := "alice", Name := "Alice", Labels := some (GoMap.single "env" "prod") }

/-- The users of the examples. -/
def exampleUsers : GlobalUsers := ⟨GoMap.single "alice" alice⟩

/-- A dependency of `alice` without labels of its own. -/
def aliceNeeds : Dependency := { UserId := "alice", Labels := none }

/-- Service `S` with the single code component `c`. -/
def serviceS : Service := { Name := "S", Components := [codeComponent "c"], componentsOrdered := [] }

/-- Service `T` with the single code component `d`. -/
def serviceT : Service := { Name := "T", Components := [codeComponent "d"], componentsOrdered := [] }

/-- Service `A`, whose component refers to service `B`. -/
def serviceA : Service :=
  { Name := "A", Components := [serviceComponent "b" "B"], componentsOrdered := [] }

/-- Service `B`, whose component refers back to service `A`. -/
def serviceB : Service :=
  { Name := "B", Components := [serviceComponent "a" "A"], componentsOrdered := [] }

/-- The policy with the services `S` and `T`. -/
def policyST : Policy := policyOf [serviceS, serviceT]

/-- The policy in which `A` and `B` refer to each other. -/
def policyCycle : Policy := policyOf [serviceA, serviceB]

/-- The labels with which the dependency of `alice` is resolved. -/
def aliceLabels : LabelSet := initialLabels exampleExternals alice aliceNeeds

/-- A context named `name` whose single allocation `a` has its name resolved. -/
def resolvedContext (name : String) : Context :=
  { Name := name, Labels := none, Allocations := [⟨"a", "a", none⟩] }

/-- The state of the policy in which `A` and `B` refer to each other, once both services
have been sorted and the names of their allocations resolved. -/
def cycleSorted : ServiceUsageState :=
  initialState
    { Services :=
        (policyOf [{ serviceA with componentsOrdered := [serviceComponent "b" "B"] },
          { serviceB with componentsOrdered := [serviceComponent "a" "A"] }]).Services
      Contexts := (GoMap.single "A" [resolvedContext "any"]).set "B" [resolvedContext "any"] }
    GoMap.empty

/-- The state of the same policy once `A` has been sorted and the name of its allocation
resolved, and `B` has not. -/
def cycleHalfSorted : ServiceUsageState :=
  initialState
    { Services :=
        (policyOf [{ serviceA with componentsOrdered := [serviceComponent "b" "B"] },
          serviceB]).Services
      Contexts := (GoMap.single "A" [resolvedContext "any"]).set "B" [simpleContext "any"] }
    GoMap.empty

/-- The dependencies of `alice` on `S` and on `T`; the map is visited in this order. -/
def dependenciesST : GoMap (List Dependency) :=
  (GoMap.single "S" [aliceNeeds]).set "T" [aliceNeeds]

/-- The same dependencies, visited in the opposite order. -/
def dependenciesTS : GoMap (List Dependency) :=
  ⟨dependenciesST.entries.reverse, by
    rw [List.map_reverse]
    exact List.nodup_reverse.2 dependenciesST.nodup⟩

/-- The dependencies of `alice` on a service `X` that is not in the policy and on `S`; the
map is visited in this order. -/
def dependenciesXS : GoMap (List Dependency) :=
  (GoMap.single "X" [aliceNeeds]).set "S" [aliceNeeds]

/-- The processing order and the error of a run of `ResolveUsage` that returned. -/
def orderAndError (o : Outcome (ServiceUsageState × Option String)) :
    Option (List String × Option String) :=
  match o with
  | .returned (usage, err) => some (usage.ComponentProcessingOrder, err)
  | .fatal _ => none
  | .outOfFuel => none

/-- The value of a call that returned. -/
def Outcome.result? {α : Type} : Outcome α → Option α
  | .returned value => some value
  | .fatal _ => none
  | .outOfFuel => none

/-- What `ResolveUsage` does with the result of a call of `resolveWithLabels`: an error is
returned at once, and without an error the pass goes on with `next`. -/
def Outcome.thenResolve (o : Outcome (ServiceUsageState × Option String))
    (next : ServiceUsageState → Outcome (ServiceUsageState × Option String)) :
    Outcome (ServiceUsageState × Option String) :=
  match o with
  | .returned (usage, some err) => .returned (usage, some err)
  | .returned (usage, none) => next usage
  | .fatal message => .fatal message
  | .outOfFuel => .outOfFuel

/-- A dependency of `alice` with the label `env: dev`. -/
def aliceNeedsDev : Dependency := { UserId := "alice", Labels := some (GoMap.single "env" "dev") }

/-- Label operations that set the label `k` to `v`. -/
def setLabel (k v : String) : Option LabelOperations :=
  some (GoMap.single "set" (GoMap.single k v))

/-- The code component `c` of service `W`; its operations set the label `env` to `qa`. -/
def frontCode : ServiceComponent := { codeComponent "c" with Labels := setLabel "env" "qa" }

/-- The component `t` of service `W`, which refers to service `D`; its operations set the
label `tier` to `db`. -/
def frontRef : ServiceComponent := { serviceComponent "t" "D" with Labels := setLabel "tier" "db" }

/-- Service `W` with the components `c` and `t`. -/
def serviceFront : Service :=
  { Name := "W", Components := [frontCode, frontRef], componentsOrdered := [] }

/-- Service `W` once its components have been sorted. -/
def frontSorted : Service := { serviceFront with componentsOrdered := [frontCode, frontRef] }

/-- Service `D` with the code component `d`. -/
def serviceBack : Service :=
  { Name := "D", Components := [codeComponent "d"], componentsOrdered := [] }

/-- The policy with the services `W` and `D`: the context of `W` matches always, the context
of `D` matches the label `env: prod`. -/
def policyFrontBack : Policy :=
  { Services := (GoMap.single "W" serviceFront).set "D" serviceBack
    Contexts := (GoMap.single "W" [simpleContext "any"]).set "D" [simpleContext "prod"] }

/-- The labels of the claim of `alice` on `W` after the transforms of the context and of the
allocation, which have no operations. -/
def frontLabels : LabelSet :=
  (aliceLabels.applyTransform (simpleContext "any").Labels).applyTransform none

/-- The state with which the loop over the components of `W` begins. -/
def frontStart : ServiceUsageState :=
  { initialState policyFrontBack GoMap.empty with
    Policy :=
      { Services := policyFrontBack.Services.set "W" frontSorted
        Contexts := (policyFrontBack.storeResolvedName exampleExternals serviceFront alice
          aliceLabels (aliceLabels.applyTransform (simpleContext "any").Labels)).Contexts } }

/-- The state once the component `c` of `W` has been recorded. -/
def frontAfterCode : ServiceUsageState :=
  (frontStart.recordUsage exampleExternals alice frontSorted (simpleContext "any")
    ⟨"a", "a", none⟩ (some frontCode) (frontLabels.applyTransform frontCode.Labels)).1

/-- The state once service `D` has been resolved for the component `t` of `W`. -/
def frontAfterBack : ServiceUsageState :=
  match frontAfterCode.resolveWithLabels exampleExternals 2 alice "D"
      (frontLabels.applyTransform frontRef.Labels) with
  | .returned (usage, _) => usage
  | .fatal _ => frontAfterCode
  | .outOfFuel => frontAfterCode

/-! ## `pkg/slinga`: `label.go` with maps held by reference

A map value of Go is a reference to a map. To state which maps a function writes, the maps of
labels that exist are kept in a list and a reference is an index into it. -/

/-- The maps of labels that exist at one moment. -/
structure LabelHeap where
  maps : List (GoMap String)

/-- A label set as Go holds it: `Labels` is a reference to a map, or nil. -/
structure LabelSetRef where
  Labels : Option Nat
deriving DecidableEq

/-- Applies `f` to the element of index `a`, when there is one. -/
def modifyAt {α : Type} (f : α → α) : Nat → List α → List α
  | _, [] => []
  | 0, m :: rest => f m :: rest
  | a + 1, m :: rest => m :: modifyAt f a rest

namespace LabelHeap

/-- The expression `make(map[string]string)`: a new empty map, and the reference to it. -/
def make (h : LabelHeap) : LabelHeap × Nat := (⟨h.maps ++ [GoMap.empty]⟩, h.maps.length)

/-- The map that a reference names; nil names no map. -/
def read (h : LabelHeap) (ref : Option Nat) : Option (GoMap String) :=
  match ref with
  | none => none
  | some a => h.maps[a]?

/-- The assignment `m[k] = v` through the reference `a`. -/
def assign (h : LabelHeap) (a : Nat) (k v : String) : LabelHeap :=
  ⟨modifyAt (fun m => m.set k v) a h.maps⟩

/-- The call `delete(m, k)` through the reference `a`. -/
def remove (h : LabelHeap) (a : Nat) (k : String) : LabelHeap :=
  ⟨modifyAt (fun m => m.delete k) a h.maps⟩

/-- The reference is nil or names a map that exists. -/
def Holds (h : LabelHeap) (ref : Option Nat) : Prop :=
  ∀ a, ref = some a → a < h.maps.length

end LabelHeap

/-- The reference `(*ops)[key]` of a pointer to label operations that may be nil; the values
of the operations are references to maps. -/
def opsRef (ops : Option (GoMap Nat)) (key : String) : Option Nat :=
  match ops with
  | none => none
  | some ops => ops.get key

namespace LabelSetRef

/-- The function `applyTransform` on references: the result is the maps after the call and the
returned label set. -/
def applyTransform (h : LabelHeap) (src : LabelSetRef) (ops : Option (GoMap Nat)) :
    LabelHeap × LabelSetRef :=
  let (h, result) := h.make
  -- copy original labels
  let h := (GoMap.rangeOf (h.read src.Labels)).foldl (fun h kv => h.assign result kv.1 kv.2) h
  match ops with
  | none => (h, ⟨some result⟩)
  | some ops =>
    -- set labels
    let h := (GoMap.rangeOf (h.read (ops.get "set"))).foldl
      (fun h kv => h.assign result kv.1 kv.2) h
    -- remove labels
    let h := (GoMap.rangeOf (h.read (ops.get "remove"))).foldl
      (fun h kv => h.remove result kv.1) h
    (h, ⟨some result⟩)

/-- The function `addLabels` on references: the result is the maps after the call and the
returned label set. -/
def addLabels (h : LabelHeap) (src ops : LabelSetRef) : LabelHeap × LabelSetRef :=
  let (h, result) := h.make
  -- copy original labels
  let h := (GoMap.rangeOf (h.read src.Labels)).foldl (fun h kv => h.assign result kv.1 kv.2) h
  -- put new labels
  let h := (GoMap.rangeOf (h.read ops.Labels)).foldl (fun h kv => h.assign result kv.1 kv.2) h
  (h, ⟨some result⟩)

end LabelSetRef

/-- Two maps of labels that exist: `env: prod` and `env: dev`. -/
def exampleHeap : LabelHeap := ⟨[GoMap.single "env" "prod", GoMap.single "env" "dev"]⟩

/-! ### Predicates on the components of a service -/

/-- The component named `a` depends on the component named `b`: a component of the service
with the name `a` lists `b` among its dependencies. -/
def Service.DependsOn (service : Service) (a b : String) : Prop :=
  ∃ c ∈ service.Components, c.Name = a ∧ b ∈ c.Dependencies

/-- The dependency graph of the components contains a cycle: some component depends on itself
through one or more dependencies. -/
def Service.HasCycle (service : Service) : Prop :=
  ∃ n, Relation.TransGen service.DependsOn n n

/-- Every dependency of a component names a component of the service. -/
def Service.DependenciesExist (service : Service) : Prop :=
  ∀ c ∈ service.Components, ∀ d ∈ c.Dependencies, d ∈ service.Components.map (·.Name)

/-- In the list every component is placed after all the components that it depends on. -/
def DependenciesFirst (comps : List ServiceComponent) : Prop :=
  ∀ l1 c l2, comps = l1 ++ c :: l2 → ∀ d ∈ c.Dependencies, d ∈ l1.map (·.Name)

/-- The invariant of the depth-first search: the sorted components are components of the
service with distinct names, their names are the names coloured 2, every colour is 1 or 2,
and every sorted component is placed after its dependencies. -/
structure DfsInv (service : Service) (st : DfsState) : Prop where
  sub : ∀ c ∈ st.componentsOrdered, c ∈ service.Components
  nodup : (st.componentsOrdered.map (·.Name)).Nodup
  black : ∀ n, st.colors.get n = some 2 ↔ n ∈ st.componentsOrdered.map (·.Name)
  range : ∀ n v, st.colors.get n = some v → v = 1 ∨ v = 2
  sorted : DependenciesFirst st.componentsOrdered

/-- What a search that found no cycle guarantees: the invariant holds afterwards, the names
coloured 1 are the same, the sorted list is extended, and no name loses its colour. -/
structure DfsPost (service : Service) (st st' : DfsState) : Prop where
  inv : DfsInv service st'
  gray : ∀ n, st'.colors.get n = some 1 ↔ st.colors.get n = some 1
  grows : st.componentsOrdered <+: st'.componentsOrdered
  mono : ∀ n, st.colors.get n ≠ none → st'.colors.get n ≠ none

/-- The number of components whose name has no colour. -/
def uncolored (service : Service) (st : DfsState) : Nat :=
  (service.Components.filter (fun c => (st.colors.get c.Name).isNone)).length

/-- What a call `visit` of the search guarantees for a component without colour, when every
name coloured 1 reaches the component through dependencies and fewer than `fuel` components
have no colour: the call returns; when it reports a cycle there is one; and when it reports
none, the component is coloured 2. -/
def VisitSpec (service : Service)
    (visit : ServiceComponent → DfsState → Outcome (DfsState × Bool)) (fuel : Nat) : Prop :=
  ∀ u st, DfsInv service st → u ∈ service.Components → st.colors.get u.Name = none →
    (∀ g, st.colors.get g = some 1 → Relation.ReflTransGen service.DependsOn g u.Name) →
    uncolored service st < fuel →
    ∃ st' b, visit u st = .returned (st', b) ∧ (b = true → service.HasCycle) ∧
      (b = false → DfsPost service st st' ∧ st'.colors.get u.Name = some 2)

/-- A service with the component `a` and the component `b`, which depends on itself. -/
def serviceSelfCycle : Service :=
  { Name := "C"
    Components := [codeComponent "a", { codeComponent "b" with Dependencies := ["b"] }]
    componentsOrdered := [] }

/-- A service in which the component `web` depends on the component `db`. -/
def serviceWebDb : Service :=
  { Name := "W"
    Components := [{ codeComponent "web" with Dependencies := ["db"] }, codeComponent "db"]
    componentsOrdered := [] }

/-! ### The depth-first search with the list of entered components

To count the calls of `dfsComponentSort`, the search is written a second time with one more
result: the names of the components for which `dfsComponentSort` was entered, in order. The
list is no part of the program. -/

/-- The loop of `dfsComponentSort` over the dependencies of a component, with the names
entered by the calls of `visit`. -/
def dfsDependenciesTraced
    (visit : ServiceComponent → DfsState → Outcome (DfsState × Bool × List String))
    (service : Service) : List String → DfsState → Outcome (DfsState × Bool × List String)
  | [], st => .returned (st, false, [])
  | vName :: rest, st =>
    match service.getComponentsMap.get vName with
    | none => .fatal ("Invalid dependency in service " ++ service.Name ++ ": " ++ vName)
    | some v =>
      match st.colors.get v.Name with
      | none =>
        -- not visited yet -> visit and exit if a cycle was found
        match visit v st with
        | .returned (st, true, entered) => .returned (st, true, entered)
        | .returned (st, false, entered) =>
          match dfsDependenciesTraced visit service rest st with
          | .returned (st, cycle, more) => .returned (st, cycle, entered ++ more)
          | .fatal message => .fatal message
          | .outOfFuel => .outOfFuel
        | .fatal message => .fatal message
        | .outOfFuel => .outOfFuel
      | some vColor =>
        if vColor = 1 then .returned (st, true, [])
        else dfsDependenciesTraced visit service rest st

/-- The function `dfsComponentSort` with the names of the components entered, of which the
name of `u` is the first. -/
def Service.dfsComponentSortTraced : Nat → Service → ServiceComponent → DfsState →
    Outcome (DfsState × Bool × List String)
  | 0, _, _, _ => .outOfFuel
  | fuel + 1, service, u, st =>
    let st := { st with colors := st.colors.set u.Name 1 }
    match dfsDependenciesTraced (Service.dfsComponentSortTraced fuel service) service
        u.Dependencies st with
    | .returned (st, true, entered) => .returned (st, true, u.Name :: entered)
    | .returned (st, false, entered) =>
      .returned ({ colors := st.colors.set u.Name 2
                   componentsOrdered := st.componentsOrdered ++ [u] }, false, u.Name :: entered)
    | .fatal message => .fatal message
    | .outOfFuel => .outOfFuel

/-- The outcome without the list of entered components. -/
def forgetEntered : Outcome (DfsState × Bool × List String) → Outcome (DfsState × Bool)
  | .returned (st, cycle, _) => .returned (st, cycle)
  | .fatal message => .fatal message
  | .outOfFuel => .outOfFuel

/-- What a search guarantees for the names that it entered: no name that had a colour loses
it; no name was entered twice; and every entered name had no colour before, has one
afterwards, and is the name of a component of the service. -/
structure EnteredOnce (service : Service) (st st' : DfsState) (entered : List String) :
    Prop where
  mono : ∀ n, st.colors.get n ≠ none → st'.colors.get n ≠ none
  nodup : entered.Nodup
  fresh : ∀ n ∈ entered, st.colors.get n = none ∧ st'.colors.get n ≠ none ∧
    n ∈ service.Components.map (·.Name)

/-- What a call `visit` of the traced search guarantees for a component without colour when
fewer than `fuel` components have no colour: the call returns, and it entered no name
twice. -/
def VisitReturns (service : Service)
    (visit : ServiceComponent → DfsState → Outcome (DfsState × Bool × List String))
    (fuel : Nat) : Prop :=
  ∀ u st, u ∈ service.Components → st.colors.get u.Name = none →
    uncolored service st < fuel →
    ∃ st' cycle entered, visit u st = .returned (st', cycle, entered) ∧
      EnteredOnce service st st' entered ∧ st'.colors.get u.Name ≠ none

end Slinga

/-! ## `pkg/lang`: `rule_acl_resolver.go`

The roles, the privileges, the rules and the expression cache are declared outside the sources
at hand; they are parameters of the development. A pointer that may be nil is an `Option`. -/

namespace Lang

/-- The methods of `object.Base` that the resolver calls: `GetNamespace` and `GetKind`. -/
structure ObjectBase where
  Namespace : String
  Kind : String

/-- The fields of `lang.User` that the resolver reads. -/
structure User where
  ID : String
  Labels : Option (GoMap String)
  Admin : Bool

/-- The fields of `Privileges` that the resolver reads: the privilege for each kind of object,
for objects of the system namespace and for objects of any other namespace. `P` is the type
`Privilege`. -/
structure Privileges (P : Type) where
  NamespaceObjects : Option (GoMap (Option P))
  GlobalObjects : Option (GoMap (Option P))

/-- The fields of `ACLRole` that the resolver reads. -/
structure ACLRole (P : Type) where
  ID : String
  Privileges : Privileges P

/-- What the resolver uses and the sources at hand do not declare: the types of privileges,
of rules and of the expression cache; the methods `Matches` and `ApplyActions` of a rule, the
first of which takes the parameters made of the labels of the user and the cache, which it may
change, and returns whether the rule matched and an error; the ordered list of roles, the
roles `nobody` and `domainAdmin`, the privilege `noAccess`, the marker `namespaceAll` and the
system namespace `object.SystemNS`. -/
structure ACLExternals where
  Privilege : Type
  Rule : Type
  Cache : Type
  Matches : Rule → Option (GoMap String) → Cache → Cache × Bool × Option String
  ApplyActions : Rule → RuleActionResult → RuleActionResult
  ACLRolesOrderedList : List (ACLRole Privilege)
  nobody : ACLRole Privilege
  domainAdmin : ACLRole Privilege
  noAccess : Privilege
  namespaceAll : String
  SystemNS : String

/-- The map from the ID of a role to the namespaces to which the role applies. -/
abbrev RoleMap := GoMap (GoMap Bool)

/-- Modelled from the spec: `NewRuleActionResult` is not in the sources at hand. Rule actions
"mutate a `RuleActionResult.roleMap`", which starts as a new empty map. -/
def NewRuleActionResult (_labels : LabelSet) : RuleActionResult :=
  { RejectIngress := false, RoleMap := GoMap.empty }

/-- An `ACLResolver`: the rules, the expression cache and the cache of role maps, keyed by the
ID of the user. -/
structure ACLResolver (x : ACLExternals) where
  rules : List x.Rule
  cache : x.Cache
  roleMapCache : GoMap RoleMap

/-- Returns privileges for a given object; the result is a pointer. -/
def Privileges.getObjectPrivileges (x : ACLExternals) (privileges : Privileges x.Privilege)
    (obj : ObjectBase) : Option x.Privilege :=
  let result : Option x.Privilege :=
    if obj.Namespace = x.SystemNS then
      (GoMap.getOf privileges.GlobalObjects obj.Kind).join
    else
      (GoMap.getOf privileges.NamespaceObjects obj.Kind).join
  if result.isNone then some x.noAccess else result

/-- The loop of `getUserRoleMap` over the rules, which returns at the first error; the result
is the expression cache after the loop with the error, or with the result of the actions. -/
def applyRules (x : ACLExternals) (userID : String) (params : Option (GoMap String)) :
    List x.Rule → x.Cache → RuleActionResult → x.Cache × Except String RuleActionResult
  | [], cache, result => (cache, .ok result)
  | rule :: rest, cache, result =>
    match x.Matches rule params cache with
    | (cache, _, some err) =>
      (cache, .error ("unable to resolve role for user '" ++ userID ++ "': " ++ err))
    | (cache, matched, none) =>
      applyRules x userID params rest cache (if matched then x.ApplyActions rule result else result)

/-- Returns the map role ID -> to which namespaces this role applies. The result is the
resolver after the call, the returned map, which is `none` for nil, and the returned error. -/
def ACLResolver.getUserRoleMap {x : ACLExternals} (resolver : ACLResolver x) (user : User) :
    ACLResolver x × Option RoleMap × Option String :=
  match resolver.roleMapCache.get user.ID with
  | some roleMapCached => (resolver, some roleMapCached, none)
  | none =>
    let result := NewRuleActionResult (NewLabelSet GoMap.empty)
    if user.Admin then
      -- this user is explicitly specified as domain admin
      let span : GoMap Bool := GoMap.empty
      let result := { result with RoleMap := result.RoleMap.set x.domainAdmin.ID span }
      let result :=
        { result with RoleMap := result.RoleMap.set x.domainAdmin.ID (span.set x.namespaceAll true) }
      ({ resolver with roleMapCache := resolver.roleMapCache.set user.ID result.RoleMap },
        some result.RoleMap, none)
    else
      -- we need to run this user through ACL list
      match applyRules x user.ID user.Labels resolver.rules resolver.cache result with
      | (cache, .error err) => ({ resolver with cache := cache }, none, some err)
      | (cache, .ok result) =>
        ({ resolver with
            cache := cache
            roleMapCache := resolver.roleMapCache.set user.ID result.RoleMap },
          some result.RoleMap, none)

/-- The test of the loop of `GetUserPrivileges`: the span of namespaces of the role holds
`true` for the marker of all namespaces or for the namespace of the object. -/
def roleCovers (x : ACLExternals) (roleMap : Option RoleMap) (obj : ObjectBase)
    (role : ACLRole x.Privilege) : Bool :=
  let namespaceSpan := GoMap.getOf roleMap role.ID
  (GoMap.getOf namespaceSpan x.namespaceAll).getD false ||
    (GoMap.getOf namespaceSpan obj.Namespace).getD false

/-- The loop of `GetUserPrivileges` over the ordered list of roles: the privileges with which
the loop returns, or `none` when the loop ends without a role. -/
def firstCoveringRole (x : ACLExternals) (roleMap : Option RoleMap) (obj : ObjectBase) :
    List (ACLRole x.Privilege) → Option (Option x.Privilege)
  | [] => none
  | role :: rest =>
    if roleCovers x roleMap obj role then some (role.Privileges.getObjectPrivileges x obj)
    else firstCoveringRole x roleMap obj rest

/-- The privileges that `GetUserPrivileges` returns for a role map: figure out which role's
privileges apply. -/
def privilegesFor (x : ACLExternals) (roleMap : Option RoleMap) (obj : ObjectBase) :
    Option x.Privilege :=
  match firstCoveringRole x roleMap obj x.ACLRolesOrderedList with
  | some result => result
  | none => x.nobody.Privileges.getObjectPrivileges x obj

/-- Determines the privileges that a given user has for a given object. The result is the
resolver after the call, the returned pointer and the returned error. -/
def ACLResolver.GetUserPrivileges {x : ACLExternals} (resolver : ACLResolver x) (user : User)
    (obj : ObjectBase) : ACLResolver x × Option x.Privilege × Option String :=
  match resolver.getUserRoleMap user with
  | (resolver, _, some err) => (resolver, none, some err)
  | (resolver, roleMap, none) => (resolver, privilegesFor x roleMap obj, none)

/-- The resolver after calls of `getUserRoleMap` for the users of the list, in order. -/
def ACLResolver.afterCalls {x : ACLExternals} (resolver : ACLResolver x) (users : List User) :
    ACLResolver x :=
  users.foldl (fun r u => (r.getUserRoleMap u).1) resolver

/-! ### Example roles and rules -/

/-- Privileges that give `p` for the kinds `service` and `cluster`. -/
def examplePrivileges (p : String) : Privileges String :=
  { NamespaceObjects := some (GoMap.single "service" (some p))
    GlobalObjects := some (GoMap.single "cluster" (some p)) }

/-- Example parameters: privileges are strings, a rule is the label value that it requires
for `team` together with the role and the namespace that it assigns, and the expression cache
counts the evaluations. A rule whose value is `fail` cannot be evaluated. -/
def exampleACL : ACLExternals where
  Privilege := String
  Rule := String × String × String
  Cache := Nat
  Matches := fun rule labels cache =>
    if rule.1 = "fail" then (cache + 1, false, some "cannot evaluate")
    else (cache + 1, GoMap.getOf labels "team" == some rule.1, none)
  ApplyActions := fun rule result =>
    { result with
      RoleMap := result.RoleMap.set rule.2.1
        (((result.RoleMap.get rule.2.1).getD GoMap.empty).set rule.2.2 true) }
  ACLRolesOrderedList :=
    [⟨"domain-admin", examplePrivileges "write"⟩, ⟨"namespace-admin", examplePrivileges "manage"⟩,
      ⟨"service-consumer", examplePrivileges "consume"⟩]
  nobody := ⟨"nobody", ⟨none, none⟩⟩
  domainAdmin := ⟨"domain-admin", examplePrivileges "write"⟩
  noAccess := "no-access"
  namespaceAll := "*"
  SystemNS := "system"

/-- A resolver with a rule that cannot be evaluated and a rule that makes the members of team
`dev` consumers of services in the namespace `main`. -/
def exampleResolver : ACLResolver exampleACL :=
  { rules := [("fail", "service-consumer", "main"), ("dev", "service-consumer", "main")]
    cache := (0 : Nat)
    roleMapCache := GoMap.empty }

/-- A resolver whose rules can be evaluated: the members of team `dev` are administrators of
the namespace `main` and consumers of services in it. -/
def devResolver : ACLResolver exampleACL :=
  { rules := [("dev", "service-consumer", "main"), ("dev", "namespace-admin", "main")]
    cache := (0 : Nat)
    roleMapCache := GoMap.empty }

/-- An administrator. -/
def root : User := { ID := "root", Labels := none, Admin := true }

/-- A member of team `dev`. -/
def bob : User := { ID := "bob", Labels := some (GoMap.single "team" "dev"), Admin := false }

/-- A service in the namespace `main`. -/
def mainService : ObjectBase := { Namespace := "main", Kind := "service" }

end Lang

/-! ## `policy_resolution.go`: `Validate`

The policy of package `lang` is declared outside the sources at hand; what `Validate` reads of
it is a parameter of the development. -/

namespace Lang

/-- The field of `lang.Context` that `Validate` reads. -/
structure Context where
  Name : String

/-- The field of `lang.Contract` that `Validate` reads. -/
structure Contract where
  Contexts : List Context

/-- The field of `lang.ServiceComponent` that names a component. -/
structure ServiceComponent where
  Name : String

/-- The part of `lang.Service` that `Validate` reads: the value of `GetComponentsMap()`, a
map from the name of a component to a pointer to it. -/
structure Service where
  GetComponentsMap : GoMap (Option ServiceComponent)

/-- The dynamic type of an `object.Base` that `GetObject` returns. -/
inductive Object where
  | contract (contract : Contract)
  | service (service : Service)
  | cluster
  | other

/-- What `Validate` reads of `lang.Policy` and of the constants of the packages `lang` and
`runtime`: the method `GetObject`, which takes a kind, a name and a namespace and returns an
object, which may be nil, and an error; the kinds of contracts, services and clusters; the
system namespace; and `componentRootName` of package `resolve`. -/
structure Policy where
  GetObject : String → String → String → Option Object × Option String
  ContractKind : String
  ServiceKind : String
  ClusterKind : String
  SystemNS : String
  componentRootName : String

end Lang

/-- How a call of `Validate` ends: it returns nil, it returns an error, or it panics on a type
assertion. -/
inductive Validation where
  | valid
  | invalid (message : String)
  | panics
deriving DecidableEq

namespace PolicyResolution

/-- The body of the loop of `Validate` for one instance, with the key of the instance. -/
def validateKey (policy : Lang.Policy) (componentKey : ComponentInstanceKey) : Validation :=
  -- verify that contract exists
  match policy.GetObject policy.ContractKind componentKey.ContractName
      componentKey.Namespace with
  | (some (.contract contract), none) =>
    -- verify that context within a contract exists
    let contextExists := contract.Contexts.any (fun context => context.Name == componentKey.ContextName)
    if !contextExists then
      .invalid ("context '" ++ componentKey.Namespace ++ "/" ++ componentKey.ContractName ++
        "/" ++ componentKey.ContextName ++
        "' can only be deleted after it's no longer in use. still used by: " ++
        componentKey.GetKey)
    else
      -- verify that service exists
      match policy.GetObject policy.ServiceKind componentKey.ServiceName
          componentKey.Namespace with
      | (some serviceObj, none) =>
        let checked : Validation :=
          if componentKey.ComponentName ≠ policy.componentRootName then
            -- verify that component within a service exists
            match serviceObj with
            | .service service =>
              match service.GetComponentsMap.get componentKey.ComponentName with
              | some (some _) => .valid
              | _ =>
                .invalid ("component '" ++ componentKey.Namespace ++ "/" ++
                  componentKey.ServiceName ++ "/" ++ componentKey.ComponentName ++
                  "' can only be deleted after it's no longer in use. still used by: " ++
                  componentKey.GetKey)
            | _ => .panics
          else .valid
        match checked with
        | .valid =>
          -- verify that cluster exists
          match policy.GetObject policy.ClusterKind componentKey.ClusterName policy.SystemNS with
          | (some _, none) => .valid
          | _ =>
            .invalid ("cluster '" ++ componentKey.Namespace ++ "/" ++ componentKey.ClusterName ++
              "' can only be deleted after it's no longer in use. still used by: " ++
              componentKey.GetKey)
        | stopped => stopped
      | _ =>
        .invalid ("service '" ++ componentKey.Namespace ++ "/" ++ componentKey.ServiceName ++
          "' can only be deleted after it's no longer in use. still used by: " ++
          componentKey.GetKey)
  | (some _, none) => .panics
  | _ =>
    .invalid ("contract '" ++ componentKey.Namespace ++ "/" ++ componentKey.ContractName ++
      "' can only be deleted after it's no longer in use. still used by: " ++
      componentKey.GetKey)

/-- The loop of `Validate` over the instances, which ends at the first instance that is not
valid. -/
def validateInstances {P : Type} (policy : Lang.Policy) :
    List (String × ComponentInstance P) → Validation
  | [] => .valid
  | (_, inst) :: rest =>
    match validateKey policy inst.Metadata.Key with
    | .valid => validateInstances policy rest
    | stopped => stopped

/-- Checks that the state is valid, meaning that all objects references are valid. -/
def Validate {P : Type} (resolution : PolicyResolution P) (policy : Lang.Policy) : Validation :=
  validateInstances policy resolution.ComponentInstanceMap.entries

end PolicyResolution

/-- What the spec requires of the key of an instance: "every referenced
contract/context/service/component/cluster exists in the Policy". The contract exists in
the namespace of the key and has the context; the service exists in the namespace of the key;
the component is in the component map of the service, unless its name is the root name; and
the cluster exists in the system namespace. An object exists when `GetObject` returns it without
error. -/
def Lang.Policy.HasObjectsOf (policy : Lang.Policy) (key : ComponentInstanceKey) : Prop :=
  (∃ contract, policy.GetObject policy.ContractKind key.ContractName key.Namespace =
      (some (.contract contract), none) ∧
    ∃ context ∈ contract.Contexts, context.Name = key.ContextName) ∧
  (∃ serviceObj, policy.GetObject policy.ServiceKind key.ServiceName key.Namespace =
      (some serviceObj, none) ∧
    (key.ComponentName ≠ policy.componentRootName →
      ∃ service component, serviceObj = .service service ∧
        service.GetComponentsMap.get key.ComponentName = some (some component))) ∧
  (∃ clusterObj, policy.GetObject policy.ClusterKind key.ClusterName policy.SystemNS =
    (some clusterObj, none))

/-- A policy with the objects of `exampleKey`: the contract `S` with the context `prod` and
the service `S` with the component `c`, both in the namespace `main`, and the cluster `k1` in
the system namespace. -/
def examplePolicy : Lang.Policy where
  GetObject := fun kind name ns =>
    if kind = "contract" ∧ name = exampleKey.ContractName ∧ ns = exampleKey.Namespace then
      (some (.contract ⟨[⟨exampleKey.ContextName⟩]⟩), none)
    else if kind = "service" ∧ name = exampleKey.ServiceName ∧ ns = exampleKey.Namespace then
      (some (.service ⟨GoMap.single exampleKey.ComponentName (some ⟨exampleKey.ComponentName⟩)⟩),
        none)
    else if kind = "cluster" ∧ name = exampleKey.ClusterName ∧ ns = "system" then
      (some .cluster, none)
    else (none, none)
  ContractKind := "contract"
  ServiceKind := "service"
  ClusterKind := "cluster"
  SystemNS := "system"
  componentRootName := "#root"

/-! ## `component_instance.go`: `UpdateTimes` -/

/-- Updates component creation and update times. A `time.Time` is an instant counted from the
zero time, so `IsZero` is equality with `0`, `Before` is `<` and `After` is `>`. -/
def ComponentInstance.UpdateTimes {P : Type} (inst : ComponentInstance P)
    (createdAt updatedAt : Int) : ComponentInstance P :=
  let inst :=
    if inst.CreatedAt = 0 ∨ (¬ createdAt = 0 ∧ createdAt < inst.CreatedAt) then
      { inst with CreatedAt := createdAt }
    else inst
  if ¬ updatedAt = 0 ∧ updatedAt > inst.UpdatedAt then { inst with UpdatedAt := updatedAt }
  else inst

/-- The instance `port5000`, created at instant 10 and updated at instant 20. -/
def port5000Timed : ComponentInstance (GoMap String) :=
  { port5000 with CreatedAt := 10, UpdatedAt := 20 }

/-- A resolution whose only instance is the code instance `port5000`, which has no error. -/
def codeResolution : PolicyResolution (GoMap String) :=
  { (NewPolicyResolution true : PolicyResolution (GoMap String)) with
    ComponentInstanceMap := GoMap.single exampleKey.GetKey port5000 }

/-! ## `pkg/lang`: `rule_acl_resolver.go`, the rules -/

namespace Lang

/-- Creates a new `ACLResolver`. The rules sorted by weight, which are
`globalRules.GetRulesSortedByWeight()`, and the new expression cache, which is
`expression.NewCache()`, come from outside the sources at hand and are arguments. -/
def NewACLResolver (x : ACLExternals) (rulesSortedByWeight : List x.Rule) (newCache : x.Cache) :
    ACLResolver x :=
  { rules := rulesSortedByWeight, cache := newCache, roleMapCache := GoMap.empty }

/-- What the spec says of a user that is not an administrator: "iterate ACL rules in weight
order, match against user labels, and apply matching rule's actions". The rules are taken in
the order of the list; each is matched against the labels, with the expression cache as the
rule before left it, and the actions of a rule that matches are applied to the result. -/
def applyMatching (x : ACLExternals) (labels : Option (GoMap String)) :
    List x.Rule → x.Cache → RuleActionResult → x.Cache × RuleActionResult
  | [], cache, result => (cache, result)
  | rule :: rest, cache, result =>
    applyMatching x labels rest (x.Matches rule labels cache).1
      (if (x.Matches rule labels cache).2.1 then x.ApplyActions rule result else result)

/-- The resolver has the rules `rules`, and its cache of role maps holds no role map for the
ID, or the empty one. -/
def NoRoles {x : ACLExternals} (resolver : ACLResolver x) (rules : List x.Rule)
    (id : String) : Prop :=
  resolver.rules = rules ∧
    (resolver.roleMapCache.get id = none ∨ resolver.roleMapCache.get id = some GoMap.empty)

/-- A user of team `ops`, for whom no rule of the example resolvers matches. -/
def carol : User := { ID := "carol", Labels := some (GoMap.single "team" "ops"), Admin := false }

/-- A cluster, which is an object of the system namespace. -/
def systemCluster : ObjectBase := { Namespace := "system", Kind := "cluster" }

/-- A service in the system namespace. -/
def systemService : ObjectBase := { Namespace := "system", Kind := "service" }

/-- A user with the ID and the labels of `carol` and with the flag `Admin`. -/
def carolAsAdmin : User := { carol with Admin := true }

end Lang

/-! ## Lemmas on Go maps -/

namespace GoMap

variable {V : Type}

theorem lookupEntries_setEntries (k k' : String) (v : V) (l : List (String × V)) :
    lookupEntries k' (setEntries k v l) = if k' = k then some v else lookupEntries k' l := by
  induction l with
  | nil =>
    by_cases h : k' = k
    · simp [setEntries, lookupEntries, h]
    · have h' : ¬ k = k' := fun e => h e.symm
      simp [setEntries, lookupEntries, h, h']
  | cons hd tl ih =>
    obtain ⟨k0, v0⟩ := hd
    by_cases h0 : k0 = k
    · subst h0
      by_cases h : k' = k0
      · simp [setEntries, lookupEntries, h]
      · have h' : ¬ k0 = k' := fun e => h e.symm
        simp [setEntries, lookupEntries, h, h']
    · by_cases h1 : k0 = k'
      · have h2 : ¬ k' = k := fun e => h0 (h1.trans e)
        simp [setEntries, lookupEntries, h0, h1, h2]
      · simp [setEntries, lookupEntries, h0, h1, ih]

theorem lookupEntries_eq_none_iff (k : String) (l : List (String × V)) :
    lookupEntries k l = none ↔ k ∉ l.map Prod.fst := by
  induction l with
  | nil => simp [lookupEntries]
  | cons hd tl ih =>
    obtain ⟨k0, v0⟩ := hd
    by_cases h : k0 = k
    · simp [lookupEntries, h]
    · have h' : ¬ k = k0 := fun e => h e.symm
      simp [lookupEntries, h, h', ih]

theorem get_empty (k : String) : (empty : GoMap V).get k = none := rfl

theorem get_set (m : GoMap V) (k k' : String) (v : V) :
    (m.set k v).get k' = if k' = k then some v else m.get k' :=
  lookupEntries_setEntries k k' v m.entries

theorem get_set_self (m : GoMap V) (k : String) (v : V) : (m.set k v).get k = some v := by
  simp [get_set]

theorem get_set_of_ne (m : GoMap V) {k k' : String} (v : V) (h : k' ≠ k) :
    (m.set k v).get k' = m.get k' := by
  simp [get_set, h]

theorem mem_keys_iff (m : GoMap V) (k : String) : k ∈ m.keys ↔ (m.get k).isSome = true := by
  have h := lookupEntries_eq_none_iff k m.entries
  unfold keys get
  cases hl : lookupEntries k m.entries with
  | none =>
    rw [hl] at h
    simpa using h.1 rfl
  | some v =>
    simp only [Option.isSome_some, iff_true]
    by_contra hc
    rw [h.2 hc] at hl
    cases hl

theorem mem_keys_set (m : GoMap V) (k k' : String) (v : V) :
    k' ∈ (m.set k v).keys ↔ k' = k ∨ k' ∈ m.keys := by
  simp only [mem_keys_iff, get_set]
  by_cases h : k' = k <;> simp [h]

theorem len_eq_zero_iff (m : GoMap V) : m.len = 0 ↔ ∀ k, m.get k = none := by
  obtain ⟨l, hl⟩ := m
  cases l with
  | nil => simp [len, get, lookupEntries]
  | cons hd tl =>
    simp only [len, List.length_cons, get]
    constructor
    · intro h; omega
    · intro h
      have := h hd.1
      simp [lookupEntries] at this

theorem mem_setEntries (k : String) (v : V) (l : List (String × V)) (kv : String × V)
    (h : kv ∈ setEntries k v l) : kv = (k, v) ∨ kv ∈ l := by
  induction l with
  | nil => simpa [setEntries] using h
  | cons hd tl ih =>
    obtain ⟨k0, v0⟩ := hd
    by_cases h0 : k0 = k
    · subst h0
      simp only [setEntries, if_true, List.mem_cons] at h
      rcases h with h | h
      · exact Or.inl h
      · exact Or.inr (List.mem_cons_of_mem _ h)
    · simp only [setEntries, h0, if_false, List.mem_cons] at h
      rcases h with h | h
      · exact Or.inr (by rw [h]; exact List.mem_cons_self _ _)
      · rcases ih h with h1 | h1
        · exact Or.inl h1
        · exact Or.inr (List.mem_cons_of_mem _ h1)

theorem mem_of_lookupEntries (k : String) (v : V) (l : List (String × V))
    (h : lookupEntries k l = some v) : (k, v) ∈ l := by
  induction l with
  | nil => simp [lookupEntries] at h
  | cons hd tl ih =>
    obtain ⟨k0, v0⟩ := hd
    by_cases h0 : k0 = k
    · subst h0
      simp only [lookupEntries, if_true, Option.some.injEq] at h
      rw [h]
      exact List.mem_cons_self _ _
    · simp only [lookupEntries, h0, if_false] at h
      exact List.mem_cons_of_mem _ (ih h)

/-- A `range` loop of assignments over entries with distinct keys is right-wins: an assigned
key reads the assigned value, every other key reads what it read before. -/
theorem get_foldl_set (l : List (String × V)) (hl : (l.map Prod.fst).Nodup) (dst : GoMap V)
    (k : String) :
    (l.foldl (fun acc kv => acc.set kv.1 kv.2) dst).get k =
      (lookupEntries k l).or (dst.get k) := by
  induction l generalizing dst with
  | nil => simp [lookupEntries]
  | cons hd tl ih =>
    obtain ⟨k0, v0⟩ := hd
    simp only [List.map_cons, List.nodup_cons] at hl
    rw [List.foldl_cons, ih hl.2]
    by_cases h : k0 = k
    · subst h
      have hn : lookupEntries k0 tl = none := (lookupEntries_eq_none_iff k0 tl).2 hl.1
      simp [lookupEntries, hn, get_set]
    · have h' : ¬ k = k0 := fun e => h e.symm
      simp only [lookupEntries, h, if_false, get_set, h']

theorem get_assignAll (dst src : GoMap V) (k : String) :
    (dst.assignAll src).get k = (src.get k).or (dst.get k) :=
  get_foldl_set src.entries src.nodup dst k

/-- A `range` loop that assigns `true` to every key of the argument. -/
theorem get_foldl_set_true {W : Type} (l : List (String × W)) (dst : GoMap Bool) (k : String) :
    (l.foldl (fun acc kv => acc.set kv.1 true) dst).get k =
      if k ∈ l.map Prod.fst then some true else dst.get k := by
  induction l generalizing dst with
  | nil => simp
  | cons hd tl ih =>
    rw [List.foldl_cons, ih]
    by_cases h : k ∈ tl.map Prod.fst
    · simp [h]
    · by_cases h0 : k = hd.1
      · simp [h, h0, get_set]
      · simp [h, h0, get_set]

theorem get_delete (m : GoMap V) (k k' : String) :
    (m.delete k).get k' = if k' = k then none else m.get k' := by
  obtain ⟨l, hl⟩ := m
  simp only [delete, get]
  clear hl
  induction l with
  | nil => simp [lookupEntries]
  | cons hd tl ih =>
    obtain ⟨k0, v0⟩ := hd
    by_cases h0 : k0 = k
    · subst h0
      by_cases h : k' = k0
      · subst h
        simpa using ih
      · have h' : ¬ k0 = k' := fun e => h e.symm
        simp only [List.filter_cons, bne_self_eq_false, Bool.false_eq_true, if_false, ih, h,
          lookupEntries, h']
    · have hb : (k0 != k) = true := by simpa using h0
      simp only [List.filter_cons, hb, if_true, lookupEntries, ih]
      by_cases h1 : k0 = k'
      · have h2 : ¬ k' = k := fun e => h0 (h1.trans e)
        simp [h1, h2]
      · simp [h1]

/-- A `range` loop of deletions removes exactly the keys of the entries it visits. -/
theorem get_foldl_delete {W : Type} (l : List (String × W)) (dst : GoMap V) (k : String) :
    (l.foldl (fun r kv => r.delete kv.1) dst).get k =
      if k ∈ l.map Prod.fst then none else dst.get k := by
  induction l generalizing dst with
  | nil => simp
  | cons hd tl ih =>
    rw [List.foldl_cons, ih]
    by_cases h : k ∈ tl.map Prod.fst
    · simp [h]
    · by_cases h0 : k = hd.1
      · simp [h, h0, get_delete]
      · simp [h, h0, get_delete]

theorem lookupEntries_rangeOf (m : Option (GoMap V)) (k : String) :
    lookupEntries k (rangeOf m) = getOf m k := by
  cases m <;> rfl

theorem nodup_rangeOf (m : Option (GoMap V)) : ((rangeOf m).map Prod.fst).Nodup := by
  cases m with
  | none => exact List.nodup_nil
  | some m => exact m.nodup

theorem mem_keys_rangeOf (m : Option (GoMap V)) (k : String) :
    k ∈ (rangeOf m).map Prod.fst ↔ (getOf m k).isSome = true := by
  cases m with
  | none => simp [rangeOf, getOf]
  | some m => exact mem_keys_iff m k

end GoMap

/-! ## Lemmas on `appendData` -/

namespace ComponentInstance

theorem foldl_addDependency {P : Type} (l : List (String × Int)) (inst : ComponentInstance P) :
    l.foldl (fun inst kv => inst.addDependency kv.1 kv.2) inst =
      { inst with
        DependencyKeys := l.foldl (fun acc kv => acc.set kv.1 kv.2) inst.DependencyKeys } := by
  induction l generalizing inst with
  | nil => rfl
  | cons hd tl ih => rw [List.foldl_cons, ih]; rfl

theorem foldl_addEdgeOut {P : Type} (l : List (String × Bool)) (inst : ComponentInstance P) :
    l.foldl (fun inst kv => inst.addEdgeOut kv.1) inst =
      { inst with EdgesOut := l.foldl (fun acc kv => acc.set kv.1 true) inst.EdgesOut } := by
  induction l generalizing inst with
  | nil => rfl
  | cons hd tl ih => rw [List.foldl_cons, ih]; rfl

theorem foldl_dataForPlugins {P : Type} (l : List (String × String))
    (inst : ComponentInstance P) :
    l.foldl (fun inst kv => { inst with DataForPlugins := inst.DataForPlugins.set kv.1 kv.2 })
        inst =
      { inst with
        DataForPlugins := l.foldl (fun acc kv => acc.set kv.1 kv.2) inst.DataForPlugins } := by
  induction l generalizing inst with
  | nil => rfl
  | cons hd tl ih => rw [List.foldl_cons, ih]; rfl

variable {P : Type} [NestedParameterMap P]

theorem addCodeParams_snd (inst : ComponentInstance P) (p : P) :
    ((inst.addCodeParams p).2.isSome = true) ↔
      paramsConflict inst.CalculatedCodeParams p = true := by
  unfold addCodeParams paramsConflict
  by_cases h0 : NestedParameterMap.len inst.CalculatedCodeParams = 0
  · simp [h0]
  · cases hd : NestedParameterMap.DeepEqual inst.CalculatedCodeParams p <;> simp [h0, hd]

theorem addDiscoveryParams_snd (inst : ComponentInstance P) (p : P) :
    ((inst.addDiscoveryParams p).2.isSome = true) ↔
      paramsConflict inst.CalculatedDiscovery p = true := by
  unfold addDiscoveryParams paramsConflict
  by_cases h0 : NestedParameterMap.len inst.CalculatedDiscovery = 0
  · simp [h0]
  · cases hd : NestedParameterMap.DeepEqual inst.CalculatedDiscovery p <;> simp [h0, hd]

/-- The instance that `appendData` leaves behind, branch by branch. -/
theorem appendData_eq (inst ops : ComponentInstance P) :
    inst.appendData ops =
      if inst.IsCode != ops.IsCode then
        { inst with
          DependencyKeys := inst.DependencyKeys.assignAll ops.DependencyKeys
          Error := some (.errorf ("component " ++ inst.GetKey ++
            " can't be converted from code to non-code and vice versa")) }
      else if paramsConflict inst.CalculatedDiscovery ops.CalculatedDiscovery then
        { inst with
          DependencyKeys := inst.DependencyKeys.assignAll ops.DependencyKeys
          IsCode := inst.IsCode || ops.IsCode
          CalculatedLabels := inst.CalculatedLabels.AddLabels ops.CalculatedLabels.Labels
          Error := some (.withDetails
            ("conflicting discovery parameters for component instance: " ++ inst.GetKey)
            (((GoMap.empty.set "discovery_params_existing" inst.CalculatedDiscovery).set
              "discovery_params_new" ops.CalculatedDiscovery).set "diff"
              (NestedParameterMap.Diff inst.CalculatedDiscovery ops.CalculatedDiscovery))) }
      else if paramsConflict inst.CalculatedCodeParams ops.CalculatedCodeParams then
        { inst with
          DependencyKeys := inst.DependencyKeys.assignAll ops.DependencyKeys
          IsCode := inst.IsCode || ops.IsCode
          CalculatedLabels := inst.CalculatedLabels.AddLabels ops.CalculatedLabels.Labels
          CalculatedDiscovery :=
            if NestedParameterMap.len inst.CalculatedDiscovery = 0 then ops.CalculatedDiscovery
            else inst.CalculatedDiscovery
          Error := some (.withDetails
            ("conflicting code parameters for component instance: " ++ inst.GetKey)
            (((GoMap.empty.set "code_params_existing" inst.CalculatedCodeParams).set
              "code_params_new" ops.CalculatedCodeParams).set "diff"
              (NestedParameterMap.Diff inst.CalculatedCodeParams ops.CalculatedCodeParams))) }
      else
        { inst with
          DependencyKeys := inst.DependencyKeys.assignAll ops.DependencyKeys
          IsCode := inst.IsCode || ops.IsCode
          CalculatedLabels := inst.CalculatedLabels.AddLabels ops.CalculatedLabels.Labels
          CalculatedDiscovery :=
            if NestedParameterMap.len inst.CalculatedDiscovery = 0 then ops.CalculatedDiscovery
            else inst.CalculatedDiscovery
          CalculatedCodeParams :=
            if NestedParameterMap.len inst.CalculatedCodeParams = 0 then ops.CalculatedCodeParams
            else inst.CalculatedCodeParams
          EdgesOut := ops.EdgesOut.entries.foldl (fun acc kv => acc.set kv.1 true) inst.EdgesOut
          DataForPlugins := inst.DataForPlugins.assignAll ops.DataForPlugins } := by
  unfold appendData
  simp only [foldl_addDependency, foldl_addEdgeOut, foldl_dataForPlugins]
  by_cases h1 : inst.IsCode = ops.IsCode
  · by_cases h2 : NestedParameterMap.len inst.CalculatedDiscovery = 0
    · by_cases h3 : NestedParameterMap.len inst.CalculatedCodeParams = 0
      · simp [h1, h2, h3, addDiscoveryParams, addCodeParams, paramsConflict, addLabels,
          GoMap.assignAll]
      · cases h4 : NestedParameterMap.DeepEqual inst.CalculatedCodeParams
          ops.CalculatedCodeParams <;>
        simp [h1, h2, h3, h4, addDiscoveryParams, addCodeParams, paramsConflict, addLabels,
          GoMap.assignAll, GetKey]
    · cases h5 : NestedParameterMap.DeepEqual inst.CalculatedDiscovery ops.CalculatedDiscovery
      · simp [h1, h2, h5, addDiscoveryParams, addCodeParams, paramsConflict, addLabels,
          GoMap.assignAll, GetKey]
      · by_cases h3 : NestedParameterMap.len inst.CalculatedCodeParams = 0
        · simp [h1, h2, h3, h5, addDiscoveryParams, addCodeParams, paramsConflict, addLabels,
            GoMap.assignAll]
        · cases h4 : NestedParameterMap.DeepEqual inst.CalculatedCodeParams
            ops.CalculatedCodeParams <;>
          simp [h1, h2, h3, h4, h5, addDiscoveryParams, addCodeParams, paramsConflict,
            addLabels, GoMap.assignAll, GetKey]
  · simp [h1, GoMap.assignAll, GetKey]

theorem dependencyKeys_after_appendData (inst ops : ComponentInstance P) :
    (inst.appendData ops).DependencyKeys = inst.DependencyKeys.assignAll ops.DependencyKeys := by
  rw [appendData_eq]
  split
  · rfl
  · split
    · rfl
    · split <;> rfl

theorem appendData_of_conflict_free (inst ops : ComponentInstance P)
    (hc : mergeConflict inst ops = false) :
    inst.appendData ops =
      { inst with
        DependencyKeys := inst.DependencyKeys.assignAll ops.DependencyKeys
        IsCode := inst.IsCode || ops.IsCode
        CalculatedLabels := inst.CalculatedLabels.AddLabels ops.CalculatedLabels.Labels
        CalculatedDiscovery :=
          if NestedParameterMap.len inst.CalculatedDiscovery = 0 then ops.CalculatedDiscovery
          else inst.CalculatedDiscovery
        CalculatedCodeParams :=
          if NestedParameterMap.len inst.CalculatedCodeParams = 0 then ops.CalculatedCodeParams
          else inst.CalculatedCodeParams
        EdgesOut := ops.EdgesOut.entries.foldl (fun acc kv => acc.set kv.1 true) inst.EdgesOut
        DataForPlugins := inst.DataForPlugins.assignAll ops.DataForPlugins } := by
  simp only [mergeConflict, Bool.or_eq_false_iff] at hc
  obtain ⟨⟨h1, h2⟩, h3⟩ := hc
  rw [appendData_eq, h1, h2, h3]
  rfl

theorem edgesOut_unchanged_of_conflict (inst ops : ComponentInstance P)
    (hc : mergeConflict inst ops = true) :
    (inst.appendData ops).EdgesOut = inst.EdgesOut := by
  rw [appendData_eq]
  split
  · rfl
  · rename_i h1
    split
    · rfl
    · rename_i h2
      split
      · rfl
      · rename_i h3
        simp [mergeConflict, h1, h2, h3] at hc

end ComponentInstance

/-! ## The aggregator's contract on one instance -/

section InstanceClaims

open ComponentInstance

variable {P : Type} [NestedParameterMap P]

/-- C1: `addCodeParams` returns an error if and only if the recorded code params are non-empty
and not deep-equal to the contributed map; when the recorded map is empty it becomes the
contributed map, and in every other case the receiver is left unchanged. The same holds for
`addDiscoveryParams` and the discovery params. -/
theorem addParams_error_iff_conflict (inst : ComponentInstance P) (p : P) :
    (((inst.addCodeParams p).2.isSome = true ↔
          (NestedParameterMap.len inst.CalculatedCodeParams ≠ 0 ∧
            NestedParameterMap.DeepEqual inst.CalculatedCodeParams p = false)) ∧
        (inst.addCodeParams p).1 =
          if NestedParameterMap.len inst.CalculatedCodeParams = 0 then
            { inst with CalculatedCodeParams := p }
          else inst) ∧
      (((inst.addDiscoveryParams p).2.isSome = true ↔
          (NestedParameterMap.len inst.CalculatedDiscovery ≠ 0 ∧
            NestedParameterMap.DeepEqual inst.CalculatedDiscovery p = false)) ∧
        (inst.addDiscoveryParams p).1 =
          if NestedParameterMap.len inst.CalculatedDiscovery = 0 then
            { inst with CalculatedDiscovery := p }
          else inst) := by
  refine ⟨⟨?_, ?_⟩, ⟨?_, ?_⟩⟩
  · rw [addCodeParams_snd]; simp [paramsConflict]
  · unfold addCodeParams
    by_cases h0 : NestedParameterMap.len inst.CalculatedCodeParams = 0
    · simp [h0]
    · cases hd : NestedParameterMap.DeepEqual inst.CalculatedCodeParams p <;> simp [h0, hd]
  · rw [addDiscoveryParams_snd]; simp [paramsConflict]
  · unfold addDiscoveryParams
    by_cases h0 : NestedParameterMap.len inst.CalculatedDiscovery = 0
    · simp [h0]
    · cases hd : NestedParameterMap.DeepEqual inst.CalculatedDiscovery p <;> simp [h0, hd]

/-- C2: when the recorded code params `E` are non-empty and a contribution with the same
`IsCode`, non-conflicting discovery params and non-empty code params `N` not deep-equal to `E`
is appended, `Error` is set afterwards, the details of the error carry `E` as the existing
map and `N` as the new map, and the code params of the receiver are still `E`. -/
theorem appendData_code_params_conflict (inst ops : ComponentInstance P)
    (hE : NestedParameterMap.len inst.CalculatedCodeParams ≠ 0)
    (hflag : inst.IsCode = ops.IsCode)
    (hdisc : NestedParameterMap.len inst.CalculatedDiscovery = 0 ∨
      NestedParameterMap.DeepEqual inst.CalculatedDiscovery ops.CalculatedDiscovery = true)
    (_hN : NestedParameterMap.len ops.CalculatedCodeParams ≠ 0)
    (hne : NestedParameterMap.DeepEqual inst.CalculatedCodeParams ops.CalculatedCodeParams
      = false) :
    ∃ err, (inst.appendData ops).Error = some err ∧
      err.details.get "code_params_existing" = some inst.CalculatedCodeParams ∧
      err.details.get "code_params_new" = some ops.CalculatedCodeParams ∧
      (inst.appendData ops).CalculatedCodeParams = inst.CalculatedCodeParams := by
  have h1 : (inst.IsCode != ops.IsCode) = false := by simp [hflag]
  have h2 : paramsConflict inst.CalculatedDiscovery ops.CalculatedDiscovery = false := by
    rcases hdisc with h | h <;> simp [paramsConflict, h]
  have h3 : paramsConflict inst.CalculatedCodeParams ops.CalculatedCodeParams = true := by
    simp [paramsConflict, hE, hne]
  rw [appendData_eq, h1, h2, h3]
  refine ⟨_, rfl, ?_, ?_, rfl⟩
  · simp [GoError.details, GoMap.get_set, GoMap.get_empty]
  · simp [GoError.details, GoMap.get_set, GoMap.get_empty]

/-- Witness for C2: `port: 5000` against `port: 6000`. -/
theorem appendData_code_params_conflict_witness :
    ∃ err, (port5000.appendData port6000).Error = some err ∧
      err.details.get "code_params_existing" = some port5000.CalculatedCodeParams ∧
      err.details.get "code_params_new" = some port6000.CalculatedCodeParams ∧
      (port5000.appendData port6000).CalculatedCodeParams = port5000.CalculatedCodeParams :=
  appendData_code_params_conflict port5000 port6000 (by decide) (by decide)
    (Or.inl (by decide)) (by decide) (by decide)

/-- C3: when the `IsCode` flag of the contribution differs from the receiver's, `appendData`
sets `Error` to the error that the component cannot be converted between code and non-code;
when the flags agree and neither the discovery params nor the code params conflict, `Error`
and `IsCode` are left as they were. -/
theorem appendData_isCode_flip (inst ops : ComponentInstance P) :
    (inst.IsCode ≠ ops.IsCode →
        (inst.appendData ops).Error = some (.errorf ("component " ++ inst.GetKey ++
          " can't be converted from code to non-code and vice versa"))) ∧
      (inst.IsCode = ops.IsCode →
        paramsConflict inst.CalculatedDiscovery ops.CalculatedDiscovery = false →
        paramsConflict inst.CalculatedCodeParams ops.CalculatedCodeParams = false →
        (inst.appendData ops).Error = inst.Error ∧
          (inst.appendData ops).IsCode = inst.IsCode) := by
  constructor
  · intro h
    have h1 : (inst.IsCode != ops.IsCode) = true := by simpa using h
    rw [appendData_eq, h1]
    rfl
  · intro h h2 h3
    have hc : mergeConflict inst ops = false := by simp [mergeConflict, h, h2, h3]
    rw [appendData_of_conflict_free inst ops hc]
    simp [h]

/-- Witness for C3: a non-code contribution to a code instance, and a contribution that
agrees with it. -/
theorem appendData_isCode_flip_witness :
    (port5000.appendData nonCode).Error = some (.errorf ("component " ++ port5000.GetKey ++
        " can't be converted from code to non-code and vice versa")) ∧
      ((port5000.appendData port5000NoIngress).Error = port5000.Error ∧
        (port5000.appendData port5000NoIngress).IsCode = port5000.IsCode) :=
  ⟨(appendData_isCode_flip port5000 nonCode).1 (by decide),
    (appendData_isCode_flip port5000 port5000NoIngress).2 (by decide) (by decide) (by decide)⟩

/-- C5: after `appendData`, conflicting or not, `DependencyKeys` has exactly the keys of the
old map united with the keys of the contribution; a key of the contribution maps to the
contribution's depth and every other key keeps its old depth. -/
theorem appendData_dependencyKeys (inst ops : ComponentInstance P) (k : String) :
    (k ∈ (inst.appendData ops).DependencyKeys.keys ↔
        k ∈ inst.DependencyKeys.keys ∨ k ∈ ops.DependencyKeys.keys) ∧
      (inst.appendData ops).DependencyKeys.get k =
        (ops.DependencyKeys.get k).or (inst.DependencyKeys.get k) := by
  rw [dependencyKeys_after_appendData]
  refine ⟨?_, GoMap.get_assignAll _ _ k⟩
  simp only [GoMap.mem_keys_iff, GoMap.get_assignAll, Option.isSome_or, Bool.or_eq_true]
  exact Or.comm

/-- C6, counterexample: the contribution `port: 6000` has the outgoing edge `x`, but after it is
appended to `port: 5000` (a code-params conflict) the edge `x` is not in `EdgesOut`, so
`EdgesOut` is not the union. -/
theorem edgesOut_not_union_on_conflict :
    ¬ ("x" ∈ (port5000.appendData port6000).EdgesOut.keys ↔
        "x" ∈ port5000.EdgesOut.keys ∨ "x" ∈ port6000.EdgesOut.keys) := by
  decide

/-- C6, amended: after `appendData` the keys of `EdgesOut` are the previous keys united with
the keys of the contribution's `EdgesOut` when the merge is conflict-free, and every
contributed key then maps to `true`; when the merge conflicts, `EdgesOut` is left as it
was. -/
theorem appendData_edgesOut (inst ops : ComponentInstance P) (k : String) :
    (k ∈ (inst.appendData ops).EdgesOut.keys ↔
        k ∈ inst.EdgesOut.keys ∨ (mergeConflict inst ops = false ∧ k ∈ ops.EdgesOut.keys)) ∧
      (inst.appendData ops).EdgesOut.get k =
        if mergeConflict inst ops = false ∧ k ∈ ops.EdgesOut.keys then some true
        else inst.EdgesOut.get k := by
  cases hc : mergeConflict inst ops
  · rw [appendData_of_conflict_free inst ops hc]
    simp only [GoMap.mem_keys_iff, GoMap.get_foldl_set_true, true_and]
    have hk := GoMap.mem_keys_iff ops.EdgesOut k
    unfold GoMap.keys at hk
    by_cases h : k ∈ ops.EdgesOut.entries.map Prod.fst
    · simp [h, hk.1 h]
    · have h' : ¬ (ops.EdgesOut.get k).isSome = true := fun e => h (hk.2 e)
      simp [h, h']
  · rw [edgesOut_unchanged_of_conflict inst ops hc]
    simp

/-- C7, counterexample: ingress is allowed on the receiver (`"true"`) and rejected on the
contribution (`"false"`); the merge is conflict-free and the merged value is `"false"`, not
the OR of the two booleans. -/
theorem allow_ingress_not_or_of_booleans :
    mergeConflict port5000 port5000NoIngress = false ∧
      port5000.DataForPlugins.get AllowIngres = some (FormatBool true) ∧
      port5000NoIngress.DataForPlugins.get AllowIngres = some (FormatBool false) ∧
      (port5000.appendData port5000NoIngress).DataForPlugins.get AllowIngres = some "false" ∧
      (port5000.appendData port5000NoIngress).DataForPlugins.get AllowIngres ≠
        some (FormatBool (true || false)) := by
  decide

/-- C7, amended: in a conflict-free merge in which both the receiver and the contribution carry
a boolean `allow_ingress` value, the merged `allow_ingress` value is the contribution's
boolean (right-wins, as for every other key). -/
theorem appendData_allow_ingress_right_wins (inst ops : ComponentInstance P) (a b : Bool)
    (hc : mergeConflict inst ops = false)
    (_ha : inst.DataForPlugins.get AllowIngres = some (FormatBool a))
    (hb : ops.DataForPlugins.get AllowIngres = some (FormatBool b)) :
    (inst.appendData ops).DataForPlugins.get AllowIngres = some (FormatBool b) := by
  rw [appendData_of_conflict_free inst ops hc]
  simp [GoMap.get_assignAll, hb]

/-- Witness for C7 as amended: ingress allowed on the receiver, rejected on the
contribution. -/
theorem appendData_allow_ingress_right_wins_witness :
    (port5000.appendData port5000NoIngress).DataForPlugins.get AllowIngres =
      some (FormatBool false) :=
  appendData_allow_ingress_right_wins port5000 port5000NoIngress true false (by decide)
    (by decide) (by decide)

/-- C8: in a conflict-free merge every `DataForPlugins` key other than `allow_ingress` is
right-wins: a key of the contribution takes the contribution's value, and a key that only the
receiver has keeps its value. -/
theorem appendData_dataForPlugins_right_wins (inst ops : ComponentInstance P) (k : String)
    (hc : mergeConflict inst ops = false) (_hk : k ≠ AllowIngres) :
    (inst.appendData ops).DataForPlugins.get k =
      (ops.DataForPlugins.get k).or (inst.DataForPlugins.get k) := by
  rw [appendData_of_conflict_free inst ops hc]
  exact GoMap.get_assignAll _ _ k

/-- Witness for C8: the key `zone`, which the receiver holds as `a` and the contribution as
`b`. -/
theorem appendData_dataForPlugins_right_wins_witness :
    (port5000.appendData port5000NoIngress).DataForPlugins.get "zone" =
      (port5000NoIngress.DataForPlugins.get "zone").or (port5000.DataForPlugins.get "zone") :=
  appendData_dataForPlugins_right_wins port5000 port5000NoIngress "zone" (by decide)
    (by decide)

end InstanceClaims

/-! ## Lemmas on resolutions -/

namespace PolicyResolution

variable {P : Type} [NestedParameterMap P]

theorem GetComponentInstanceEntry_get (resolution : PolicyResolution P)
    (cik : ComponentInstanceKey) :
    (resolution.GetComponentInstanceEntry cik).1.ComponentInstanceMap.get cik.GetKey =
      some (resolution.GetComponentInstanceEntry cik).2 := by
  cases h : resolution.ComponentInstanceMap.get cik.GetKey with
  | none => simp [GetComponentInstanceEntry, h, GoMap.get_set]
  | some inst => simp [GetComponentInstanceEntry, h]

theorem GetComponentInstanceEntry_get_of_ne (resolution : PolicyResolution P)
    (cik : ComponentInstanceKey) {k : String} (hk : k ≠ cik.GetKey) :
    (resolution.GetComponentInstanceEntry cik).1.ComponentInstanceMap.get k =
      resolution.ComponentInstanceMap.get k := by
  cases h : resolution.ComponentInstanceMap.get cik.GetKey with
  | none => simp [GetComponentInstanceEntry, h, GoMap.get_set, hk]
  | some inst => simp [GetComponentInstanceEntry, h]

theorem GetComponentInstanceEntry_mem_keys (resolution : PolicyResolution P)
    (cik : ComponentInstanceKey) (k : String) :
    k ∈ (resolution.GetComponentInstanceEntry cik).1.ComponentInstanceMap.keys ↔
      k = cik.GetKey ∨ k ∈ resolution.ComponentInstanceMap.keys := by
  by_cases hk : k = cik.GetKey
  · subst hk
    simp [GoMap.mem_keys_iff, GetComponentInstanceEntry_get]
  · simp [GoMap.mem_keys_iff, GetComponentInstanceEntry_get_of_ne resolution cik hk, hk]

theorem GetComponentInstanceEntry_order (resolution : PolicyResolution P)
    (cik : ComponentInstanceKey) :
    (resolution.GetComponentInstanceEntry cik).1.componentProcessingOrder =
        resolution.componentProcessingOrder ∧
      (resolution.GetComponentInstanceEntry cik).1.componentProcessingOrderHas =
        resolution.componentProcessingOrderHas := by
  cases h : resolution.ComponentInstanceMap.get cik.GetKey <;>
    simp [GetComponentInstanceEntry, h]

omit [NestedParameterMap P] in
theorem storeEntry_mem_keys (resolution : PolicyResolution P) (cik : ComponentInstanceKey)
    (inst : ComponentInstance P) (k : String) :
    k ∈ (resolution.storeEntry cik inst).ComponentInstanceMap.keys ↔
      k = cik.GetKey ∨ k ∈ resolution.ComponentInstanceMap.keys := by
  simp [storeEntry, GoMap.mem_keys_set]

/-- Retrieving the entry of a key and writing it back adds that key, and no other, to the
map. -/
theorem touch_mem_keys (resolution : PolicyResolution P) (cik : ComponentInstanceKey)
    (inst : ComponentInstance P) (k : String) :
    k ∈ ((resolution.GetComponentInstanceEntry cik).1.storeEntry cik inst).ComponentInstanceMap.keys
      ↔ k = cik.GetKey ∨ k ∈ resolution.ComponentInstanceMap.keys := by
  rw [storeEntry_mem_keys, GetComponentInstanceEntry_mem_keys]
  tauto

omit [NestedParameterMap P] in
theorem recordProcessingOrder_map (resolution : PolicyResolution P)
    (cik : ComponentInstanceKey) :
    (resolution.recordProcessingOrder cik).ComponentInstanceMap =
      resolution.ComponentInstanceMap := by
  simp only [recordProcessingOrder]
  split <;> rfl

omit [NestedParameterMap P] in
theorem foldl_recordProcessingOrder_map (l : List (String × ComponentInstance P))
    (resolution : PolicyResolution P) :
    (l.foldl (fun res kv => res.recordProcessingOrder kv.2.Metadata.Key)
      resolution).ComponentInstanceMap = resolution.ComponentInstanceMap := by
  induction l generalizing resolution with
  | nil => rfl
  | cons hd tl ih => rw [List.foldl_cons, ih, recordProcessingOrder_map]

/-- One round of the first loop of `AppendData`. -/
theorem appendInstances_cons (resolution : PolicyResolution P) (kv : String × ComponentInstance P)
    (rest : List (String × ComponentInstance P)) :
    appendInstances resolution (kv :: rest) =
      match appendDataErr (resolution.GetComponentInstanceEntry kv.2.Metadata.Key).2 kv.2 with
      | some err =>
        ((resolution.GetComponentInstanceEntry kv.2.Metadata.Key).1.storeEntry kv.2.Metadata.Key
          ((resolution.GetComponentInstanceEntry kv.2.Metadata.Key).2.appendData kv.2), some err)
      | none =>
        appendInstances
          ((resolution.GetComponentInstanceEntry kv.2.Metadata.Key).1.storeEntry
            kv.2.Metadata.Key
            ((resolution.GetComponentInstanceEntry kv.2.Metadata.Key).2.appendData kv.2)) rest := by
  obtain ⟨k0, inst⟩ := kv
  simp only [appendInstances]

/-- The first loop of `AppendData` removes no key from the instance map. -/
theorem appendInstances_keys_mono (l : List (String × ComponentInstance P))
    (resolution : PolicyResolution P) (k : String)
    (hk : k ∈ resolution.ComponentInstanceMap.keys) :
    k ∈ (appendInstances resolution l).1.ComponentInstanceMap.keys := by
  induction l generalizing resolution with
  | nil => exact hk
  | cons hd tl ih =>
    rw [appendInstances_cons]
    split
    · exact (touch_mem_keys resolution _ _ k).2 (Or.inr hk)
    · exact ih _ ((touch_mem_keys resolution _ _ k).2 (Or.inr hk))

/-- The first loop of `AppendData` adds no key but keys of instances of the list. -/
theorem appendInstances_keys_subset (l : List (String × ComponentInstance P))
    (resolution : PolicyResolution P) (k : String)
    (hk : k ∈ (appendInstances resolution l).1.ComponentInstanceMap.keys) :
    k ∈ resolution.ComponentInstanceMap.keys ∨ ∃ kv ∈ l, kv.2.GetKey = k := by
  induction l generalizing resolution with
  | nil => exact Or.inl hk
  | cons hd tl ih =>
    rw [appendInstances_cons] at hk
    have htouch : ∀ inst, k ∈ ((resolution.GetComponentInstanceEntry hd.2.Metadata.Key).1.storeEntry
        hd.2.Metadata.Key inst).ComponentInstanceMap.keys →
        k ∈ resolution.ComponentInstanceMap.keys ∨ ∃ kv ∈ hd :: tl, kv.2.GetKey = k := by
      intro inst h
      rcases (touch_mem_keys resolution _ _ k).1 h with h | h
      · exact Or.inr ⟨hd, List.mem_cons_self _ _, h.symm⟩
      · exact Or.inl h
    split at hk
    · exact htouch _ hk
    · rcases ih _ hk with h | ⟨kv, hkv, h⟩
      · exact htouch _ h
      · exact Or.inr ⟨kv, List.mem_cons_of_mem _ hkv, h⟩

/-- When the first loop of `AppendData` returns no error, the key of every instance of the
list is in the instance map. -/
theorem appendInstances_mem_keys (l : List (String × ComponentInstance P))
    (resolution : PolicyResolution P) (herr : (appendInstances resolution l).2 = none)
    (k : String) :
    k ∈ (appendInstances resolution l).1.ComponentInstanceMap.keys ↔
      k ∈ resolution.ComponentInstanceMap.keys ∨ ∃ kv ∈ l, kv.2.GetKey = k := by
  refine ⟨appendInstances_keys_subset l resolution k, ?_⟩
  induction l generalizing resolution with
  | nil =>
    rintro (h | ⟨kv, hkv, _⟩)
    · exact h
    · cases hkv
  | cons hd tl ih =>
    rw [appendInstances_cons] at herr ⊢
    split at herr
    · cases herr
    · rintro (h | ⟨kv, hkv, h⟩)
      · exact ih _ herr (Or.inl ((touch_mem_keys resolution _ _ k).2 (Or.inr h)))
      · rcases List.mem_cons.1 hkv with hhd | htl
        · subst hhd
          exact ih _ herr (Or.inl ((touch_mem_keys resolution _ _ k).2 (Or.inl h.symm)))
        · exact ih _ herr (Or.inr ⟨kv, htl, h⟩)

theorem AppendData_map (resolution ops : PolicyResolution P) :
    (resolution.AppendData ops).1.ComponentInstanceMap =
      (appendInstances resolution ops.ComponentInstanceMap.entries).1.ComponentInstanceMap := by
  unfold AppendData
  generalize appendInstances resolution ops.ComponentInstanceMap.entries = res
  obtain ⟨r, e⟩ := res
  cases e <;> simp [foldl_recordProcessingOrder_map]

/-- The error that `AppendData` returns is the error of its first loop. -/
theorem AppendData_snd (resolution ops : PolicyResolution P) :
    (resolution.AppendData ops).2 =
      (appendInstances resolution ops.ComponentInstanceMap.entries).2 := by
  unfold AppendData
  generalize appendInstances resolution ops.ComponentInstanceMap.entries = res
  obtain ⟨r, e⟩ := res
  cases e <;> rfl

/-- When `AppendData` returns an error, its result is the result of its first loop. -/
theorem AppendData_fst_of_error (resolution ops : PolicyResolution P)
    (err : GoError P) (herr : (resolution.AppendData ops).2 = some err) :
    (resolution.AppendData ops).1 =
      (appendInstances resolution ops.ComponentInstanceMap.entries).1 := by
  unfold AppendData at herr ⊢
  generalize appendInstances resolution ops.ComponentInstanceMap.entries = res at herr ⊢
  obtain ⟨r, e⟩ := res
  cases e
  · cases herr
  · rfl

omit [NestedParameterMap P] in
/-- A step that leaves the processing order and its membership map alone and removes no key
from the instance map keeps the order invariant. -/
theorem OrderInv.of_map_step {r r' : PolicyResolution P} (h : OrderInv r)
    (ho : r'.componentProcessingOrder = r.componentProcessingOrder)
    (hh : r'.componentProcessingOrderHas = r.componentProcessingOrderHas)
    (hk : ∀ k, k ∈ r.ComponentInstanceMap.keys → k ∈ r'.ComponentInstanceMap.keys) :
    OrderInv r' := by
  refine ⟨?_, ?_, ?_⟩
  · intro k; rw [hh, ho]; exact h.has_iff k
  · rw [ho]; exact h.nodup
  · intro k hk'; rw [ho] at hk'; exact hk k (h.mem_map k hk')

/-- Retrieving an entry and writing it back leaves the processing order and its membership
map alone. -/
theorem touch_order (resolution : PolicyResolution P) (cik : ComponentInstanceKey)
    (inst : ComponentInstance P) :
    ((resolution.GetComponentInstanceEntry cik).1.storeEntry cik inst).componentProcessingOrder =
        resolution.componentProcessingOrder ∧
      ((resolution.GetComponentInstanceEntry cik).1.storeEntry cik
          inst).componentProcessingOrderHas = resolution.componentProcessingOrderHas :=
  GetComponentInstanceEntry_order resolution cik

theorem OrderInv.touch {r : PolicyResolution P} (h : OrderInv r) (cik : ComponentInstanceKey)
    (inst : ComponentInstance P) :
    OrderInv ((r.GetComponentInstanceEntry cik).1.storeEntry cik inst) :=
  h.of_map_step (touch_order r cik inst).1 (touch_order r cik inst).2
    (fun k hk => (touch_mem_keys r cik inst k).2 (Or.inr hk))

theorem OrderInv.getEntry {r : PolicyResolution P} (h : OrderInv r)
    (cik : ComponentInstanceKey) : OrderInv (r.GetComponentInstanceEntry cik).1 :=
  h.of_map_step (GetComponentInstanceEntry_order r cik).1
    (GetComponentInstanceEntry_order r cik).2
    (fun k hk => (GetComponentInstanceEntry_mem_keys r cik k).2 (Or.inr hk))

omit [NestedParameterMap P] in
/-- What `recordProcessingOrder` does to the order: the key is in the order afterwards, no
other key is added, and the invariant of the order and its membership map is kept. -/
theorem recordProcessingOrder_spec (r : PolicyResolution P) (cik : ComponentInstanceKey)
    (hiff : ∀ k, (r.componentProcessingOrderHas.get k).getD false = true ↔
      k ∈ r.componentProcessingOrder)
    (hnd : r.componentProcessingOrder.Nodup) :
    (∀ k, ((r.recordProcessingOrder cik).componentProcessingOrderHas.get k).getD false = true ↔
        k ∈ (r.recordProcessingOrder cik).componentProcessingOrder) ∧
      (r.recordProcessingOrder cik).componentProcessingOrder.Nodup ∧
      (∀ k, k ∈ (r.recordProcessingOrder cik).componentProcessingOrder ↔
        k ∈ r.componentProcessingOrder ∨ k = cik.GetKey) := by
  simp only [recordProcessingOrder]
  by_cases hhas : (r.componentProcessingOrderHas.get cik.GetKey).getD false = true
  · have hmem : cik.GetKey ∈ r.componentProcessingOrder := (hiff _).1 hhas
    simp only [hhas, Bool.not_true, Bool.false_eq_true, if_false]
    refine ⟨hiff, hnd, ?_⟩
    intro k
    constructor
    · exact Or.inl
    · rintro (h | h)
      · exact h
      · rw [h]; exact hmem
  · have hnot : cik.GetKey ∉ r.componentProcessingOrder := fun e => hhas ((hiff _).2 e)
    have hf : (r.componentProcessingOrderHas.get cik.GetKey).getD false = false := by
      simpa using hhas
    simp only [hf, Bool.not_false, if_true]
    refine ⟨?_, ?_, ?_⟩
    · intro k
      by_cases hk : k = cik.GetKey
      · simp [hk, GoMap.get_set]
      · simp [hk, GoMap.get_set, hiff k]
    · exact List.Nodup.append hnd (List.nodup_singleton _) (by simpa using hnot)
    · intro k; simp

omit [NestedParameterMap P] in
theorem OrderInv.recordProcessingOrder {r : PolicyResolution P} (h : OrderInv r)
    (cik : ComponentInstanceKey) (hmem : cik.GetKey ∈ r.ComponentInstanceMap.keys) :
    OrderInv (r.recordProcessingOrder cik) := by
  obtain ⟨h1, h2, h3⟩ := recordProcessingOrder_spec r cik h.has_iff h.nodup
  refine ⟨h1, h2, ?_⟩
  intro k hk
  rw [recordProcessingOrder_map]
  rcases (h3 k).1 hk with hk | hk
  · exact h.mem_map k hk
  · rw [hk]; exact hmem

theorem appendInstances_order (l : List (String × ComponentInstance P))
    (resolution : PolicyResolution P) :
    (appendInstances resolution l).1.componentProcessingOrder =
        resolution.componentProcessingOrder ∧
      (appendInstances resolution l).1.componentProcessingOrderHas =
        resolution.componentProcessingOrderHas := by
  induction l generalizing resolution with
  | nil => simp [appendInstances]
  | cons hd tl ih =>
    rw [appendInstances_cons]
    split
    · exact touch_order resolution _ _
    · rw [(ih _).1, (ih _).2]
      exact touch_order resolution _ _

omit [NestedParameterMap P] in
/-- The second loop of `AppendData`: every instance key of the list that is in the instance
map is recorded, no other key is added, and the order invariant is kept. -/
theorem foldl_recordProcessingOrder_spec (l : List (String × ComponentInstance P))
    (r : PolicyResolution P) (h : OrderInv r)
    (hl : ∀ kv ∈ l, kv.2.GetKey ∈ r.ComponentInstanceMap.keys) :
    OrderInv (l.foldl (fun res kv => res.recordProcessingOrder kv.2.Metadata.Key) r) ∧
      ∀ k, k ∈ (l.foldl (fun res kv => res.recordProcessingOrder kv.2.Metadata.Key)
          r).componentProcessingOrder ↔
        k ∈ r.componentProcessingOrder ∨ ∃ kv ∈ l, kv.2.GetKey = k := by
  induction l generalizing r with
  | nil => simp [h]
  | cons hd tl ih =>
    rw [List.foldl_cons]
    have hhd : hd.2.Metadata.Key.GetKey ∈ r.ComponentInstanceMap.keys :=
      hl hd (List.mem_cons_self _ _)
    have h' := h.recordProcessingOrder hd.2.Metadata.Key hhd
    have hl' : ∀ kv ∈ tl, kv.2.GetKey ∈
        (r.recordProcessingOrder hd.2.Metadata.Key).ComponentInstanceMap.keys := by
      intro kv hkv
      rw [recordProcessingOrder_map]
      exact hl kv (List.mem_cons_of_mem _ hkv)
    obtain ⟨hi, hm⟩ := ih _ h' hl'
    refine ⟨hi, ?_⟩
    intro k
    rw [hm, (recordProcessingOrder_spec r hd.2.Metadata.Key h.has_iff h.nodup).2.2 k]
    simp only [List.mem_cons, exists_eq_or_imp, ComponentInstance.GetKey]
    constructor
    · rintro ((h1 | h1) | h1)
      · exact Or.inl h1
      · exact Or.inr (Or.inl h1.symm)
      · exact Or.inr (Or.inr h1)
    · rintro (h1 | h1 | h1)
      · exact Or.inl (Or.inl h1)
      · exact Or.inl (Or.inr h1.symm)
      · exact Or.inr h1

/-- When `AppendData` returns no error, its result is the result of its second loop. -/
theorem AppendData_fst (resolution ops : PolicyResolution P)
    (herr : (resolution.AppendData ops).2 = none) :
    (resolution.AppendData ops).1 =
      ops.ComponentInstanceMap.entries.foldl
        (fun res kv => res.recordProcessingOrder kv.2.Metadata.Key)
        (appendInstances resolution ops.ComponentInstanceMap.entries).1 := by
  unfold AppendData at herr ⊢
  generalize appendInstances resolution ops.ComponentInstanceMap.entries = res at herr ⊢
  obtain ⟨r, e⟩ := res
  cases e
  · rfl
  · cases herr

omit [NestedParameterMap P] in
theorem OrderInv.new (isDesired : Bool) :
    OrderInv (NewPolicyResolution isDesired : PolicyResolution P) :=
  ⟨fun k => by simp [NewPolicyResolution, GoMap.get_empty], List.nodup_nil,
    fun k hk => by simp [NewPolicyResolution] at hk⟩

theorem RecordResolved_spec {r : PolicyResolution P} (h : OrderInv r)
    (cik : ComponentInstanceKey) (dependencyKey : String) (depth : Int)
    (ruleResult : RuleActionResult) :
    OrderInv (r.RecordResolved cik dependencyKey depth ruleResult) ∧
      (∀ k, k ∈ (r.RecordResolved cik dependencyKey depth ruleResult).ComponentInstanceMap.keys ↔
        k ∈ r.ComponentInstanceMap.keys ∨ k = cik.GetKey) ∧
      (∀ k, k ∈ (r.RecordResolved cik dependencyKey depth
          ruleResult).componentProcessingOrder ↔
        k ∈ r.componentProcessingOrder ∨ k = cik.GetKey) := by
  unfold RecordResolved
  simp only
  have ht := h.touch cik
    (((r.GetComponentInstanceEntry cik).2.addDependency dependencyKey depth).addRuleInformation
      ruleResult)
  refine ⟨ht.recordProcessingOrder cik ((touch_mem_keys r cik _ _).2 (Or.inl rfl)), ?_, ?_⟩
  · intro k
    rw [recordProcessingOrder_map, touch_mem_keys]
    exact Or.comm
  · intro k
    rw [(recordProcessingOrder_spec _ cik ht.has_iff ht.nodup).2.2 k, (touch_order r cik _).1]

/-- The invariant of the order holds after `AppendData`, whether or not it returns an
error. -/
theorem OrderInv.appendData {r : PolicyResolution P} (h : OrderInv r)
    (ops : PolicyResolution P) : OrderInv (r.AppendData ops).1 := by
  have ha : OrderInv (appendInstances r ops.ComponentInstanceMap.entries).1 :=
    h.of_map_step (appendInstances_order _ r).1 (appendInstances_order _ r).2
      (fun k hk => appendInstances_keys_mono _ r k hk)
  cases herr : (r.AppendData ops).2 with
  | some err => rw [AppendData_fst_of_error r ops err herr]; exact ha
  | none =>
    rw [AppendData_fst r ops herr]
    have herr' : (appendInstances r ops.ComponentInstanceMap.entries).2 = none := by
      rw [← AppendData_snd]; exact herr
    have hl : ∀ kv ∈ ops.ComponentInstanceMap.entries, kv.2.GetKey ∈
        (appendInstances r ops.ComponentInstanceMap.entries).1.ComponentInstanceMap.keys :=
      fun kv hkv => (appendInstances_mem_keys _ r herr' _).2 (Or.inr ⟨kv, hkv, rfl⟩)
    exact (foldl_recordProcessingOrder_spec _ _ ha hl).1

/-- When `AppendData` returns no error, the keys of the instance map and of the processing
order are the keys from before with the keys of the instances of `ops`. -/
theorem AppendData_spec {r : PolicyResolution P} (h : OrderInv r) (ops : PolicyResolution P)
    (herr : (r.AppendData ops).2 = none) :
    (∀ k, k ∈ (r.AppendData ops).1.ComponentInstanceMap.keys ↔
        k ∈ r.ComponentInstanceMap.keys ∨
          ∃ kv ∈ ops.ComponentInstanceMap.entries, kv.2.GetKey = k) ∧
      (∀ k, k ∈ (r.AppendData ops).1.componentProcessingOrder ↔
        k ∈ r.componentProcessingOrder ∨
          ∃ kv ∈ ops.ComponentInstanceMap.entries, kv.2.GetKey = k) := by
  have herr' : (appendInstances r ops.ComponentInstanceMap.entries).2 = none := by
    rw [← AppendData_snd]; exact herr
  have ha : OrderInv (appendInstances r ops.ComponentInstanceMap.entries).1 :=
    h.of_map_step (appendInstances_order _ r).1 (appendInstances_order _ r).2
      (fun k hk => appendInstances_keys_mono _ r k hk)
  have hl : ∀ kv ∈ ops.ComponentInstanceMap.entries, kv.2.GetKey ∈
      (appendInstances r ops.ComponentInstanceMap.entries).1.ComponentInstanceMap.keys :=
    fun kv hkv => (appendInstances_mem_keys _ r herr' _).2 (Or.inr ⟨kv, hkv, rfl⟩)
  obtain ⟨_, hm⟩ := foldl_recordProcessingOrder_spec _ _ ha hl
  refine ⟨?_, ?_⟩
  · intro k
    rw [AppendData_map, appendInstances_mem_keys _ r herr']
  · intro k
    rw [AppendData_fst r ops herr, hm, (appendInstances_order _ r).1]

theorem OrderInv.storeEdge {r : PolicyResolution P} (h : OrderInv r)
    (src dst : Option ComponentInstanceKey) : OrderInv (r.StoreEdge src dst) := by
  unfold StoreEdge
  cases src with
  | none => exact h
  | some src =>
    cases dst with
    | none => exact h
    | some dst => exact (h.touch src _).getEntry dst

/-- Every reachable resolution satisfies the invariant of the processing order. -/
theorem Reachable.orderInv {r : PolicyResolution P} (h : Reachable r) : OrderInv r := by
  induction h with
  | new isDesired => exact OrderInv.new isDesired
  | recordResolved cik dk depth rr _ ih => exact (RecordResolved_spec ih cik dk depth rr).1
  | recordCodeParams cik p _ ih => exact ih.touch cik _
  | recordDiscoveryParams cik p _ ih => exact ih.touch cik _
  | recordLabels cik labels _ ih => exact ih.touch cik _
  | storeEdge src dst _ ih => exact ih.storeEdge src dst
  | appendData ops _ ih => exact ih.appendData ops

/-- A resolution reached by `RecordResolved` and by calls of `AppendData` that return no
error is reachable. -/
theorem ReachableByRecording.reachable {r : PolicyResolution P} (h : ReachableByRecording r) :
    Reachable r := by
  induction h with
  | new isDesired => exact Reachable.new isDesired
  | recordResolved cik dk depth rr _ ih => exact Reachable.recordResolved cik dk depth rr ih
  | appendData ops _ _ ih => exact Reachable.appendData ops ih

/-- After `RecordResolved` and calls of `AppendData` that return no error, every key of the
instance map is in the processing order. -/
theorem ReachableByRecording.keys_subset {r : PolicyResolution P}
    (h : ReachableByRecording r) :
    ∀ k, k ∈ r.ComponentInstanceMap.keys → k ∈ r.componentProcessingOrder := by
  induction h with
  | new isDesired =>
    intro k hk
    simp [NewPolicyResolution, GoMap.keys, GoMap.empty] at hk
  | recordResolved cik dk depth rr hr ih =>
    obtain ⟨_, hk, ho⟩ := RecordResolved_spec hr.reachable.orderInv cik dk depth rr
    intro k hmem
    rw [ho]
    rcases (hk k).1 hmem with h1 | h1
    · exact Or.inl (ih k h1)
    · exact Or.inr h1
  | appendData ops hr herr ih =>
    obtain ⟨hk, ho⟩ := AppendData_spec hr.reachable.orderInv ops herr
    intro k hmem
    rw [ho]
    rcases (hk k).1 hmem with h1 | h1
    · exact Or.inl (ih k h1)
    · exact Or.inr h1

/-! ### Every reachable resolution stores each instance under its own key -/

omit [NestedParameterMap P] in
theorem KeyedByInstanceKey.storeEntry {r : PolicyResolution P} (h : r.KeyedByInstanceKey)
    (cik : ComponentInstanceKey) (inst : ComponentInstance P)
    (hi : inst.GetKey = cik.GetKey) : (r.storeEntry cik inst).KeyedByInstanceKey := by
  intro kv hkv
  rcases GoMap.mem_setEntries _ _ _ kv hkv with h1 | h1
  · rw [h1]; exact hi
  · exact h kv h1

theorem KeyedByInstanceKey.getEntryKeyed {r : PolicyResolution P} (h : r.KeyedByInstanceKey)
    (cik : ComponentInstanceKey) :
    (r.GetComponentInstanceEntry cik).1.KeyedByInstanceKey ∧
      (r.GetComponentInstanceEntry cik).2.GetKey = cik.GetKey := by
  cases hg : r.ComponentInstanceMap.get cik.GetKey with
  | none =>
    simp only [GetComponentInstanceEntry, hg]
    refine ⟨?_, rfl⟩
    intro kv hkv
    rcases GoMap.mem_setEntries _ _ _ kv hkv with h1 | h1
    · rw [h1]; rfl
    · exact h kv h1
  | some inst =>
    simp only [GetComponentInstanceEntry, hg]
    have hmem : (cik.GetKey, inst) ∈ r.ComponentInstanceMap.entries :=
      GoMap.mem_of_lookupEntries _ _ _ hg
    exact ⟨h, h (cik.GetKey, inst) hmem⟩

theorem KeyedByInstanceKey.touchKeyed {r : PolicyResolution P} (h : r.KeyedByInstanceKey)
    (cik : ComponentInstanceKey) (inst : ComponentInstance P)
    (hi : inst.Metadata = (r.GetComponentInstanceEntry cik).2.Metadata) :
    ((r.GetComponentInstanceEntry cik).1.storeEntry cik inst).KeyedByInstanceKey :=
  (h.getEntryKeyed cik).1.storeEntry cik inst (by
    have := (h.getEntryKeyed cik).2
    simp only [ComponentInstance.GetKey] at this ⊢
    rw [hi]; exact this)

omit [NestedParameterMap P] in
theorem KeyedByInstanceKey.of_map_eq {r r' : PolicyResolution P} (h : r.KeyedByInstanceKey)
    (hm : r'.ComponentInstanceMap = r.ComponentInstanceMap) : r'.KeyedByInstanceKey := by
  unfold KeyedByInstanceKey
  rw [hm]
  exact h

theorem addCodeParams_metadata (inst : ComponentInstance P) (p : P) :
    (inst.addCodeParams p).1.Metadata = inst.Metadata := by
  unfold ComponentInstance.addCodeParams
  split
  · rfl
  · split <;> rfl

theorem addDiscoveryParams_metadata (inst : ComponentInstance P) (p : P) :
    (inst.addDiscoveryParams p).1.Metadata = inst.Metadata := by
  unfold ComponentInstance.addDiscoveryParams
  split
  · rfl
  · split <;> rfl

theorem appendData_metadata (inst ops : ComponentInstance P) :
    (inst.appendData ops).Metadata = inst.Metadata := by
  rw [ComponentInstance.appendData_eq]
  split
  · rfl
  · split
    · rfl
    · split <;> rfl

theorem KeyedByInstanceKey.appendInstances (l : List (String × ComponentInstance P))
    {r : PolicyResolution P} (h : r.KeyedByInstanceKey) :
    (appendInstances r l).1.KeyedByInstanceKey := by
  induction l generalizing r with
  | nil => exact h
  | cons hd tl ih =>
    rw [appendInstances_cons]
    split
    · exact h.touchKeyed _ _ (appendData_metadata _ _)
    · exact ih (h.touchKeyed _ _ (appendData_metadata _ _))

theorem RecordResolved_eq (r : PolicyResolution P) (cik : ComponentInstanceKey)
    (dependencyKey : String) (depth : Int) (ruleResult : RuleActionResult) :
    r.RecordResolved cik dependencyKey depth ruleResult =
      ((r.GetComponentInstanceEntry cik).1.storeEntry cik
        (((r.GetComponentInstanceEntry cik).2.addDependency dependencyKey
          depth).addRuleInformation ruleResult)).recordProcessingOrder cik := rfl

theorem RecordCodeParams_eq (r : PolicyResolution P) (cik : ComponentInstanceKey) (p : P) :
    (r.RecordCodeParams cik p).1 =
      (r.GetComponentInstanceEntry cik).1.storeEntry cik
        ((r.GetComponentInstanceEntry cik).2.addCodeParams p).1 := rfl

theorem RecordDiscoveryParams_eq (r : PolicyResolution P) (cik : ComponentInstanceKey)
    (p : P) :
    (r.RecordDiscoveryParams cik p).1 =
      (r.GetComponentInstanceEntry cik).1.storeEntry cik
        ((r.GetComponentInstanceEntry cik).2.addDiscoveryParams p).1 := rfl

theorem RecordLabels_eq (r : PolicyResolution P) (cik : ComponentInstanceKey)
    (labels : LabelSet) :
    r.RecordLabels cik labels =
      (r.GetComponentInstanceEntry cik).1.storeEntry cik
        ((r.GetComponentInstanceEntry cik).2.addLabels labels) := rfl

theorem StoreEdge_eq (r : PolicyResolution P) (src dst : ComponentInstanceKey) :
    r.StoreEdge (some src) (some dst) =
      (((r.GetComponentInstanceEntry src).1.storeEntry src
        ((r.GetComponentInstanceEntry src).2.addEdgeOut dst.GetKey)).GetComponentInstanceEntry
          dst).1 := rfl

/-- Every reachable resolution stores each instance under the key of the instance. -/
theorem Reachable.keyedByInstanceKey {r : PolicyResolution P} (h : Reachable r) :
    r.KeyedByInstanceKey := by
  induction h with
  | new isDesired => intro kv hkv; simp [NewPolicyResolution, GoMap.empty] at hkv
  | recordResolved cik dk depth rr _ ih =>
    rw [RecordResolved_eq]
    have ht := ih.touchKeyed cik
      (((PolicyResolution.GetComponentInstanceEntry _ cik).2.addDependency dk
        depth).addRuleInformation rr) rfl
    exact ht.of_map_eq (recordProcessingOrder_map _ _)
  | recordCodeParams cik p _ ih =>
    rw [RecordCodeParams_eq]
    exact ih.touchKeyed cik _ (addCodeParams_metadata _ _)
  | recordDiscoveryParams cik p _ ih =>
    rw [RecordDiscoveryParams_eq]
    exact ih.touchKeyed cik _ (addDiscoveryParams_metadata _ _)
  | recordLabels cik labels _ ih =>
    rw [RecordLabels_eq]
    exact ih.touchKeyed cik _ rfl
  | storeEdge src dst _ ih =>
    cases src with
    | none => exact ih
    | some src =>
      cases dst with
      | none => exact ih
      | some dst =>
        rw [StoreEdge_eq]
        have ht := ih.touchKeyed src
          ((PolicyResolution.GetComponentInstanceEntry _ src).2.addEdgeOut dst.GetKey) rfl
        exact (ht.getEntryKeyed dst).1
  | appendData ops _ ih =>
    exact (ih.appendInstances ops.ComponentInstanceMap.entries).of_map_eq
      (AppendData_map _ ops)

end PolicyResolution

/-! ## The aggregator's contract on resolutions -/

section ResolutionClaims

open PolicyResolution

variable {P : Type} [NestedParameterMap P]

/-- C4, counterexample: the resolution of the `port: 6000` claim holds component `c` and,
after it, the root of the service. Appended to the resolution of the `port: 5000` claim, the
merge of component `c` conflicts, `AppendData` returns the error, and the key of the root is
a key of `ops` that is not in the map afterwards. -/
theorem AppendData_stops_at_conflict :
    exampleRootKey.GetKey ∈ resolved6000.ComponentInstanceMap.keys ∧
      exampleRootKey.GetKey ∉
        (resolved5000.AppendData resolved6000).1.ComponentInstanceMap.keys ∧
      (resolved5000.AppendData resolved6000).2.isSome = true := by
  decide

/-- C4, amended: after `AppendData(ops)` the key set of the receiver's `ComponentInstanceMap`
contains its previous key set and is contained in that set united with the key set of
`ops.ComponentInstanceMap`, whether or not a merge conflicted: a conflicting merge never
removes an instance from the map. When `AppendData` returns no error, the key set equals the
union. `ops` stores every instance under the key of the instance, as every resolution built
by the operations of this file does (`Reachable.keyedByInstanceKey`). -/
theorem AppendData_keys (resolution ops : PolicyResolution P)
    (hops : ops.KeyedByInstanceKey) (k : String) :
    (k ∈ resolution.ComponentInstanceMap.keys →
        k ∈ (resolution.AppendData ops).1.ComponentInstanceMap.keys) ∧
      (k ∈ (resolution.AppendData ops).1.ComponentInstanceMap.keys →
        k ∈ resolution.ComponentInstanceMap.keys ∨ k ∈ ops.ComponentInstanceMap.keys) ∧
      ((resolution.AppendData ops).2 = none →
        (k ∈ (resolution.AppendData ops).1.ComponentInstanceMap.keys ↔
          k ∈ resolution.ComponentInstanceMap.keys ∨ k ∈ ops.ComponentInstanceMap.keys)) := by
  have hkeys : (∃ kv ∈ ops.ComponentInstanceMap.entries, kv.2.GetKey = k) ↔
      k ∈ ops.ComponentInstanceMap.keys := by
    unfold GoMap.keys
    simp only [List.mem_map]
    constructor
    · rintro ⟨kv, hkv, rfl⟩
      exact ⟨kv, hkv, (hops kv hkv).symm⟩
    · rintro ⟨kv, hkv, rfl⟩
      exact ⟨kv, hkv, hops kv hkv⟩
  refine ⟨?_, ?_, ?_⟩
  · intro hk
    rw [AppendData_map]
    exact appendInstances_keys_mono _ resolution k hk
  · intro hk
    rw [AppendData_map] at hk
    exact (appendInstances_keys_subset _ resolution k hk).imp id hkeys.1
  · intro herr
    rw [AppendData_map, appendInstances_mem_keys _ resolution (by rw [← AppendData_snd]; exact herr)]
    exact or_congr Iff.rfl hkeys

/-- C9: after `RecordResolved` the instance of the key is present in `ComponentInstanceMap`
and its `DataForPlugins["allow_ingress"]` is `"false"` when the rule result rejects ingress
and `"true"` otherwise. -/
theorem RecordResolved_allow_ingress (resolution : PolicyResolution P)
    (cik : ComponentInstanceKey) (dependencyKey : String) (depth : Int)
    (ruleResult : RuleActionResult) :
    ∃ inst,
      (resolution.RecordResolved cik dependencyKey depth ruleResult).ComponentInstanceMap.get
          cik.GetKey = some inst ∧
        inst.DataForPlugins.get "allow_ingress" =
          some (if ruleResult.RejectIngress then "false" else "true") := by
  unfold RecordResolved
  simp only [recordProcessingOrder_map, storeEntry, GoMap.get_set_self]
  refine ⟨_, rfl, ?_⟩
  obtain ⟨reject, _⟩ := ruleResult
  cases reject <;>
    simp [ComponentInstance.addRuleInformation, ComponentInstance.addDependency, AllowIngres,
      FormatBool, GoMap.get_set_self]

/-- Witness for C4 as amended: the resolution of the `port: 6000` claim, which also holds the
root of the service, appended to a resolution that recorded component `c` without params; no
merge conflicts and the key of the root is added. -/
theorem AppendData_keys_witness :
    (exampleRootKey.GetKey ∈ recordedOnly.ComponentInstanceMap.keys →
        exampleRootKey.GetKey ∈ (recordedOnly.AppendData resolved6000).1.ComponentInstanceMap.keys) ∧
      (exampleRootKey.GetKey ∈ (recordedOnly.AppendData resolved6000).1.ComponentInstanceMap.keys →
        exampleRootKey.GetKey ∈ recordedOnly.ComponentInstanceMap.keys ∨
          exampleRootKey.GetKey ∈ resolved6000.ComponentInstanceMap.keys) ∧
      ((recordedOnly.AppendData resolved6000).2 = none →
        (exampleRootKey.GetKey ∈
            (recordedOnly.AppendData resolved6000).1.ComponentInstanceMap.keys ↔
          exampleRootKey.GetKey ∈ recordedOnly.ComponentInstanceMap.keys ∨
            exampleRootKey.GetKey ∈ resolved6000.ComponentInstanceMap.keys)) :=
  AppendData_keys recordedOnly resolved6000
    (by unfold PolicyResolution.KeyedByInstanceKey; decide) exampleRootKey.GetKey

/-- C10, counterexample: after `RecordCodeParams` on a new resolution the key of the component
is in `ComponentInstanceMap`, and the processing order is empty. And with `RecordResolved` and
`AppendData` alone: when `rootThen6000` is appended to a resolution that holds component `c`
with `port: 5000`, the entry of the root is created, the merge of component `c` conflicts and
`AppendData` returns before it records the order, so the key of the root is in the map and
not in the processing order. -/
theorem processingOrder_misses_unrecorded_key :
    (Reachable paramsOnly ∧
      ¬ (exampleKey.GetKey ∈ paramsOnly.componentProcessingOrder ↔
        exampleKey.GetKey ∈ paramsOnly.ComponentInstanceMap.keys)) ∧
      (Reachable (appended5000.AppendData rootThen6000).1 ∧
        ¬ (exampleRootKey.GetKey ∈
            (appended5000.AppendData rootThen6000).1.componentProcessingOrder ↔
          exampleRootKey.GetKey ∈
            (appended5000.AppendData rootThen6000).1.ComponentInstanceMap.keys)) :=
  ⟨⟨Reachable.recordCodeParams _ _ (Reachable.new true), by decide⟩,
    Reachable.appendData _ (Reachable.appendData _ (Reachable.new true)), by decide⟩

/-- C10, amended: in every resolution reachable from `NewPolicyResolution` by `RecordResolved`,
`RecordCodeParams`, `RecordDiscoveryParams`, `RecordLabels`, `StoreEdge` and `AppendData`,
every key of the processing order is a key of `ComponentInstanceMap`; when the resolution is
reached by `RecordResolved` and by calls of `AppendData` that return no error, the keys of the
processing order are exactly the keys of `ComponentInstanceMap`. -/
theorem processingOrder_keys (r : PolicyResolution P) (k : String) :
    (Reachable r → k ∈ r.componentProcessingOrder → k ∈ r.ComponentInstanceMap.keys) ∧
      (ReachableByRecording r →
        (k ∈ r.componentProcessingOrder ↔ k ∈ r.ComponentInstanceMap.keys)) :=
  ⟨fun h => h.orderInv.mem_map k,
    fun h => ⟨h.reachable.orderInv.mem_map k, h.keys_subset k⟩⟩

/-- Witness for C10 as amended: the resolution of the `port: 6000` claim appended to the
resolution of the `port: 5000` claim, where the merge conflicts, at the key of component `c`;
and appended to a resolution built by `RecordResolved` alone, where no merge conflicts, at
the key of the root instance. -/
theorem processingOrder_keys_witness :
    exampleKey.GetKey ∈
        (resolved5000.AppendData resolved6000).1.ComponentInstanceMap.keys ∧
      (exampleRootKey.GetKey ∈ (recordedOnly.AppendData resolved6000).1.componentProcessingOrder ↔
        exampleRootKey.GetKey ∈
          (recordedOnly.AppendData resolved6000).1.ComponentInstanceMap.keys) :=
  ⟨(processingOrder_keys (resolved5000.AppendData resolved6000).1 exampleKey.GetKey).1
      (Reachable.appendData _ (Reachable.recordCodeParams _ _
        (Reachable.recordResolved _ _ _ _ (Reachable.new true)))) (by decide),
    (processingOrder_keys (recordedOnly.AppendData resolved6000).1 exampleRootKey.GetKey).2
      (ReachableByRecording.appendData _ (ReachableByRecording.recordResolved _ _ _ _
        (ReachableByRecording.new true)) rfl)⟩

/-- C11: in every resolution reachable from `NewPolicyResolution` by the operations of the
package the processing order contains no key twice, and `recordProcessingOrder` appends the
key when it is not yet in the order and leaves the order unchanged when it is. -/
theorem processingOrder_nodup (r : PolicyResolution P) (h : Reachable r)
    (cik : ComponentInstanceKey) :
    r.componentProcessingOrder.Nodup ∧
      (r.recordProcessingOrder cik).componentProcessingOrder.Nodup ∧
      (r.recordProcessingOrder cik).componentProcessingOrder =
        if cik.GetKey ∈ r.componentProcessingOrder then r.componentProcessingOrder
        else r.componentProcessingOrder ++ [cik.GetKey] := by
  have hi := h.orderInv
  refine ⟨hi.nodup, (recordProcessingOrder_spec r cik hi.has_iff hi.nodup).2.1, ?_⟩
  simp only [recordProcessingOrder]
  by_cases hmem : cik.GetKey ∈ r.componentProcessingOrder
  · have hhas := (hi.has_iff cik.GetKey).2 hmem
    simp [hmem, hhas]
  · have hhas : (r.componentProcessingOrderHas.get cik.GetKey).getD false = false := by
      cases hb : (r.componentProcessingOrderHas.get cik.GetKey).getD false
      · rfl
      · exact absurd ((hi.has_iff cik.GetKey).1 hb) hmem
    simp [hmem, hhas]

/-- Witness for C11: recording the key of component `c` a second time, in the resolution of
the `port: 6000` claim appended to the resolution of the `port: 5000` claim. -/
theorem processingOrder_nodup_witness :
    (resolved5000.AppendData resolved6000).1.componentProcessingOrder.Nodup ∧
      (((resolved5000.AppendData resolved6000).1).recordProcessingOrder
        exampleKey).componentProcessingOrder.Nodup ∧
      (((resolved5000.AppendData resolved6000).1).recordProcessingOrder
          exampleKey).componentProcessingOrder =
        if exampleKey.GetKey ∈ (resolved5000.AppendData resolved6000).1.componentProcessingOrder
        then (resolved5000.AppendData resolved6000).1.componentProcessingOrder
        else (resolved5000.AppendData resolved6000).1.componentProcessingOrder ++
          [exampleKey.GetKey] :=
  processingOrder_nodup (resolved5000.AppendData resolved6000).1
    (Reachable.appendData _ (Reachable.recordCodeParams _ _
      (Reachable.recordResolved _ _ _ _ (Reachable.new true)))) exampleKey

end ResolutionClaims

/-! ## Lemmas on labels of package `slinga` -/

namespace Slinga

/-- A copy loop into the empty map reads what the source map reads. -/
theorem get_copy (m : Option (GoMap String)) (k : String) :
    ((GoMap.rangeOf m).foldl (fun r kv => r.set kv.1 kv.2) GoMap.empty).get k =
      GoMap.getOf m k := by
  rw [GoMap.get_foldl_set _ (GoMap.nodup_rangeOf m), GoMap.lookupEntries_rangeOf,
    GoMap.get_empty, Option.or_none]

theorem addLabels_get (src ops : LabelSet) (k : String) :
    GoMap.getOf (src.addLabels ops).Labels k =
      (GoMap.getOf ops.Labels k).or (GoMap.getOf src.Labels k) := by
  show GoMap.get _ k = _
  rw [GoMap.get_foldl_set _ (GoMap.nodup_rangeOf ops.Labels), GoMap.lookupEntries_rangeOf,
    get_copy]

theorem applyTransform_get (src : LabelSet) (ops : Option LabelOperations) (k : String) :
    GoMap.getOf (src.applyTransform ops).Labels k =
      if (GoMap.getOf (opsRemove ops) k).isSome then none
      else (GoMap.getOf (opsSet ops) k).or (GoMap.getOf src.Labels k) := by
  cases ops with
  | none =>
    show GoMap.get _ k = _
    rw [get_copy]
    simp [opsRemove, opsSet, GoMap.getOf]
  | some ops =>
    show GoMap.get _ k = if (GoMap.getOf (ops.get "remove") k).isSome then none
      else (GoMap.getOf (ops.get "set") k).or (GoMap.getOf src.Labels k)
    rw [GoMap.get_foldl_delete, GoMap.get_foldl_set _ (GoMap.nodup_rangeOf _),
      GoMap.lookupEntries_rangeOf, get_copy]
    by_cases h : k ∈ (GoMap.rangeOf (ops.get "remove")).map Prod.fst
    · have h' := (GoMap.mem_keys_rangeOf _ k).1 h
      simp [h, h']
    · have h' : ¬ (GoMap.getOf (ops.get "remove") k).isSome = true :=
        fun e => h ((GoMap.mem_keys_rangeOf _ k).2 e)
      simp [h, h']

theorem lookupEntries_of_mem {V : Type} (k : String) (v : V) (l : List (String × V))
    (hl : (l.map Prod.fst).Nodup) (h : (k, v) ∈ l) : GoMap.lookupEntries k l = some v := by
  induction l with
  | nil => simp at h
  | cons hd tl ih =>
    obtain ⟨k0, v0⟩ := hd
    simp only [List.map_cons, List.nodup_cons] at hl
    rcases List.mem_cons.1 h with heq | hmem
    · cases heq
      simp [GoMap.lookupEntries]
    · have hne : ¬ k0 = k := by
        intro e
        apply hl.1
        rw [e]
        exact List.mem_map_of_mem Prod.fst hmem
      simp only [GoMap.lookupEntries, hne, if_false]
      exact ih hl.2 hmem

/-- Two maps of the same length, of which the second holds every entry of the first, read the
same value at every key. -/
theorem get_eq_of_entries {V : Type} (a b : GoMap V) (hlen : a.len = b.len)
    (hall : ∀ kv ∈ a.entries, b.get kv.1 = some kv.2) (k : String) : a.get k = b.get k := by
  cases ha : a.get k with
  | some v => exact (hall (k, v) (GoMap.mem_of_lookupEntries k v a.entries ha)).symm
  | none =>
    have hsub : a.keys ⊆ b.keys := by
      intro k' hk'
      obtain ⟨kv, hkv, rfl⟩ := List.mem_map.1 hk'
      rw [GoMap.mem_keys_iff, hall kv hkv]
      rfl
    have hperm : a.keys.Perm b.keys :=
      (List.subperm_of_subset a.nodup hsub).perm_of_length_le (by
        simp only [GoMap.keys, List.length_map]
        exact le_of_eq hlen.symm)
    cases hb : b.get k with
    | none => rfl
    | some v =>
      have hk : k ∈ b.keys := by rw [GoMap.mem_keys_iff, hb]; rfl
      have hk' : k ∈ a.keys := hperm.mem_iff.2 hk
      rw [GoMap.mem_keys_iff, ha] at hk'
      cases hk'

theorem keys_perm_of_get_eq {V : Type} (a b : GoMap V) (h : ∀ k, a.get k = b.get k) :
    a.keys.Perm b.keys := by
  refine (List.perm_ext_iff_of_nodup a.nodup b.nodup).2 (fun k => ?_)
  have ha := GoMap.mem_keys_iff a k
  have hb := GoMap.mem_keys_iff b k
  rw [h k] at ha
  exact ha.trans hb.symm

theorem deepEqualLabels_iff (a b : GoMap String) :
    LabelSet.deepEqualLabels (some a) (some b) = true ↔ ∀ k, a.get k = b.get k := by
  simp only [LabelSet.deepEqualLabels, Bool.and_eq_true, beq_iff_eq, List.all_eq_true]
  constructor
  · rintro ⟨hlen, hall⟩ k
    exact get_eq_of_entries a b hlen hall k
  · intro h
    refine ⟨?_, ?_⟩
    · have := (keys_perm_of_get_eq a b h).length_eq
      simpa [GoMap.keys, GoMap.len] using this
    · intro kv hkv
      rw [← h kv.1]
      exact lookupEntries_of_mem kv.1 kv.2 a.entries a.nodup hkv

theorem lenOf_eq_zero_iff (m : Option (GoMap String)) :
    GoMap.lenOf m = 0 ↔ ∀ k, GoMap.getOf m k = none := by
  cases m with
  | none => simp [GoMap.lenOf, GoMap.rangeOf, GoMap.getOf]
  | some m => exact GoMap.len_eq_zero_iff m

theorem equal_iff (src dst : LabelSet) :
    src.equal dst = true ↔ ∀ k, GoMap.getOf src.Labels k = GoMap.getOf dst.Labels k := by
  unfold LabelSet.equal
  by_cases h0 : GoMap.lenOf src.Labels = 0 ∧ GoMap.lenOf dst.Labels = 0
  · simp only [h0, and_self, if_true, true_iff]
    intro k
    rw [(lenOf_eq_zero_iff _).1 h0.1 k, (lenOf_eq_zero_iff _).1 h0.2 k]
  · rw [if_neg h0]
    obtain ⟨a⟩ := src
    obtain ⟨b⟩ := dst
    cases a with
    | none =>
      cases b with
      | none => exact absurd ⟨rfl, rfl⟩ h0
      | some b =>
        simp only [LabelSet.deepEqualLabels, Bool.false_eq_true, false_iff]
        intro h
        apply h0
        refine ⟨rfl, (lenOf_eq_zero_iff _).2 (fun k => ?_)⟩
        rw [← h k]
        rfl
    | some a =>
      cases b with
      | none =>
        simp only [LabelSet.deepEqualLabels, Bool.false_eq_true, false_iff]
        intro h
        apply h0
        refine ⟨(lenOf_eq_zero_iff _).2 (fun k => ?_), rfl⟩
        rw [h k]
        rfl
      | some b => exact deepEqualLabels_iff a b

/-! ## The contract of the labels of package `slinga` -/

section LabelClaims

/-- The label set with which `ResolveUsage` resolves a dependency: a key is in it exactly
when it is a key of the dependency or of the label set of the user, it reads the value of the
dependency when the dependency has the key and the value of the user otherwise, and every
label of the user is a key of it. The label set of the user is what `getLabelSet` returns:
the labels of the user overlaid with the labels of the secrets of the user. -/
theorem initialLabels_get (x : Externals) (user : User) (d : Dependency) (k : String) :
    GoMap.getOf (initialLabels x user d).Labels k =
        (GoMap.getOf d.Labels k).or
          (GoMap.getOf (user.getLabelSet x.LoadUserSecretsByIDFromDir x.secretsDir).Labels k) ∧
      ((GoMap.getOf (initialLabels x user d).Labels k).isSome = true ↔
        (GoMap.getOf d.Labels k).isSome = true ∨
          (GoMap.getOf (user.getLabelSet x.LoadUserSecretsByIDFromDir
            x.secretsDir).Labels k).isSome = true) ∧
      GoMap.getOf (user.getLabelSet x.LoadUserSecretsByIDFromDir x.secretsDir).Labels k =
        (GoMap.getOf (x.LoadUserSecretsByIDFromDir x.secretsDir user.ID).Labels k).or
          (GoMap.getOf user.Labels k) ∧
      ((GoMap.getOf user.Labels k).isSome = true →
        (GoMap.getOf (initialLabels x user d).Labels k).isSome = true) := by
  have h1 : GoMap.getOf (initialLabels x user d).Labels k =
      (GoMap.getOf d.Labels k).or
        (GoMap.getOf (user.getLabelSet x.LoadUserSecretsByIDFromDir x.secretsDir).Labels k) :=
    addLabels_get _ _ k
  have h2 : GoMap.getOf (user.getLabelSet x.LoadUserSecretsByIDFromDir x.secretsDir).Labels k =
      (GoMap.getOf (x.LoadUserSecretsByIDFromDir x.secretsDir user.ID).Labels k).or
        (GoMap.getOf user.Labels k) := addLabels_get _ _ k
  refine ⟨h1, ?_, h2, ?_⟩
  · rw [h1, Option.isSome_or, Bool.or_eq_true]
  · intro hu
    rw [h1, h2, Option.isSome_or, Option.isSome_or, hu]
    simp

/-- C20: `applyTransform` returns a new label set in which a key is present exactly when it
is not a key of `ops.remove` and is a key of `ops.set` or of the receiver; its value is the
value in `ops.set` when `ops.set` has the key and the value in the receiver otherwise. A key
of both `set` and `remove` is absent, and nil `ops` gives a copy of the receiver. -/
theorem applyTransform_set_then_remove (src : LabelSet) (ops : Option LabelOperations)
    (k : String) :
    (src.applyTransform ops).Labels.isSome = true ∧
      GoMap.getOf (src.applyTransform ops).Labels k =
        (if (GoMap.getOf (opsRemove ops) k).isSome then none
          else (GoMap.getOf (opsSet ops) k).or (GoMap.getOf src.Labels k)) ∧
      ((GoMap.getOf (src.applyTransform ops).Labels k).isSome = true ↔
        (GoMap.getOf (opsRemove ops) k).isSome = false ∧
          ((GoMap.getOf (opsSet ops) k).isSome = true ∨
            (GoMap.getOf src.Labels k).isSome = true)) ∧
      GoMap.getOf (src.applyTransform none).Labels k = GoMap.getOf src.Labels k := by
  refine ⟨?_, applyTransform_get src ops k, ?_, ?_⟩
  · cases ops <;> rfl
  · rw [applyTransform_get]
    cases hr : (GoMap.getOf (opsRemove ops) k).isSome
    · simp [Option.isSome_or]
    · simp
  · rw [applyTransform_get]
    simp [opsRemove, opsSet, GoMap.getOf]

/-- C21: `A.addLabels(B)` has exactly the keys of `A` united with the keys of `B`; every key
of `B` is mapped to the value of `B` and every other key to the value of `A`. -/
theorem addLabels_union_right_biased (a b : LabelSet) (k : String) :
    (k ∈ (GoMap.rangeOf (a.addLabels b).Labels).map Prod.fst ↔
        k ∈ (GoMap.rangeOf a.Labels).map Prod.fst ∨
          k ∈ (GoMap.rangeOf b.Labels).map Prod.fst) ∧
      GoMap.getOf (a.addLabels b).Labels k =
        if k ∈ (GoMap.rangeOf b.Labels).map Prod.fst then GoMap.getOf b.Labels k
        else GoMap.getOf a.Labels k := by
  have hget := addLabels_get a b k
  constructor
  · rw [GoMap.mem_keys_rangeOf, GoMap.mem_keys_rangeOf, GoMap.mem_keys_rangeOf, hget,
      Option.isSome_or, Bool.or_eq_true]
    exact Or.comm
  · rw [hget]
    by_cases hk : k ∈ (GoMap.rangeOf b.Labels).map Prod.fst
    · rw [if_pos hk]
      have hsome := (GoMap.mem_keys_rangeOf _ k).1 hk
      cases hb : GoMap.getOf b.Labels k with
      | none => rw [hb] at hsome; cases hsome
      | some v => rfl
    · rw [if_neg hk]
      cases hb : GoMap.getOf b.Labels k with
      | none => rfl
      | some v =>
        exfalso
        apply hk
        rw [GoMap.mem_keys_rangeOf, hb]
        rfl

/-- C23: `equal` returns true exactly when both label sets have no labels or both hold the
same key-value pairs, which is when they read the same value at every key; a nil map and an
empty map are equal, and `equal` is reflexive and symmetric. -/
theorem equal_iff_same_labels (src dst : LabelSet) :
    (src.equal dst = true ↔
        (GoMap.lenOf src.Labels = 0 ∧ GoMap.lenOf dst.Labels = 0) ∨
          (GoMap.lenOf src.Labels = GoMap.lenOf dst.Labels ∧
            ∀ k, GoMap.getOf src.Labels k = GoMap.getOf dst.Labels k)) ∧
      (src.equal dst = true ↔
        ∀ k, GoMap.getOf src.Labels k = GoMap.getOf dst.Labels k) ∧
      LabelSet.equal ⟨none⟩ ⟨some GoMap.empty⟩ = true ∧
      LabelSet.equal ⟨some GoMap.empty⟩ ⟨none⟩ = true ∧
      src.equal src = true ∧
      src.equal dst = dst.equal src := by
  have hsym : src.equal dst = dst.equal src := by
    rw [Bool.eq_iff_iff, equal_iff, equal_iff]
    exact ⟨fun h k => (h k).symm, fun h k => (h k).symm⟩
  refine ⟨?_, equal_iff src dst, rfl, rfl, (equal_iff src src).2 (fun _ => rfl), hsym⟩
  rw [equal_iff]
  constructor
  · intro h
    by_cases h0 : GoMap.lenOf src.Labels = 0
    · left
      refine ⟨h0, (lenOf_eq_zero_iff _).2 (fun k => ?_)⟩
      rw [← h k]
      exact (lenOf_eq_zero_iff _).1 h0 k
    · right
      refine ⟨?_, h⟩
      obtain ⟨a⟩ := src
      obtain ⟨b⟩ := dst
      cases a with
      | none => exact absurd rfl h0
      | some a =>
        cases b with
        | none =>
          exfalso
          apply h0
          refine (lenOf_eq_zero_iff _).2 (fun k => ?_)
          rw [h k]
          rfl
        | some b =>
          have := (keys_perm_of_get_eq a b h).length_eq
          simpa [GoMap.keys, GoMap.lenOf, GoMap.rangeOf] using this
  · rintro (⟨h1, h2⟩ | ⟨_, h⟩)
    · intro k
      rw [(lenOf_eq_zero_iff _).1 h1 k, (lenOf_eq_zero_iff _).1 h2 k]
    · exact h

end LabelClaims

/-! ## Matching of contexts and allocations -/

theorem firstMatchedContext_append (x : Externals) (labels : LabelSet)
    (pre : List Context) (c : Context) (post : List Context)
    (hpre : ∀ c' ∈ pre, x.contextMatches c' labels = false)
    (hc : x.contextMatches c labels = true) :
    firstMatchedContext x labels (pre ++ c :: post) = some c := by
  induction pre with
  | nil => simp [firstMatchedContext, hc]
  | cons hd tl ih =>
    have hhd : x.contextMatches hd labels = false := hpre hd (List.mem_cons_self _ _)
    simp only [List.cons_append, firstMatchedContext, hhd, Bool.false_eq_true, if_false]
    exact ih (fun c' hc' => hpre c' (List.mem_cons_of_mem _ hc'))

theorem firstMatchedContext_none (x : Externals) (labels : LabelSet) (l : List Context)
    (h : ∀ c ∈ l, x.contextMatches c labels = false) : firstMatchedContext x labels l = none := by
  induction l with
  | nil => rfl
  | cons hd tl ih =>
    have hhd : x.contextMatches hd labels = false := h hd (List.mem_cons_self _ _)
    simp only [firstMatchedContext, hhd, Bool.false_eq_true, if_false]
    exact ih (fun c hc => h c (List.mem_cons_of_mem _ hc))

theorem firstMatchedAllocation_append (x : Externals) (labels : LabelSet)
    (pre : List Allocation) (a : Allocation) (post : List Allocation)
    (hpre : ∀ a' ∈ pre, x.allocationMatches a' labels = false)
    (ha : x.allocationMatches a labels = true) :
    firstMatchedAllocation x labels (pre ++ a :: post) = some a := by
  induction pre with
  | nil => simp [firstMatchedAllocation, ha]
  | cons hd tl ih =>
    have hhd : x.allocationMatches hd labels = false := hpre hd (List.mem_cons_self _ _)
    simp only [List.cons_append, firstMatchedAllocation, hhd, Bool.false_eq_true, if_false]
    exact ih (fun a' ha' => hpre a' (List.mem_cons_of_mem _ ha'))

theorem firstMatchedAllocation_none (x : Externals) (labels : LabelSet) (l : List Allocation)
    (h : ∀ a ∈ l, x.allocationMatches a labels = false) :
    firstMatchedAllocation x labels l = none := by
  induction l with
  | nil => rfl
  | cons hd tl ih =>
    have hhd : x.allocationMatches hd labels = false := h hd (List.mem_cons_self _ _)
    simp only [firstMatchedAllocation, hhd, Bool.false_eq_true, if_false]
    exact ih (fun a ha => h a (List.mem_cons_of_mem _ ha))

section MatchingClaims

/-- C17: `getMatchedContext` returns an error exactly when the policy has no context list for
the service. When it has one, no error is returned, the result is the first context of the
list, in declaration order, whose criteria match the labels, and the result is no context
when no context of the list matches. -/
theorem getMatchedContext_first_match (x : Externals) (policy : Policy) (service : Service)
    (user : User) (labels : LabelSet) :
    ((policy.getMatchedContext x service user labels).2.isSome = true ↔
        policy.Contexts.get service.Name = none) ∧
      ∀ contexts, policy.Contexts.get service.Name = some contexts →
        (∀ pre c post, contexts = pre ++ c :: post →
          (∀ c' ∈ pre, x.contextMatches c' labels = false) →
          x.contextMatches c labels = true →
          policy.getMatchedContext x service user labels = (some c, none)) ∧
        ((∀ c ∈ contexts, x.contextMatches c labels = false) →
          policy.getMatchedContext x service user labels = (none, none)) := by
  constructor
  · unfold Policy.getMatchedContext
    cases policy.Contexts.get service.Name <;> simp
  · intro contexts hctx
    unfold Policy.getMatchedContext
    rw [hctx]
    constructor
    · intro pre c post hsplit hpre hc
      simp only [hsplit, firstMatchedContext_append x labels pre c post hpre hc]
    · intro hnone
      simp only [firstMatchedContext_none x labels contexts hnone]

/-- Witness for C17: the contexts `dev`, `prod` and `any` for the labels `env: prod`; both
`prod` and `any` match and `prod` is the first. -/
theorem getMatchedContext_first_match_witness :
    ({ Services := GoMap.empty,
       Contexts := GoMap.single "S"
         [simpleContext "dev", simpleContext "prod", simpleContext "any"] } :
      Policy).getMatchedContext exampleExternals serviceS alice ⟨alice.Labels⟩ =
        (some (simpleContext "prod"), none) :=
  ((getMatchedContext_first_match exampleExternals _ serviceS alice ⟨alice.Labels⟩).2
    [simpleContext "dev", simpleContext "prod", simpleContext "any"] (by rfl)).1
    [simpleContext "dev"] (simpleContext "prod") [simpleContext "any"] rfl
    (by decide) (by decide)

/-- C18: `getMatchedAllocation` never returns an error, and its result is decided by the first
allocation of the context, in declaration order, whose criteria match: that allocation, as
`resolveName` leaves it, is returned when its name resolves, and no allocation is returned
when its name cannot be resolved, whatever follows it in the list; no allocation is returned
when no allocation matches. -/
theorem getMatchedAllocation_first_match (x : Externals) (policy : Policy)
    (service : Service) (user : User) (context : Context) (labels : LabelSet) :
    (policy.getMatchedAllocation x service user context labels).2 = none ∧
      (∀ pre a post, context.Allocations = pre ++ a :: post →
        (∀ a' ∈ pre, x.allocationMatches a' labels = false) →
        x.allocationMatches a labels = true →
        policy.getMatchedAllocation x service user context labels =
          if (x.resolveName a user).2.isSome then (none, none)
          else (some (x.resolveName a user).1, none)) ∧
      ((∀ a ∈ context.Allocations, x.allocationMatches a labels = false) →
        policy.getMatchedAllocation x service user context labels = (none, none)) := by
  refine ⟨?_, ?_, ?_⟩
  · unfold Policy.getMatchedAllocation
    cases firstMatchedAllocation x labels context.Allocations with
    | none => rfl
    | some a =>
      simp only
      rcases hr : x.resolveName a user with ⟨a', _ | e⟩ <;> rfl
  · intro pre a post hsplit hpre ha
    unfold Policy.getMatchedAllocation
    rw [hsplit, firstMatchedAllocation_append x labels pre a post hpre ha]
    simp only
    rcases hr : x.resolveName a user with ⟨a', _ | e⟩ <;> simp
  · intro hnone
    unfold Policy.getMatchedAllocation
    rw [firstMatchedAllocation_none x labels _ hnone]

/-- Witness for C18: the allocation `dynamic` comes first and its name cannot be resolved for
`alice`, who has no label `team`; the allocation `a` after it is not tried. -/
theorem getMatchedAllocation_first_match_witness :
    policyST.getMatchedAllocation exampleExternals serviceS alice
        { Name := "prod", Labels := none,
          Allocations := [⟨"dynamic", "", none⟩, ⟨"a", "", none⟩] } ⟨alice.Labels⟩ =
      if (exampleExternals.resolveName ⟨"dynamic", "", none⟩ alice).2.isSome then (none, none)
      else (some (exampleExternals.resolveName ⟨"dynamic", "", none⟩ alice).1, none) :=
  (getMatchedAllocation_first_match exampleExternals policyST serviceS alice
    { Name := "prod", Labels := none,
      Allocations := [⟨"dynamic", "", none⟩, ⟨"a", "", none⟩] } ⟨alice.Labels⟩).2.1
    [] ⟨"dynamic", "", none⟩ [⟨"a", "", none⟩] rfl (by simp) (by rfl)

end MatchingClaims

/-! ## Lemmas on the processing order of the first engine -/

theorem Precedes.mono {l l' : List String} {a b : String} (h : Precedes l a b)
    (hl : l <+: l') : Precedes l' a b := by
  obtain ⟨l1, l2, rfl, ha⟩ := h
  obtain ⟨t, rfl⟩ := hl
  exact ⟨l1, l2 ++ t, by simp, ha⟩

theorem Precedes.indexOf_lt {l : List String} {a b : String} (h : Precedes l a b)
    (hl : l.Nodup) : a ∈ l ∧ b ∈ l ∧ l.indexOf a < l.indexOf b := by
  obtain ⟨l1, l2, rfl, ha⟩ := h
  have hb : b ∉ l1 := by
    intro hb
    have := List.disjoint_of_nodup_append hl
    exact this hb (List.mem_cons_self _ _)
  refine ⟨List.mem_append_left _ ha, List.mem_append_right _ (List.mem_cons_self _ _), ?_⟩
  rw [List.indexOf_append_of_mem ha, List.indexOf_append_of_not_mem hb,
    List.indexOf_cons_self]
  have := List.indexOf_lt_length.2 ha
  omega

theorem recordUsage_fst (x : Externals) (usage : ServiceUsageState) (user : User)
    (service : Service) (context : Context) (allocation : Allocation)
    (component : Option ServiceComponent) (labels : LabelSet) :
    (usage.recordUsage x user service context allocation component labels).1 =
      { usage with
        CalculatedLabels :=
          usage.CalculatedLabels.set (createServiceUsageKey x service context allocation component)
            (((usage.CalculatedLabels.get
              (createServiceUsageKey x service context allocation component)).getD
                ⟨none⟩).addLabels labels)
        ComponentProcessingOrder :=
          if createServiceUsageKey x service context allocation component ∈
              usage.ComponentProcessingOrder then usage.ComponentProcessingOrder
          else usage.ComponentProcessingOrder ++
            [createServiceUsageKey x service context allocation component] } := by
  unfold ServiceUsageState.recordUsage
  simp only
  split <;> simp [*]

theorem recordUsage_snd (x : Externals) (usage : ServiceUsageState) (user : User)
    (service : Service) (context : Context) (allocation : Allocation)
    (component : Option ServiceComponent) (labels : LabelSet) :
    (usage.recordUsage x user service context allocation component labels).2 =
      createServiceUsageKey x service context allocation component := by
  unfold ServiceUsageState.recordUsage
  simp only
  split <;> rfl

theorem SortStable.trans {u1 u2 u3 : ServiceUsageState} (h12 : SortStable u1 u2)
    (h23 : SortStable u2 u3) : SortStable u1 u3 := by
  intro s svc comps hget hs
  obtain ⟨svc2, hget2, hs2⟩ := h12 s svc comps hget hs
  exact h23 s svc2 comps hget2 hs2

theorem storeResolvedName_services (x : Externals) (policy : Policy) (service : Service)
    (user : User) (contextLabels labels : LabelSet) :
    (policy.storeResolvedName x service user contextLabels labels).Services =
      policy.Services := by
  unfold Policy.storeResolvedName
  split <;> rfl

/-- Writing the resolved name of an allocation into the policy keeps the invariant and the
sorted lists. -/
theorem StateInv.storeResolvedName {x : Externals} {usage : ServiceUsageState}
    (h : StateInv x usage) (service : Service) (user : User)
    (contextLabels labels : LabelSet) :
    StateInv x { usage with
        Policy := usage.Policy.storeResolvedName x service user contextLabels labels } ∧
      SortStable usage { usage with
        Policy := usage.Policy.storeResolvedName x service user contextLabels labels } := by
  refine ⟨⟨h.nodup, ?_, h.edges, ?_⟩, ?_⟩
  · intro s svc hget
    simp only [storeResolvedName_services] at hget
    exact h.named s svc hget
  · intro s svc c a hget hmem
    simp only [storeResolvedName_services] at hget
    exact h.roots s svc c a hget hmem
  · intro s svc comps hget hs
    exact ⟨svc, by simp only [storeResolvedName_services]; exact hget, hs⟩

theorem resolveDependencies_append (x : Externals) (fuel : Nat) (users : GlobalUsers)
    (serviceName : String) (pre rest : List Dependency) (usage u1 : ServiceUsageState)
    (h : resolveDependencies x fuel users serviceName pre usage = .returned (u1, none)) :
    resolveDependencies x fuel users serviceName (pre ++ rest) usage =
      resolveDependencies x fuel users serviceName rest u1 := by
  induction pre generalizing usage with
  | nil =>
    simp only [resolveDependencies] at h
    cases h
    rfl
  | cons d tl ih =>
    simp only [List.cons_append, resolveDependencies] at h ⊢
    split at h
    · cases h
    · rename_i u hd
      exact ih u h
    · cases h
    · cases h

theorem resolveServices_append (x : Externals) (fuel : Nat) (users : GlobalUsers)
    (pre rest : List (String × List Dependency)) (usage u0 : ServiceUsageState)
    (h : resolveServices x fuel users pre usage = .returned (u0, none)) :
    resolveServices x fuel users (pre ++ rest) usage = resolveServices x fuel users rest u0 := by
  induction pre generalizing usage with
  | nil =>
    simp only [resolveServices] at h
    cases h
    rfl
  | cons kv tl ih =>
    obtain ⟨serviceName, dependencies⟩ := kv
    simp only [List.cons_append, resolveServices] at h ⊢
    split at h
    · cases h
    · rename_i u hd
      exact ih u h
    · cases h
    · cases h

section PassClaims

/-- C15, counterexample: `alice` needs a service `X` that is not in the policy and the service
`S`. `ResolveUsage` returns the error of the first dependency and the dependency on `S` is
not resolved: the processing order is empty. Alone, the dependency on `S` is resolved. -/
theorem ResolveUsage_aborts_on_missing_service :
    orderAndError ((initialState policyST dependenciesXS).ResolveUsage exampleExternals 3
        exampleUsers) = some ([], some "Service X not found") ∧
      orderAndError ((initialState policyST (GoMap.single "S" [aliceNeeds])).ResolveUsage
        exampleExternals 3 exampleUsers) = some (["S#any#a#c", "S#any#a##root"], none) := by
  decide

/-- C15, amended: when the dependencies before a dependency `d`, in the order in which the
dependency map is visited, are resolved without error and `resolveWithLabels` returns an
error for `d`, `ResolveUsage` returns that error with the state that the failing call left,
whatever dependencies follow `d`: they are not resolved. -/
theorem ResolveUsage_stops_at_first_error (x : Externals) (fuel : Nat) (users : GlobalUsers)
    (usage : ServiceUsageState) (pre rest : List (String × List Dependency))
    (serviceName : String) (dpre drest : List Dependency) (d : Dependency)
    (u0 u1 u2 : ServiceUsageState) (err : String)
    (hentries : usage.Dependencies.entries =
      pre ++ (serviceName, dpre ++ d :: drest) :: rest)
    (hpre : resolveServices x fuel users pre usage = .returned (u0, none))
    (hdpre : resolveDependencies x fuel users serviceName dpre u0 = .returned (u1, none))
    (hd : u1.resolveWithLabels x fuel ((users.Users.get d.UserId).getD ⟨"", "", none⟩)
      serviceName (initialLabels x ((users.Users.get d.UserId).getD ⟨"", "", none⟩) d) =
        .returned (u2, some err)) :
    usage.ResolveUsage x fuel users = .returned (u2, some err) := by
  unfold ServiceUsageState.ResolveUsage
  rw [hentries, resolveServices_append x fuel users pre _ usage u0 hpre]
  simp only [resolveServices]
  rw [resolveDependencies_append x fuel users serviceName dpre _ u0 u1 hdpre]
  simp only [resolveDependencies, hd]

/-- Witness for C15 as amended: the dependency on the missing service `X` comes first and the
dependency on `S` follows it. -/
theorem ResolveUsage_stops_at_first_error_witness :
    (initialState policyST dependenciesXS).ResolveUsage exampleExternals 3 exampleUsers =
      .returned (initialState policyST dependenciesXS, some "Service X not found") :=
  ResolveUsage_stops_at_first_error exampleExternals 3 exampleUsers
    (initialState policyST dependenciesXS) [] [("S", [aliceNeeds])] "X" [] [] aliceNeeds
    (initialState policyST dependenciesXS) (initialState policyST dependenciesXS)
    (initialState policyST dependenciesXS) "Service X not found" rfl rfl rfl rfl

/-- C19: when the dependencies before a dependency `d`, in the order in which the dependency
map is visited, are resolved without error, `ResolveUsage` resolves `d` by the call of
`resolveWithLabels` for the user of `d` with the label set `initialLabels`, and goes on from
the result of that call. A key is in this label set exactly when it is a key of the
dependency or of the label set of the user; it reads the value of the dependency when the
dependency has the key and the value of the user otherwise; and every label of the user is a
key of it. The label set of the user is what `getLabelSet` returns: the labels of the user
overlaid with the labels of the secrets of the user. -/
theorem ResolveUsage_starts_from_overlay (x : Externals) (fuel : Nat) (users : GlobalUsers)
    (usage : ServiceUsageState) (pre rest : List (String × List Dependency))
    (serviceName : String) (dpre drest : List Dependency) (d : Dependency)
    (u0 u1 : ServiceUsageState)
    (hentries : usage.Dependencies.entries =
      pre ++ (serviceName, dpre ++ d :: drest) :: rest)
    (hpre : resolveServices x fuel users pre usage = .returned (u0, none))
    (hdpre : resolveDependencies x fuel users serviceName dpre u0 = .returned (u1, none))
    (k : String) :
    usage.ResolveUsage x fuel users =
        (u1.resolveWithLabels x fuel ((users.Users.get d.UserId).getD ⟨"", "", none⟩)
          serviceName
          (initialLabels x ((users.Users.get d.UserId).getD ⟨"", "", none⟩) d)).thenResolve
          (fun u2 => resolveServices x fuel users ((serviceName, drest) :: rest) u2) ∧
      GoMap.getOf (initialLabels x ((users.Users.get d.UserId).getD ⟨"", "", none⟩) d).Labels k =
        (GoMap.getOf d.Labels k).or
          (GoMap.getOf (((users.Users.get d.UserId).getD ⟨"", "", none⟩).getLabelSet
            x.LoadUserSecretsByIDFromDir x.secretsDir).Labels k) ∧
      ((GoMap.getOf (initialLabels x ((users.Users.get d.UserId).getD ⟨"", "", none⟩)
          d).Labels k).isSome = true ↔
        (GoMap.getOf d.Labels k).isSome = true ∨
          (GoMap.getOf (((users.Users.get d.UserId).getD ⟨"", "", none⟩).getLabelSet
            x.LoadUserSecretsByIDFromDir x.secretsDir).Labels k).isSome = true) ∧
      GoMap.getOf (((users.Users.get d.UserId).getD ⟨"", "", none⟩).getLabelSet
          x.LoadUserSecretsByIDFromDir x.secretsDir).Labels k =
        (GoMap.getOf (x.LoadUserSecretsByIDFromDir x.secretsDir
          ((users.Users.get d.UserId).getD ⟨"", "", none⟩).ID).Labels k).or
          (GoMap.getOf ((users.Users.get d.UserId).getD ⟨"", "", none⟩).Labels k) ∧
      ((GoMap.getOf ((users.Users.get d.UserId).getD ⟨"", "", none⟩).Labels k).isSome = true →
        (GoMap.getOf (initialLabels x ((users.Users.get d.UserId).getD ⟨"", "", none⟩)
          d).Labels k).isSome = true) := by
  refine ⟨?_, initialLabels_get x _ d k⟩
  unfold ServiceUsageState.ResolveUsage
  rw [hentries, resolveServices_append x fuel users pre _ usage u0 hpre]
  simp only [resolveServices]
  rw [resolveDependencies_append x fuel users serviceName dpre _ u0 u1 hdpre]
  simp only [resolveDependencies]
  cases u1.resolveWithLabels x fuel ((users.Users.get d.UserId).getD ⟨"", "", none⟩)
      serviceName (initialLabels x ((users.Users.get d.UserId).getD ⟨"", "", none⟩) d) with
  | returned v =>
    obtain ⟨u2, e⟩ := v
    cases e <;> simp only [Outcome.thenResolve, resolveServices]
  | fatal m => rfl
  | outOfFuel => rfl

/-- Witness for C19: `alice` has the label `env: prod` and her dependency on `S` sets
`env: dev`; the dependency is resolved with `env: dev`. -/
theorem ResolveUsage_starts_from_overlay_witness :
    (initialState policyST (GoMap.single "S" [aliceNeedsDev])).ResolveUsage exampleExternals 3
        exampleUsers =
      ((initialState policyST (GoMap.single "S" [aliceNeedsDev])).resolveWithLabels
        exampleExternals 3 alice "S"
        (initialLabels exampleExternals alice aliceNeedsDev)).thenResolve
        (fun u2 => resolveServices exampleExternals 3 exampleUsers [("S", [])] u2) ∧
      GoMap.getOf alice.Labels "env" = some "prod" ∧
      GoMap.getOf aliceNeedsDev.Labels "env" = some "dev" ∧
      GoMap.getOf (initialLabels exampleExternals alice aliceNeedsDev).Labels "env" =
        some "dev" :=
  have h := ResolveUsage_starts_from_overlay exampleExternals 3 exampleUsers
    (initialState policyST (GoMap.single "S" [aliceNeedsDev])) [] [] "S" [] [] aliceNeedsDev
    (initialState policyST (GoMap.single "S" [aliceNeedsDev]))
    (initialState policyST (GoMap.single "S" [aliceNeedsDev])) rfl rfl rfl "env"
  ⟨h.1, rfl, rfl, h.2.1⟩

end PassClaims

/-! ## Component keys precede the key of their service -/

section EdgeClaims

end EdgeClaims

/-! ## Components are recorded before their service -/

section RecordingClaims

end RecordingClaims

/-! ## Services that refer to each other -/

theorem cycleSorted_diverges (n : Nat) :
    cycleSorted.resolveWithLabels exampleExternals n alice "A" aliceLabels = .outOfFuel ∧
      cycleSorted.resolveWithLabels exampleExternals n alice "B" aliceLabels = .outOfFuel := by
  induction n with
  | zero => exact ⟨rfl, rfl⟩
  | succ n ih =>
    have hA : cycleSorted.resolveWithLabels exampleExternals (n + 1) alice "A" aliceLabels =
        resolveStep exampleExternals
          (fun _ _ _ _ => cycleSorted.resolveWithLabels exampleExternals n alice "B" aliceLabels)
          cycleSorted alice "A" aliceLabels := rfl
    have hB : cycleSorted.resolveWithLabels exampleExternals (n + 1) alice "B" aliceLabels =
        resolveStep exampleExternals
          (fun _ _ _ _ => cycleSorted.resolveWithLabels exampleExternals n alice "A" aliceLabels)
          cycleSorted alice "B" aliceLabels := rfl
    constructor
    · rw [hA, ih.2]; rfl
    · rw [hB, ih.1]; rfl

theorem cycleHalfSorted_diverges (n : Nat) :
    cycleHalfSorted.resolveWithLabels exampleExternals n alice "B" aliceLabels = .outOfFuel := by
  cases n with
  | zero => rfl
  | succ n =>
    have hB : cycleHalfSorted.resolveWithLabels exampleExternals (n + 1) alice "B" aliceLabels =
        resolveStep exampleExternals
          (fun _ _ _ _ => cycleSorted.resolveWithLabels exampleExternals n alice "A" aliceLabels)
          cycleHalfSorted alice "B" aliceLabels := rfl
    rw [hB, (cycleSorted_diverges n).1]
    rfl

section CycleClaims

/-- C16, the code at the failing input: in the policy in which service `A` has a component
that refers to service `B` and `B` has one that refers back to `A`, with contexts and
allocations that match, resolving a claim on `A` does not return, whatever the depth of
recursion that is allowed: `resolveWithLabels` keeps no path and so finds no cycle. -/
theorem resolveWithLabels_cycle_diverges (fuel : Nat) :
    (initialState policyCycle GoMap.empty).resolveWithLabels exampleExternals fuel alice "A"
      aliceLabels = .outOfFuel := by
  cases fuel with
  | zero => rfl
  | succ n =>
    have hA : (initialState policyCycle GoMap.empty).resolveWithLabels exampleExternals (n + 1)
        alice "A" aliceLabels =
        resolveStep exampleExternals
          (fun _ _ _ _ =>
            cycleHalfSorted.resolveWithLabels exampleExternals n alice "B" aliceLabels)
          (initialState policyCycle GoMap.empty) alice "A" aliceLabels := rfl
    rw [hA, cycleHalfSorted_diverges n]
    rfl

end CycleClaims

/-! ## Lemmas on maps held by reference -/

theorem modifyAt_length_append {α : Type} (f : α → α) (l : List α) (m : α) :
    modifyAt f l.length (l ++ [m]) = l ++ [f m] := by
  induction l with
  | nil => rfl
  | cons hd tl ih => simp [modifyAt, ih]

theorem foldl_assign_last (entries : List (String × String)) (l : List (GoMap String))
    (m : GoMap String) :
    entries.foldl (fun h kv => h.assign l.length kv.1 kv.2) (⟨l ++ [m]⟩ : LabelHeap) =
      ⟨l ++ [entries.foldl (fun r kv => r.set kv.1 kv.2) m]⟩ := by
  induction entries generalizing m with
  | nil => rfl
  | cons kv rest ih =>
    simp only [List.foldl_cons, LabelHeap.assign, modifyAt_length_append]
    exact ih _

theorem foldl_remove_last (entries : List (String × String)) (l : List (GoMap String))
    (m : GoMap String) :
    entries.foldl (fun h kv => h.remove l.length kv.1) (⟨l ++ [m]⟩ : LabelHeap) =
      ⟨l ++ [entries.foldl (fun r kv => r.delete kv.1) m]⟩ := by
  induction entries generalizing m with
  | nil => rfl
  | cons kv rest ih =>
    simp only [List.foldl_cons, LabelHeap.remove, modifyAt_length_append]
    exact ih _

theorem LabelHeap.read_append (l : List (GoMap String)) (m : GoMap String) (ref : Option Nat)
    (href : LabelHeap.Holds ⟨l⟩ ref) : LabelHeap.read ⟨l ++ [m]⟩ ref = LabelHeap.read ⟨l⟩ ref := by
  cases ref with
  | none => rfl
  | some a =>
    have ha : a < l.length := href a rfl
    simp only [LabelHeap.read]
    exact List.getElem?_append_left ha

theorem LabelSetRef.applyTransform_eq (h : LabelHeap) (src : LabelSetRef)
    (ops : Option (GoMap Nat)) (hsrc : h.Holds src.Labels)
    (hset : h.Holds (opsRef ops "set")) (hremove : h.Holds (opsRef ops "remove")) :
    src.applyTransform h ops =
      (⟨h.maps ++ [(GoMap.rangeOf (h.read (opsRef ops "remove"))).foldl
        (fun r kv => r.delete kv.1)
        ((GoMap.rangeOf (h.read (opsRef ops "set"))).foldl (fun r kv => r.set kv.1 kv.2)
          ((GoMap.rangeOf (h.read src.Labels)).foldl (fun r kv => r.set kv.1 kv.2)
            GoMap.empty))]⟩, ⟨some h.maps.length⟩) := by
  obtain ⟨l⟩ := h
  cases ops with
  | none =>
    simp only [LabelSetRef.applyTransform, LabelHeap.make, opsRef]
    rw [LabelHeap.read_append l _ _ hsrc, foldl_assign_last]
    rfl
  | some ops =>
    have hset' : LabelHeap.Holds ⟨l⟩ (ops.get "set") := hset
    have hremove' : LabelHeap.Holds ⟨l⟩ (ops.get "remove") := hremove
    simp only [LabelSetRef.applyTransform, LabelHeap.make, opsRef]
    rw [LabelHeap.read_append l _ _ hsrc, foldl_assign_last,
      LabelHeap.read_append l _ _ hset', foldl_assign_last,
      LabelHeap.read_append l _ _ hremove', foldl_remove_last]

theorem LabelSetRef.addLabels_eq (h : LabelHeap) (src ops : LabelSetRef)
    (hsrc : h.Holds src.Labels) (hops : h.Holds ops.Labels) :
    src.addLabels h ops =
      (⟨h.maps ++ [(GoMap.rangeOf (h.read ops.Labels)).foldl (fun r kv => r.set kv.1 kv.2)
          ((GoMap.rangeOf (h.read src.Labels)).foldl (fun r kv => r.set kv.1 kv.2)
            GoMap.empty)]⟩, ⟨some h.maps.length⟩) := by
  obtain ⟨l⟩ := h
  simp only [LabelSetRef.addLabels, LabelHeap.make]
  rw [LabelHeap.read_append l _ _ hsrc, foldl_assign_last,
    LabelHeap.read_append l _ _ hops, foldl_assign_last]

section FrameClaims

/-- C22: `applyTransform` and `addLabels` write to no map that existed before the call. The
maps after the call are the maps from before followed by one new map, to which the result
refers; so every reference that named a map before, such as the labels of the receiver and
the maps of the argument, names the same entries afterwards, and the reference of the result
named no map before. The new map holds the labels that the functions on values compute. -/
theorem label_operations_write_only_result (h : LabelHeap) (src arg : LabelSetRef)
    (ops : Option (GoMap Nat)) (hsrc : h.Holds src.Labels) (harg : h.Holds arg.Labels)
    (hset : h.Holds (opsRef ops "set")) (hremove : h.Holds (opsRef ops "remove")) :
    (∃ m, src.applyTransform h ops = (⟨h.maps ++ [m]⟩, ⟨some h.maps.length⟩) ∧
        ∀ k, m.get k =
          if (GoMap.getOf (h.read (opsRef ops "remove")) k).isSome then none
          else (GoMap.getOf (h.read (opsRef ops "set")) k).or
            (GoMap.getOf (h.read src.Labels) k)) ∧
      (∃ m, src.addLabels h arg = (⟨h.maps ++ [m]⟩, ⟨some h.maps.length⟩) ∧
        some m = (LabelSet.addLabels ⟨h.read src.Labels⟩ ⟨h.read arg.Labels⟩).Labels) ∧
      (∀ ref, h.Holds ref →
        (src.applyTransform h ops).1.read ref = h.read ref ∧
          (src.addLabels h arg).1.read ref = h.read ref) ∧
      h.read (some h.maps.length) = none := by
  refine ⟨⟨_, LabelSetRef.applyTransform_eq h src ops hsrc hset hremove, ?_⟩,
    ⟨_, LabelSetRef.addLabels_eq h src arg hsrc harg, rfl⟩, ?_, ?_⟩
  · intro k
    rw [GoMap.get_foldl_delete, GoMap.get_foldl_set _ (GoMap.nodup_rangeOf _),
      GoMap.lookupEntries_rangeOf, get_copy]
    by_cases hk : k ∈ (GoMap.rangeOf (h.read (opsRef ops "remove"))).map Prod.fst
    · have hk' := (GoMap.mem_keys_rangeOf _ k).1 hk
      simp [hk, hk']
    · have hk' : ¬ (GoMap.getOf (h.read (opsRef ops "remove")) k).isSome = true :=
        fun e => hk ((GoMap.mem_keys_rangeOf _ k).2 e)
      simp [hk, hk']
  · intro ref href
    rw [LabelSetRef.applyTransform_eq h src ops hsrc hset hremove,
      LabelSetRef.addLabels_eq h src arg hsrc harg]
    exact ⟨LabelHeap.read_append h.maps _ ref href, LabelHeap.read_append h.maps _ ref href⟩
  · simp [LabelHeap.read]

/-- Witness for C22: the receiver refers to the map `env: prod`, the argument and the
operation `set` to the map `env: dev`; after both calls the map of the receiver is read as
before. -/
theorem label_operations_write_only_result_witness :
    (LabelSetRef.applyTransform exampleHeap ⟨some 0⟩ (some (GoMap.single "set" 1))).1.read
        (some 0) = exampleHeap.read (some 0) ∧
      (LabelSetRef.addLabels exampleHeap ⟨some 0⟩ ⟨some 1⟩).1.read (some 0) =
        exampleHeap.read (some 0) :=
  (label_operations_write_only_result exampleHeap ⟨some 0⟩ ⟨some 1⟩
    (some (GoMap.single "set" 1))
    (by intro a ha; cases ha; decide) (by intro a ha; cases ha; decide)
    (by intro a ha; cases ha; decide) (by intro a ha; cases ha)).2.2.1 (some 0)
    (by intro a ha; cases ha; decide)

end FrameClaims

/-! ## The topological sort of the components of a service -/

theorem get_componentsFold (l : List ServiceComponent) (m : GoMap ServiceComponent)
    (n : String) (v : ServiceComponent)
    (h : (l.foldl (fun m c => m.set c.Name c) m).get n = some v) :
    (v ∈ l ∧ v.Name = n) ∨ m.get n = some v := by
  induction l generalizing m with
  | nil => exact Or.inr h
  | cons hd tl ih =>
    rcases ih _ h with h1 | h1
    · exact Or.inl ⟨List.mem_cons_of_mem _ h1.1, h1.2⟩
    · rw [GoMap.get_set] at h1
      split at h1
      · rename_i hn
        cases h1
        exact Or.inl ⟨List.mem_cons_self _ _, hn.symm⟩
      · exact Or.inr h1

theorem isSome_componentsFold (l : List ServiceComponent) (m : GoMap ServiceComponent)
    (n : String) (h : n ∈ l.map (·.Name) ∨ (m.get n).isSome = true) :
    ((l.foldl (fun m c => m.set c.Name c) m).get n).isSome = true := by
  induction l generalizing m with
  | nil =>
    rcases h with h | h
    · simp at h
    · exact h
  | cons hd tl ih =>
    apply ih
    rcases h with h | h
    · rcases List.mem_cons.1 h with h | h
      · right
        rw [GoMap.get_set, if_pos h]
        rfl
      · exact Or.inl h
    · right
      rw [GoMap.get_set]
      split
      · rfl
      · exact h

theorem getComponentsMap_some (service : Service) (n : String) (v : ServiceComponent)
    (h : service.getComponentsMap.get n = some v) : v ∈ service.Components ∧ v.Name = n := by
  rcases get_componentsFold _ _ n v h with h1 | h1
  · exact h1
  · cases h1

theorem getComponentsMap_of_mem (service : Service) (n : String)
    (h : n ∈ service.Components.map (·.Name)) :
    ∃ v, service.getComponentsMap.get n = some v ∧ v ∈ service.Components ∧ v.Name = n := by
  have hs := isSome_componentsFold service.Components GoMap.empty n (Or.inl h)
  cases hv : service.getComponentsMap.get n with
  | none =>
    unfold Service.getComponentsMap at hv
    rw [hv] at hs
    cases hs
  | some v => exact ⟨v, rfl, getComponentsMap_some service n v hv⟩

theorem uncolored_le (service : Service) (st st' : DfsState)
    (hmono : ∀ n, st.colors.get n ≠ none → st'.colors.get n ≠ none) :
    uncolored service st' ≤ uncolored service st := by
  apply List.Sublist.length_le
  apply List.monotone_filter_right
  intro c hc
  cases h : st.colors.get c.Name with
  | none => rfl
  | some v =>
    have := hmono c.Name (by rw [h]; simp)
    cases h' : st'.colors.get c.Name with
    | none => exact absurd h' this
    | some v' => rw [h'] at hc; cases hc

theorem uncolored_lt (service : Service) (st st' : DfsState) (u : ServiceComponent)
    (hu : u ∈ service.Components) (hnone : st.colors.get u.Name = none)
    (hsome : st'.colors.get u.Name ≠ none)
    (hmono : ∀ n, st.colors.get n ≠ none → st'.colors.get n ≠ none) :
    uncolored service st' < uncolored service st := by
  have hsub : List.Sublist
      (service.Components.filter (fun c => (st'.colors.get c.Name).isNone))
      (service.Components.filter (fun c => (st.colors.get c.Name).isNone)) := by
    apply List.monotone_filter_right
    intro c hc
    cases h : st.colors.get c.Name with
    | none => rfl
    | some v =>
      have := hmono c.Name (by rw [h]; simp)
      cases h' : st'.colors.get c.Name with
      | none => exact absurd h' this
      | some v' => rw [h'] at hc; cases hc
  rcases Nat.lt_or_ge (uncolored service st') (uncolored service st) with hlt | hge
  · exact hlt
  · exfalso
    have heq := hsub.eq_of_length_le hge
    have hmem : u ∈ service.Components.filter (fun c => (st.colors.get c.Name).isNone) := by
      rw [List.mem_filter, hnone]
      exact ⟨hu, rfl⟩
    rw [← heq, List.mem_filter] at hmem
    cases h' : st'.colors.get u.Name with
    | none => exact hsome h'
    | some v =>
      have := hmem.2
      rw [h'] at this
      cases this

theorem DfsPost.black_of_black {service : Service} {st st' : DfsState}
    (h : DfsPost service st st') (hinv : DfsInv service st) (n : String)
    (hn : st.colors.get n = some 2) : st'.colors.get n = some 2 := by
  rw [h.inv.black]
  have := (hinv.black n).1 hn
  obtain ⟨t, ht⟩ := h.grows
  rw [← ht, List.map_append]
  exact List.mem_append_left _ this

theorem DfsPost.same {service : Service} {st : DfsState} (hinv : DfsInv service st) :
    DfsPost service st st :=
  ⟨hinv, fun _ => Iff.rfl, List.prefix_refl _, fun _ h => h⟩

theorem DfsPost.compose {service : Service} {st st1 st2 : DfsState}
    (h1 : DfsPost service st st1) (h2 : DfsPost service st1 st2) : DfsPost service st st2 :=
  ⟨h2.inv, fun n => (h2.gray n).trans (h1.gray n), h1.grows.trans h2.grows,
    fun n hn => h2.mono n (h1.mono n hn)⟩

theorem dfsDependencies_spec (service : Service) (hdeps : service.DependenciesExist)
    (visit : ServiceComponent → DfsState → Outcome (DfsState × Bool)) (fuel : Nat)
    (hvisit : VisitSpec service visit fuel) (u : ServiceComponent)
    (hu : u ∈ service.Components) (ds : List String) (hds : ∀ d ∈ ds, d ∈ u.Dependencies)
    (st : DfsState) (hinv : DfsInv service st) (hgray : st.colors.get u.Name = some 1)
    (hpath : ∀ g, st.colors.get g = some 1 →
      Relation.ReflTransGen service.DependsOn g u.Name)
    (hfuel : uncolored service st < fuel) :
    ∃ st' b, dfsDependencies visit service ds st = .returned (st', b) ∧
      (b = true → service.HasCycle) ∧
      (b = false → DfsPost service st st' ∧ ∀ d ∈ ds, st'.colors.get d = some 2) := by
  induction ds generalizing st with
  | nil =>
    exact ⟨st, false, rfl, (fun h => by cases h), fun _ => ⟨DfsPost.same hinv, fun d hd => by
      cases hd⟩⟩
  | cons d tl ih =>
    have hd : d ∈ u.Dependencies := hds d (List.mem_cons_self _ _)
    have htl : ∀ d' ∈ tl, d' ∈ u.Dependencies := fun d' h => hds d' (List.mem_cons_of_mem _ h)
    obtain ⟨v, hget, hvmem, hvname⟩ := getComponentsMap_of_mem service d (hdeps u hu d hd)
    have hedge : service.DependsOn u.Name v.Name := ⟨u, hu, rfl, by rw [hvname]; exact hd⟩
    simp only [dfsDependencies, hget]
    cases hcol : st.colors.get v.Name with
    | none =>
      obtain ⟨st1, b1, hret, hcyc, hpost⟩ := hvisit v st hinv hvmem hcol
        (fun g hg => (hpath g hg).tail hedge) hfuel
      simp only [hret]
      cases b1 with
      | true => exact ⟨st1, true, rfl, hcyc, fun h => by cases h⟩
      | false =>
        obtain ⟨hp1, hblack⟩ := hpost rfl
        obtain ⟨st2, b2, hret2, hcyc2, hpost2⟩ := ih htl st1 hp1.inv
          ((hp1.gray u.Name).2 hgray) (fun g hg => hpath g ((hp1.gray g).1 hg))
          (lt_of_le_of_lt (uncolored_le service st st1 hp1.mono) hfuel)
        refine ⟨st2, b2, hret2, hcyc2, fun hb => ?_⟩
        obtain ⟨hp2, hblack2⟩ := hpost2 hb
        refine ⟨hp1.compose hp2, fun d' hd' => ?_⟩
        rcases List.mem_cons.1 hd' with rfl | hd'
        · rw [← hvname]
          exact hp2.black_of_black hp1.inv _ hblack
        · exact hblack2 d' hd'
    | some vColor =>
      simp only
      by_cases hone : vColor = 1
      · rw [if_pos hone]
        subst hone
        exact ⟨st, true, rfl, fun _ => ⟨v.Name, Relation.TransGen.tail' (hpath v.Name hcol)
          hedge⟩, fun h => by cases h⟩
      · rw [if_neg hone]
        have htwo : st.colors.get v.Name = some 2 := by
          rcases hinv.range v.Name vColor hcol with h | h
          · exact absurd h hone
          · rw [hcol, h]
        obtain ⟨st2, b2, hret2, hcyc2, hpost2⟩ := ih htl st hinv hgray hpath hfuel
        refine ⟨st2, b2, hret2, hcyc2, fun hb => ?_⟩
        obtain ⟨hp2, hblack2⟩ := hpost2 hb
        refine ⟨hp2, fun d' hd' => ?_⟩
        rcases List.mem_cons.1 hd' with rfl | hd'
        · rw [← hvname]
          exact hp2.black_of_black hinv _ htwo
        · exact hblack2 d' hd'

/-- Colouring a component without colour 1 keeps the invariant. -/
theorem DfsInv.enter {service : Service} {st : DfsState} (hinv : DfsInv service st)
    (n : String) (hnone : st.colors.get n = none) :
    DfsInv service { st with colors := st.colors.set n 1 } := by
  refine ⟨hinv.sub, hinv.nodup, fun m => ?_, fun m v hv => ?_, hinv.sorted⟩
  · simp only [GoMap.get_set]
    split
    · rename_i hm
      constructor
      · intro h
        cases h
      · intro h
        rw [hm, ← hinv.black, hnone] at h
        cases h
    · exact hinv.black m
  · simp only [GoMap.get_set] at hv
    split at hv
    · cases hv
      exact Or.inl rfl
    · exact hinv.range m v hv

/-- Appending a component coloured 1 whose dependencies are coloured 2, and colouring it 2,
keeps the invariant. -/
theorem DfsInv.leave {service : Service} {st : DfsState} (hinv : DfsInv service st)
    (u : ServiceComponent) (hu : u ∈ service.Components)
    (hgray : st.colors.get u.Name = some 1)
    (hblack : ∀ d ∈ u.Dependencies, st.colors.get d = some 2) :
    DfsInv service
      { colors := st.colors.set u.Name 2, componentsOrdered := st.componentsOrdered ++ [u] } := by
  have hnot : u.Name ∉ st.componentsOrdered.map (·.Name) := by
    intro h
    rw [← hinv.black, hgray] at h
    cases h
  refine ⟨?_, ?_, fun m => ?_, fun m v hv => ?_, ?_⟩
  · intro c hc
    rcases List.mem_append.1 hc with h | h
    · exact hinv.sub c h
    · rw [List.mem_singleton.1 h]
      exact hu
  · simp only [List.map_append, List.map_cons, List.map_nil]
    exact List.Nodup.append hinv.nodup (List.nodup_singleton _) (by simpa using hnot)
  · simp only [GoMap.get_set, List.map_append, List.map_cons, List.map_nil, List.mem_append,
      List.mem_singleton]
    split
    · rename_i hm
      simp [hm]
    · rename_i hm
      rw [hinv.black]
      simp [hm]
  · simp only [GoMap.get_set] at hv
    split at hv
    · cases hv
      exact Or.inr rfl
    · exact hinv.range m v hv
  · intro l1 c l2 hsplit d hd
    rcases List.eq_nil_or_concat l2 with rfl | ⟨l2', x, rfl⟩
    · have h1 : st.componentsOrdered ++ [u] = l1 ++ [c] := hsplit
      obtain ⟨h2, h3⟩ := List.append_inj' h1 rfl
      cases h3
      rw [← h2, ← hinv.black]
      exact hblack d hd
    · have h0 : st.componentsOrdered ++ [u] = l1 ++ c :: l2'.concat x := hsplit
      have h1 : st.componentsOrdered ++ [u] = (l1 ++ c :: l2') ++ [x] := by
        rw [h0, List.concat_eq_append, List.append_assoc, List.cons_append]
      obtain ⟨h2, _⟩ := List.append_inj' h1 rfl
      exact hinv.sorted l1 c l2' h2 d hd

theorem dfsComponentSort_spec (service : Service) (hdeps : service.DependenciesExist)
    (fuel : Nat) : VisitSpec service (Service.dfsComponentSort fuel service) fuel := by
  induction fuel with
  | zero =>
    intro u st _ _ _ _ hfuel
    cases hfuel
  | succ n ih =>
    intro u st hinv hu hnone hpath hfuel
    have hinv0 := hinv.enter u.Name hnone
    have hmono0 : ∀ m, st.colors.get m ≠ none → (st.colors.set u.Name 1).get m ≠ none := by
      intro m hm
      rw [GoMap.get_set]
      split
      · simp
      · exact hm
    have hgray0 : (st.colors.set u.Name 1).get u.Name = some 1 := GoMap.get_set_self _ _ _
    have hlt : uncolored service { st with colors := st.colors.set u.Name 1 } < n := by
      have := uncolored_lt service st { st with colors := st.colors.set u.Name 1 } u hu hnone
        (by rw [hgray0]; simp) hmono0
      omega
    have hpath0 : ∀ g, (st.colors.set u.Name 1).get g = some 1 →
        Relation.ReflTransGen service.DependsOn g u.Name := by
      intro g hg
      rw [GoMap.get_set] at hg
      split at hg
      · rename_i hgu
        rw [hgu]
      · exact hpath g hg
    obtain ⟨st1, b, hret, hcyc, hpost⟩ := dfsDependencies_spec service hdeps
      (Service.dfsComponentSort n service) n ih u hu u.Dependencies (fun _ h => h)
      { st with colors := st.colors.set u.Name 1 } hinv0 hgray0 hpath0 hlt
    simp only [Service.dfsComponentSort, hret]
    cases b with
    | true => exact ⟨st1, true, rfl, hcyc, fun h => by cases h⟩
    | false =>
      obtain ⟨hp1, hblack⟩ := hpost rfl
      have hgray1 : st1.colors.get u.Name = some 1 := (hp1.gray u.Name).2 hgray0
      refine ⟨_, false, rfl, (fun h => by cases h), fun _ => ⟨⟨?_, ?_, ?_, ?_⟩, ?_⟩⟩
      · exact hp1.inv.leave u hu hgray1 hblack
      · intro m
        simp only [GoMap.get_set]
        split
        · rename_i hm
          rw [hm, hnone]
          simp
        · rename_i hm
          rw [hp1.gray m]
          simp only [GoMap.get_set, if_neg hm]
      · exact hp1.grows.trans (List.prefix_append _ _)
      · intro m hm
        simp only [GoMap.get_set]
        split
        · simp
        · exact hp1.mono m (hmono0 m hm)
      · exact GoMap.get_set_self _ _ _

theorem sortComponents_spec (service : Service) (hdeps : service.DependenciesExist)
    (fuel : Nat) (hfuel : service.Components.length < fuel) (cs : List ServiceComponent)
    (hcs : ∀ c ∈ cs, c ∈ service.Components) (st : DfsState) (hinv : DfsInv service st)
    (hgray : ∀ n, st.colors.get n ≠ some 1) :
    ∃ st' b, sortComponents fuel service cs st = .returned (st', b) ∧
      (b = true → service.HasCycle) ∧
      (b = false → DfsPost service st st' ∧ ∀ c ∈ cs, st'.colors.get c.Name = some 2) := by
  induction cs generalizing st with
  | nil =>
    exact ⟨st, false, rfl, (fun h => by cases h), fun _ => ⟨DfsPost.same hinv, fun c hc => by
      cases hc⟩⟩
  | cons c tl ih =>
    have hc : c ∈ service.Components := hcs c (List.mem_cons_self _ _)
    have htl : ∀ c' ∈ tl, c' ∈ service.Components := fun c' h =>
      hcs c' (List.mem_cons_of_mem _ h)
    simp only [sortComponents]
    cases hcol : st.colors.get c.Name with
    | none =>
      have hlt : uncolored service st < fuel :=
        lt_of_le_of_lt (List.length_filter_le _ _) hfuel
      obtain ⟨st1, b1, hret, hcyc, hpost⟩ := dfsComponentSort_spec service hdeps fuel c st hinv
        hc hcol (fun g hg => absurd hg (hgray g)) hlt
      simp only [hret]
      cases b1 with
      | true => exact ⟨st1, true, rfl, hcyc, fun h => by cases h⟩
      | false =>
        obtain ⟨hp1, hblack⟩ := hpost rfl
        obtain ⟨st2, b2, hret2, hcyc2, hpost2⟩ := ih htl st1 hp1.inv
          (fun n hn => hgray n ((hp1.gray n).1 hn))
        refine ⟨st2, b2, hret2, hcyc2, fun hb => ?_⟩
        obtain ⟨hp2, hblack2⟩ := hpost2 hb
        refine ⟨hp1.compose hp2, fun c' hc' => ?_⟩
        rcases List.mem_cons.1 hc' with rfl | hc'
        · exact hp2.black_of_black hp1.inv _ hblack
        · exact hblack2 c' hc'
    | some vColor =>
      simp only
      have htwo : st.colors.get c.Name = some 2 := by
        rcases hinv.range c.Name vColor hcol with h | h
        · rw [h] at hcol
          exact absurd hcol (hgray c.Name)
        · rw [hcol, h]
      obtain ⟨st2, b2, hret2, hcyc2, hpost2⟩ := ih htl st hinv hgray
      refine ⟨st2, b2, hret2, hcyc2, fun hb => ?_⟩
      obtain ⟨hp2, hblack2⟩ := hpost2 hb
      refine ⟨hp2, fun c' hc' => ?_⟩
      rcases List.mem_cons.1 hc' with rfl | hc'
      · exact hp2.black_of_black hinv _ htwo
      · exact hblack2 c' hc'

theorem DfsInv.atStart (service : Service) : DfsInv service ⟨GoMap.empty, []⟩ := by
  refine ⟨(fun c hc => by cases hc), List.nodup_nil, fun n => ?_,
    (fun n v hv => by cases hv), ?_⟩
  · simp [GoMap.get_empty]
  · intro l1 c l2 h
    cases l1 <;> cases h

/-- A search of all components that finds no cycle leaves every component in the list once. -/
theorem perm_of_all_black (service : Service)
    (hnames : (service.Components.map (·.Name)).Nodup) (st : DfsState)
    (hinv : DfsInv service st)
    (hblack : ∀ c ∈ service.Components, st.colors.get c.Name = some 2) :
    st.componentsOrdered.Perm service.Components := by
  refine (List.perm_ext_iff_of_nodup (List.Nodup.of_map _ hinv.nodup)
    (List.Nodup.of_map _ hnames)).2 (fun c => ⟨hinv.sub c, fun hc => ?_⟩)
  obtain ⟨c', hc', hname⟩ := List.mem_map.1 ((hinv.black c.Name).1 (hblack c hc))
  have : c' = c := List.inj_on_of_nodup_map hnames (hinv.sub c' hc') hc hname
  rw [← this]
  exact hc'

theorem not_hasCycle_of_rank (service : Service) (rank : String → Nat)
    (h : ∀ a b, service.DependsOn a b → rank b < rank a) : ¬ service.HasCycle := by
  rintro ⟨n, hn⟩
  have hlt : ∀ a b, Relation.TransGen service.DependsOn a b → rank b < rank a := by
    intro a b hab
    induction hab with
    | single hab => exact h _ _ hab
    | tail _ hbc ih => exact lt_trans (h _ _ hbc) ih
  exact lt_irrefl _ (hlt n n hn)

/-- A list of all components in which dependencies come first shows that there is no
cycle. -/
theorem not_hasCycle_of_sorted (service : Service) (comps : List ServiceComponent)
    (hperm : comps.Perm service.Components)
    (hnames : (service.Components.map (·.Name)).Nodup) (hsorted : DependenciesFirst comps) :
    ¬ service.HasCycle := by
  have hnodup : (comps.map (·.Name)).Nodup := (hperm.map _).nodup_iff.2 hnames
  apply not_hasCycle_of_rank service (fun n => (comps.map (·.Name)).indexOf n)
  rintro a b ⟨c, hc, rfl, hb⟩
  obtain ⟨l1, l2, hsplit⟩ := List.append_of_mem (hperm.mem_iff.2 hc)
  have hpre : Precedes (comps.map (·.Name)) b c.Name :=
    ⟨l1.map (·.Name), l2.map (·.Name), by rw [hsplit]; simp, hsorted l1 c l2 hsplit b hb⟩
  exact (hpre.indexOf_lt hnodup).2.2

/-- The sort of a service without a cached order: it returns; when it returns the error there
is a cycle; and when it returns no error, the returned list is cached, holds every component
once and has the dependencies first. -/
theorem getComponentsSortedTopologically_fresh (service : Service)
    (hnames : (service.Components.map (·.Name)).Nodup) (hdeps : service.DependenciesExist)
    (hfresh : service.componentsOrdered = []) :
    (∃ found, service.getComponentsSortedTopologically =
        .returned ({ service with componentsOrdered := found }, [],
          some ("Component cycle detected in service " ++ service.Name)) ∧
        service.HasCycle) ∨
      (∃ comps, service.getComponentsSortedTopologically =
        .returned ({ service with componentsOrdered := comps }, comps, none) ∧
        comps.Perm service.Components ∧ DependenciesFirst comps) := by
  obtain ⟨st, b, hret, hcyc, hpost⟩ := sortComponents_spec service hdeps
    (service.Components.length + 1) (Nat.lt_succ_self _) service.Components (fun _ h => h)
    ⟨GoMap.empty, []⟩ (DfsInv.atStart service) (fun n => by simp [GoMap.get_empty])
  unfold Service.getComponentsSortedTopologically
  rw [hfresh]
  simp only [List.isEmpty_nil, if_true, hret]
  cases b with
  | true => exact Or.inl ⟨st.componentsOrdered, rfl, hcyc rfl⟩
  | false =>
    obtain ⟨hp, hblack⟩ := hpost rfl
    exact Or.inr ⟨st.componentsOrdered, rfl,
      perm_of_all_black service hnames st hp.inv hblack, hp.inv.sorted⟩

/-- In a service without a cached order whose components have distinct names and whose
dependencies exist, a cycle among the components is reported: the first call returns the
error and no list. -/
theorem getComponentsSortedTopologically_of_cycle (service : Service)
    (hnames : (service.Components.map (·.Name)).Nodup) (hdeps : service.DependenciesExist)
    (hfresh : service.componentsOrdered = []) (hcycle : service.HasCycle) :
    ∃ found, service.getComponentsSortedTopologically =
      .returned ({ service with componentsOrdered := found }, [],
        some ("Component cycle detected in service " ++ service.Name)) := by
  rcases getComponentsSortedTopologically_fresh service hnames hdeps hfresh with
    ⟨found, h, _⟩ | ⟨comps, _, hperm, hsorted⟩
  · exact ⟨found, h⟩
  · exact absurd hcycle (not_hasCycle_of_sorted service comps hperm hnames hsorted)

section SortClaims

/-- C24: for a service whose components have distinct names, whose dependencies all name
components of the service and whose dependency graph has no cycle, and for which no order is
cached yet, `getComponentsSortedTopologically` returns no error and a list that holds every
component of the service exactly once, each placed after all the components it depends on.
The list is cached in the service, and every later call returns the same list and no
error. -/
theorem getComponentsSortedTopologically_sorts (service : Service)
    (hnames : (service.Components.map (·.Name)).Nodup) (hdeps : service.DependenciesExist)
    (hacyclic : ¬ service.HasCycle) (hfresh : service.componentsOrdered = []) :
    ∃ comps, service.getComponentsSortedTopologically =
        .returned ({ service with componentsOrdered := comps }, comps, none) ∧
      comps.Perm service.Components ∧ DependenciesFirst comps ∧
      ({ service with componentsOrdered := comps } : Service).getComponentsSortedTopologically =
        .returned ({ service with componentsOrdered := comps }, comps, none) := by
  rcases getComponentsSortedTopologically_fresh service hnames hdeps hfresh with
    ⟨_, _, hcycle⟩ | ⟨comps, h, hperm, hsorted⟩
  · exact absurd hcycle hacyclic
  · refine ⟨comps, h, hperm, hsorted, ?_⟩
    cases comps with
    | nil =>
      have hsame : ({ service with componentsOrdered := [] } : Service) = service := by
        cases service
        simp only [Service.mk.injEq, true_and] at *
        exact hfresh.symm
      rw [hsame]
      exact hsame ▸ h
    | cons c tl => rfl

/-- Witness for C24: the component `web` depends on the component `db`, which is placed
first. -/
theorem getComponentsSortedTopologically_sorts_witness :
    ∃ comps, serviceWebDb.getComponentsSortedTopologically =
        .returned ({ serviceWebDb with componentsOrdered := comps }, comps, none) ∧
      comps.Perm serviceWebDb.Components ∧ DependenciesFirst comps ∧
      ({ serviceWebDb with componentsOrdered := comps } :
          Service).getComponentsSortedTopologically =
        .returned ({ serviceWebDb with componentsOrdered := comps }, comps, none) :=
  getComponentsSortedTopologically_sorts serviceWebDb (by decide)
    (by unfold Service.DependenciesExist; decide)
    (not_hasCycle_of_rank serviceWebDb (fun n => if n = "web" then 1 else 0) (by
      rintro a b ⟨c, hc, rfl, hb⟩
      simp only [serviceWebDb, codeComponent, List.mem_cons, List.mem_singleton,
        List.not_mem_nil, or_false] at hc
      rcases hc with rfl | rfl
      · simp only [List.mem_singleton] at hb
        subst hb
        decide
      · simp at hb)) rfl

/-- C25, the code at the failing input: the service has the component `a` and the component
`b`, which depends on itself. The first call returns the error and no list, and leaves the
component `a`, sorted before the cycle was found, in the cached order; the second call, on the
service as the first call left it, returns that order and no error. -/
theorem getComponentsSortedTopologically_forgets_cycle :
    serviceSelfCycle.HasCycle ∧
      serviceSelfCycle.getComponentsSortedTopologically =
        .returned ({ serviceSelfCycle with componentsOrdered := [codeComponent "a"] }, [],
          some "Component cycle detected in service C") ∧
      ({ serviceSelfCycle with componentsOrdered := [codeComponent "a"] } :
          Service).getComponentsSortedTopologically =
        .returned ({ serviceSelfCycle with componentsOrdered := [codeComponent "a"] },
          [codeComponent "a"], none) :=
  ⟨⟨"b", Relation.TransGen.single
    ⟨{ codeComponent "b" with Dependencies := ["b"] }, by simp [serviceSelfCycle], rfl,
      by simp⟩⟩, rfl, rfl⟩

end SortClaims

section RegroupClaims

/-- C40: label aggregation can be regrouped: `(A.addLabels(B)).addLabels(C)` and
`A.addLabels(B.addLabels(C))` are equal label sets, as `equal` decides, and read the same
value at every key; `A.addLabels(A)` is equal to `A`; and adding the label set without
labels, be its map nil or empty, on either side gives a set equal to `A`. -/
theorem addLabels_regroups (a b c : LabelSet) :
    ((a.addLabels b).addLabels c).equal (a.addLabels (b.addLabels c)) = true ∧
      (∀ k, GoMap.getOf ((a.addLabels b).addLabels c).Labels k =
        GoMap.getOf (a.addLabels (b.addLabels c)).Labels k) ∧
      (a.addLabels a).equal a = true ∧
      (a.addLabels ⟨none⟩).equal a = true ∧
      (a.addLabels ⟨some GoMap.empty⟩).equal a = true ∧
      (LabelSet.addLabels ⟨none⟩ a).equal a = true ∧
      (LabelSet.addLabels ⟨some GoMap.empty⟩ a).equal a = true := by
  have hassoc : ∀ k, GoMap.getOf ((a.addLabels b).addLabels c).Labels k =
      GoMap.getOf (a.addLabels (b.addLabels c)).Labels k := by
    intro k
    rw [addLabels_get, addLabels_get, addLabels_get, addLabels_get]
    cases GoMap.getOf c.Labels k <;> rfl
  refine ⟨(equal_iff _ _).2 hassoc, hassoc, (equal_iff _ _).2 (fun k => ?_),
    (equal_iff _ _).2 (fun k => ?_), (equal_iff _ _).2 (fun k => ?_),
    (equal_iff _ _).2 (fun k => ?_), (equal_iff _ _).2 (fun k => ?_)⟩
  · rw [addLabels_get]
    cases GoMap.getOf a.Labels k <;> rfl
  · rw [addLabels_get]
    rfl
  · rw [addLabels_get]
    rfl
  · rw [addLabels_get]
    cases GoMap.getOf a.Labels k <;> rfl
  · rw [addLabels_get]
    cases GoMap.getOf a.Labels k <;> rfl

end RegroupClaims

/-! ## Termination of the depth-first search -/

theorem forgetEntered_dfsDependencies
    (visitT : ServiceComponent → DfsState → Outcome (DfsState × Bool × List String))
    (visit : ServiceComponent → DfsState → Outcome (DfsState × Bool))
    (hvisit : ∀ v st, forgetEntered (visitT v st) = visit v st) (service : Service)
    (ds : List String) (st : DfsState) :
    forgetEntered (dfsDependenciesTraced visitT service ds st) =
      dfsDependencies visit service ds st := by
  induction ds generalizing st with
  | nil => rfl
  | cons d tl ih =>
    simp only [dfsDependenciesTraced, dfsDependencies]
    cases service.getComponentsMap.get d with
    | none => rfl
    | some v =>
      simp only
      cases st.colors.get v.Name with
      | none =>
        simp only
        rw [← hvisit v st]
        rcases visitT v st with ⟨st1, _ | _, entered⟩ | m | _
        · simp only [forgetEntered]
          rw [← ih st1]
          rcases dfsDependenciesTraced visitT service tl st1 with ⟨st2, b, more⟩ | m | _ <;> rfl
        · rfl
        · rfl
        · rfl
      | some vColor =>
        simp only
        split
        · rfl
        · exact ih st

theorem forgetEntered_dfsComponentSort (service : Service) (fuel : Nat)
    (u : ServiceComponent) (st : DfsState) :
    forgetEntered (Service.dfsComponentSortTraced fuel service u st) =
      Service.dfsComponentSort fuel service u st := by
  induction fuel generalizing u st with
  | zero => rfl
  | succ n ih =>
    simp only [Service.dfsComponentSortTraced, Service.dfsComponentSort]
    rw [← forgetEntered_dfsDependencies (Service.dfsComponentSortTraced n service)
      (Service.dfsComponentSort n service) ih service u.Dependencies]
    rcases dfsDependenciesTraced (Service.dfsComponentSortTraced n service) service
      u.Dependencies _ with ⟨st1, _ | _, entered⟩ | m | _ <;> rfl

theorem EnteredOnce.none {service : Service} (st : DfsState) : EnteredOnce service st st [] :=
  ⟨fun _ h => h, List.nodup_nil, fun n hn => by cases hn⟩

theorem EnteredOnce.append {service : Service} {st st1 st2 : DfsState}
    {entered more : List String} (h1 : EnteredOnce service st st1 entered)
    (h2 : EnteredOnce service st1 st2 more) : EnteredOnce service st st2 (entered ++ more) := by
  refine ⟨fun n hn => h2.mono n (h1.mono n hn), ?_, ?_⟩
  · refine List.Nodup.append h1.nodup h2.nodup ?_
    intro n hn1 hn2
    exact (h1.fresh n hn1).2.1 (h2.fresh n hn2).1
  · intro n hn
    rcases List.mem_append.1 hn with hn | hn
    · obtain ⟨ha, hb, hc⟩ := h1.fresh n hn
      exact ⟨ha, h2.mono n hb, hc⟩
    · obtain ⟨ha, hb, hc⟩ := h2.fresh n hn
      refine ⟨?_, hb, hc⟩
      by_contra hne
      exact h1.mono n hne ha

theorem dfsDependenciesTraced_returns (service : Service) (hdeps : service.DependenciesExist)
    (visit : ServiceComponent → DfsState → Outcome (DfsState × Bool × List String))
    (fuel : Nat) (hvisit : VisitReturns service visit fuel) (u : ServiceComponent)
    (hu : u ∈ service.Components) (ds : List String) (hds : ∀ d ∈ ds, d ∈ u.Dependencies)
    (st : DfsState) (hfuel : uncolored service st < fuel) :
    ∃ st' cycle entered, dfsDependenciesTraced visit service ds st =
        .returned (st', cycle, entered) ∧ EnteredOnce service st st' entered := by
  induction ds generalizing st with
  | nil => exact ⟨st, false, [], rfl, EnteredOnce.none st⟩
  | cons d tl ih =>
    have hd : d ∈ u.Dependencies := hds d (List.mem_cons_self _ _)
    have htl : ∀ d' ∈ tl, d' ∈ u.Dependencies := fun d' h => hds d' (List.mem_cons_of_mem _ h)
    obtain ⟨v, hget, hvmem, _⟩ := getComponentsMap_of_mem service d (hdeps u hu d hd)
    simp only [dfsDependenciesTraced, hget]
    cases hcol : st.colors.get v.Name with
    | none =>
      obtain ⟨st1, b1, entered, hret, hentered, _⟩ := hvisit v st hvmem hcol hfuel
      simp only [hret]
      cases b1 with
      | true => exact ⟨st1, true, entered, rfl, hentered⟩
      | false =>
        obtain ⟨st2, b2, more, hret2, hmore⟩ := ih htl st1
          (lt_of_le_of_lt (uncolored_le service st st1 hentered.mono) hfuel)
        simp only [hret2]
        exact ⟨st2, b2, entered ++ more, rfl, hentered.append hmore⟩
    | some vColor =>
      simp only
      by_cases hone : vColor = 1
      · rw [if_pos hone]
        exact ⟨st, true, [], rfl, EnteredOnce.none st⟩
      · rw [if_neg hone]
        exact ih htl st hfuel

theorem dfsComponentSortTraced_returns (service : Service)
    (hdeps : service.DependenciesExist) (fuel : Nat) :
    VisitReturns service (Service.dfsComponentSortTraced fuel service) fuel := by
  induction fuel with
  | zero =>
    intro u st _ _ hfuel
    cases hfuel
  | succ n ih =>
    intro u st hu hnone hfuel
    have hmono0 : ∀ m, st.colors.get m ≠ none → (st.colors.set u.Name 1).get m ≠ none := by
      intro m hm
      rw [GoMap.get_set]
      split
      · simp
      · exact hm
    have hgray0 : (st.colors.set u.Name 1).get u.Name = some 1 := GoMap.get_set_self _ _ _
    have hlt : uncolored service { st with colors := st.colors.set u.Name 1 } < n := by
      have := uncolored_lt service st { st with colors := st.colors.set u.Name 1 } u hu hnone
        (by rw [hgray0]; simp) hmono0
      omega
    obtain ⟨st1, b, entered, hret, hentered⟩ := dfsDependenciesTraced_returns service hdeps
      (Service.dfsComponentSortTraced n service) n ih u hu u.Dependencies (fun _ h => h)
      { st with colors := st.colors.set u.Name 1 } hlt
    have hu1 : st1.colors.get u.Name ≠ none := hentered.mono u.Name (by rw [hgray0]; simp)
    have hnotin : u.Name ∉ entered := fun hin => by
      have := (hentered.fresh u.Name hin).1
      rw [hgray0] at this
      cases this
    have hname : u.Name ∈ service.Components.map (·.Name) := List.mem_map_of_mem _ hu
    simp only [Service.dfsComponentSortTraced, hret]
    cases b with
    | true =>
      refine ⟨st1, true, u.Name :: entered, rfl, ⟨?_, ?_, ?_⟩, hu1⟩
      · exact fun m hm => hentered.mono m (hmono0 m hm)
      · exact List.nodup_cons.2 ⟨hnotin, hentered.nodup⟩
      · intro m hm
        rcases List.mem_cons.1 hm with rfl | hm
        · exact ⟨hnone, hu1, hname⟩
        · obtain ⟨ha, hb, hc⟩ := hentered.fresh m hm
          refine ⟨?_, hb, hc⟩
          by_contra hne
          exact hmono0 m hne ha
    | false =>
      have hset : ∀ m, st1.colors.get m ≠ none → (st1.colors.set u.Name 2).get m ≠ none := by
        intro m hm
        rw [GoMap.get_set]
        split
        · simp
        · exact hm
      refine ⟨_, false, u.Name :: entered, rfl, ⟨?_, ?_, ?_⟩, ?_⟩
      · exact fun m hm => hset m (hentered.mono m (hmono0 m hm))
      · exact List.nodup_cons.2 ⟨hnotin, hentered.nodup⟩
      · intro m hm
        rcases List.mem_cons.1 hm with rfl | hm
        · exact ⟨hnone, hset _ hu1, hname⟩
        · obtain ⟨ha, hb, hc⟩ := hentered.fresh m hm
          refine ⟨?_, hset m hb, hc⟩
          by_contra hne
          exact hmono0 m hne ha
      · exact hset _ hu1

/-- Names without repetition that are names of components are at most as many as the
components. -/
theorem length_le_of_entered (service : Service) (entered : List String)
    (hnodup : entered.Nodup) (hsub : ∀ n ∈ entered, n ∈ service.Components.map (·.Name)) :
    entered.length ≤ service.Components.length := by
  have := (List.subperm_of_subset hnodup hsub).length_le
  simpa using this

theorem sortComponents_returns (service : Service) (hdeps : service.DependenciesExist)
    (fuel : Nat) (hfuel : service.Components.length < fuel) (cs : List ServiceComponent)
    (hcs : ∀ c ∈ cs, c ∈ service.Components) (st : DfsState) :
    ∃ st' cycle, sortComponents fuel service cs st = .returned (st', cycle) := by
  induction cs generalizing st with
  | nil => exact ⟨st, false, rfl⟩
  | cons c tl ih =>
    have hc : c ∈ service.Components := hcs c (List.mem_cons_self _ _)
    have htl : ∀ c' ∈ tl, c' ∈ service.Components := fun c' h =>
      hcs c' (List.mem_cons_of_mem _ h)
    simp only [sortComponents]
    cases hcol : st.colors.get c.Name with
    | none =>
      obtain ⟨st1, b1, entered, hret, _, _⟩ := dfsComponentSortTraced_returns service hdeps
        fuel c st hc hcol (lt_of_le_of_lt (List.length_filter_le _ _) hfuel)
      have hplain := forgetEntered_dfsComponentSort service fuel c st
      rw [hret] at hplain
      simp only [forgetEntered] at hplain
      simp only [← hplain]
      cases b1 with
      | true => exact ⟨st1, true, rfl⟩
      | false => exact ih htl st1
    | some vColor => exact ih htl st

section TerminationClaims

/-- C37, the code at the failing input: the service has the component `a` and the component
`b`, which depends on itself. The first call returns no list and the error of the cycle; the
second call, on the service that the first call returned, returns the list of `a` alone and no
error. The two calls do not return the same. -/
theorem getComponentsSortedTopologically_second_call_differs :
    (serviceSelfCycle.getComponentsSortedTopologically.result?.map
        (fun r => (r.2.1.map (·.Name), r.2.2))) =
      some ([], some "Component cycle detected in service C") ∧
    ((serviceSelfCycle.getComponentsSortedTopologically.result?.bind
        (fun r => r.1.getComponentsSortedTopologically.result?)).map
          (fun r => (r.2.1.map (·.Name), r.2.2))) =
      some (["a"], none) := by
  decide

/-- C38: in a service whose dependencies all name components, be there a cycle or not,
`dfsComponentSort` for a component without colour returns when it may nest deeper than the
number of components without colour, which is at most the number of components. It enters no
component twice: the names for which it was entered are distinct names of components that had
no colour before the call and have one afterwards, so the calls are at most as many as the
components, and no name loses its colour. `getComponentsSortedTopologically` returns as
well. -/
theorem dfsComponentSort_terminates (service : Service) (hdeps : service.DependenciesExist)
    (u : ServiceComponent) (hu : u ∈ service.Components) (st : DfsState)
    (hnone : st.colors.get u.Name = none) (fuel : Nat) (hfuel : uncolored service st < fuel) :
    (∃ st' cycle entered,
        Service.dfsComponentSortTraced fuel service u st = .returned (st', cycle, entered) ∧
        Service.dfsComponentSort fuel service u st = .returned (st', cycle) ∧
        entered.Nodup ∧
        (∀ n ∈ entered, st.colors.get n = none ∧ st'.colors.get n ≠ none ∧
          n ∈ service.Components.map (·.Name)) ∧
        entered.length ≤ service.Components.length ∧
        (∀ n, st.colors.get n ≠ none → st'.colors.get n ≠ none)) ∧
      uncolored service st ≤ service.Components.length ∧
      ∃ result, service.getComponentsSortedTopologically = .returned result := by
  refine ⟨?_, List.length_filter_le _ _, ?_⟩
  · obtain ⟨st1, b, entered, hret, hentered, _⟩ :=
      dfsComponentSortTraced_returns service hdeps fuel u st hu hnone hfuel
    have hplain := forgetEntered_dfsComponentSort service fuel u st
    rw [hret] at hplain
    exact ⟨st1, b, entered, hret, hplain.symm, hentered.nodup, hentered.fresh,
      length_le_of_entered service entered hentered.nodup (fun n hn => (hentered.fresh n hn).2.2),
      hentered.mono⟩
  · unfold Service.getComponentsSortedTopologically
    split
    · obtain ⟨st1, b, hret⟩ := sortComponents_returns service hdeps
        (service.Components.length + 1) (Nat.lt_succ_self _) service.Components (fun _ h => h)
        ⟨GoMap.empty, service.componentsOrdered⟩
      rw [hret]
      cases b
      · exact ⟨_, rfl⟩
      · exact ⟨_, rfl⟩
    · exact ⟨_, rfl⟩

/-- Witness for C38: the component `b` of the service depends on itself; the search for `b`
enters `b` once and reports the cycle. -/
theorem dfsComponentSort_terminates_witness :
    ∃ st' cycle entered,
      Service.dfsComponentSortTraced 3 serviceSelfCycle
          { codeComponent "b" with Dependencies := ["b"] } ⟨GoMap.empty, []⟩ =
        .returned (st', cycle, entered) ∧
      Service.dfsComponentSort 3 serviceSelfCycle
          { codeComponent "b" with Dependencies := ["b"] } ⟨GoMap.empty, []⟩ =
        .returned (st', cycle) ∧
      entered.Nodup ∧
      (∀ n ∈ entered, (⟨GoMap.empty, []⟩ : DfsState).colors.get n = none ∧
        st'.colors.get n ≠ none ∧ n ∈ serviceSelfCycle.Components.map (·.Name)) ∧
      entered.length ≤ serviceSelfCycle.Components.length ∧
      (∀ n, (⟨GoMap.empty, []⟩ : DfsState).colors.get n ≠ none → st'.colors.get n ≠ none) :=
  (dfsComponentSort_terminates serviceSelfCycle (by unfold Service.DependenciesExist; decide)
    { codeComponent "b" with Dependencies := ["b"] } (by simp [serviceSelfCycle])
    ⟨GoMap.empty, []⟩ rfl 3 (by decide)).1

end TerminationClaims

/-- The loop over the components goes on from the state that the components before have left,
with the same labels of the service. -/
theorem resolveComponents_append (x : Externals)
    (resolve : ServiceUsageState → User → String → LabelSet →
      Outcome (ServiceUsageState × Option String))
    (user : User) (service : Service) (context : Context) (allocation : Allocation)
    (labels : LabelSet) (pre rest : List ServiceComponent) (usage : ServiceUsageState)
    (depMap : GoMap String) (u1 : ServiceUsageState) (m1 : GoMap String)
    (h : resolveComponents x resolve user service context allocation labels pre usage depMap =
      .returned (u1, m1, none)) :
    resolveComponents x resolve user service context allocation labels (pre ++ rest) usage
        depMap =
      resolveComponents x resolve user service context allocation labels rest u1 m1 := by
  induction pre generalizing usage depMap with
  | nil =>
    simp only [resolveComponents] at h
    cases h
    rfl
  | cons component pre ih =>
    simp only [List.cons_append, resolveComponents] at h ⊢
    generalize (if component.Code.isSome = true then
          (Outcome.returned (usage, none) : Outcome (ServiceUsageState × Option String))
        else if component.Service ≠ "" then
          resolve usage user component.Service (labels.applyTransform component.Labels)
        else Outcome.fatal
          ("Invalid component: " ++ component.Name ++ " (in " ++ service.Name ++ ")")) = out
      at h ⊢
    cases out with
    | fatal m => cases h
    | outOfFuel => cases h
    | returned v =>
      obtain ⟨u, e⟩ := v
      cases e with
      | some e => simp only at h; cases h
      | none =>
        simp only at h ⊢
        exact ih _ _ h

/-- The labels given to `recordUsage` are merged into the labels calculated for the key. -/
theorem recordUsage_labels (x : Externals) (usage : ServiceUsageState) (user : User)
    (service : Service) (context : Context) (allocation : Allocation)
    (component : Option ServiceComponent) (labels : LabelSet) :
    (usage.recordUsage x user service context allocation component
        labels).1.CalculatedLabels.get
        (createServiceUsageKey x service context allocation component) =
      some (((usage.CalculatedLabels.get
        (createServiceUsageKey x service context allocation component)).getD
          ⟨none⟩).addLabels labels) := by
  rw [recordUsage_fst]
  simp only [GoMap.get_set_self]

section ComponentLabelClaims

/-- C34: in a call of `resolveWithLabels` for which the service, a context and an allocation
are found and the components sort, `serviceLabels` are the labels of the claim after the
transforms of the context and of the allocation and `start` is the state with which the loop
over the sorted components begins. Wherever a component `c` stands in the list, and whatever
the operations of the components before it, when the loop has come to `c` the component is
processed with `serviceLabels` transformed by the operations of `c` alone: a code component
is recorded with these labels; for a component that refers to a service, the service is
resolved with these labels and, when that call returns without error, the component is
recorded with them, and the loop goes on with `serviceLabels`; when the call does not return
or returns an error, so do the loop and the call. When the loop has ended without error, the
usage of the service itself is recorded with `serviceLabels`. The labels given to
`recordUsage` are merged into the labels calculated for the key. -/
theorem resolveWithLabels_component_labels (x : Externals) (fuel : Nat)
    (usage : ServiceUsageState) (user : User) (serviceName : String) (labels : LabelSet)
    (service : Service) (context : Context) (allocation : Allocation) (service' : Service)
    (comps : List ServiceComponent) (serviceLabels : LabelSet) (start : ServiceUsageState)
    (hs : usage.Policy.getService serviceName = (some service, none))
    (hc : usage.Policy.getMatchedContext x service user labels = (some context, none))
    (ha : usage.Policy.getMatchedAllocation x service user context
      (labels.applyTransform context.Labels) = (some allocation, none))
    (hsort : service.getComponentsSortedTopologically = .returned (service', comps, none))
    (hlabels : serviceLabels =
      (labels.applyTransform context.Labels).applyTransform allocation.Labels)
    (hstart : start = { usage with
      Policy :=
        { Services := usage.Policy.Services.set serviceName service'
          Contexts := (usage.Policy.storeResolvedName x service user labels
            (labels.applyTransform context.Labels)).Contexts } }) :
    (∀ (pre : List ServiceComponent) (c : ServiceComponent) (post : List ServiceComponent)
        (u1 : ServiceUsageState) (m1 : GoMap String) (componentLabels : LabelSet),
      comps = pre ++ c :: post →
      componentLabels = serviceLabels.applyTransform c.Labels →
      resolveComponents x (ServiceUsageState.resolveWithLabels x fuel) user service' context
        allocation serviceLabels pre start GoMap.empty = .returned (u1, m1, none) →
      (c.Code.isSome = true →
        resolveComponents x (ServiceUsageState.resolveWithLabels x fuel) user service' context
            allocation serviceLabels comps start GoMap.empty =
          resolveComponents x (ServiceUsageState.resolveWithLabels x fuel) user service' context
            allocation serviceLabels post
            (u1.recordUsage x user service' context allocation (some c) componentLabels).1
            (m1.set c.Name (createServiceUsageKey x service' context allocation (some c)))) ∧
      (c.Code.isSome = false → c.Service ≠ "" →
        (∀ u2, u1.resolveWithLabels x fuel user c.Service componentLabels =
            .returned (u2, none) →
          resolveComponents x (ServiceUsageState.resolveWithLabels x fuel) user service'
              context allocation serviceLabels comps start GoMap.empty =
            resolveComponents x (ServiceUsageState.resolveWithLabels x fuel) user service'
              context allocation serviceLabels post
              (u2.recordUsage x user service' context allocation (some c) componentLabels).1
              (m1.set c.Name (createServiceUsageKey x service' context allocation (some c)))) ∧
        (∀ u2 err, u1.resolveWithLabels x fuel user c.Service componentLabels =
            .returned (u2, some err) →
          usage.resolveWithLabels x (fuel + 1) user serviceName labels =
            .returned (u2, some err)) ∧
        (∀ message, u1.resolveWithLabels x fuel user c.Service componentLabels =
            .fatal message →
          usage.resolveWithLabels x (fuel + 1) user serviceName labels = .fatal message) ∧
        (u1.resolveWithLabels x fuel user c.Service componentLabels = .outOfFuel →
          usage.resolveWithLabels x (fuel + 1) user serviceName labels = .outOfFuel))) ∧
    (∀ (u2 : ServiceUsageState) (m2 : GoMap String),
      resolveComponents x (ServiceUsageState.resolveWithLabels x fuel) user service' context
        allocation serviceLabels comps start GoMap.empty = .returned (u2, m2, none) →
      usage.resolveWithLabels x (fuel + 1) user serviceName labels =
        .returned ({ (u2.recordUsage x user service' context allocation none
            serviceLabels).1 with
          ComponentInstanceMap :=
            (u2.recordUsage x user service' context allocation none
              serviceLabels).1.ComponentInstanceMap.set
              (createServiceUsageKey x service' context allocation none) m2 }, none)) ∧
    (∀ (u : ServiceUsageState) (component : Option ServiceComponent) (given : LabelSet)
        (k : String),
      GoMap.getOf (((u.recordUsage x user service' context allocation component
          given).1.CalculatedLabels.get
            (createServiceUsageKey x service' context allocation component)).getD
              ⟨none⟩).Labels k =
        (GoMap.getOf given.Labels k).or
          (GoMap.getOf ((u.CalculatedLabels.get
            (createServiceUsageKey x service' context allocation component)).getD
              ⟨none⟩).Labels k)) := by
  subst hlabels hstart
  have hcall : usage.resolveWithLabels x (fuel + 1) user serviceName labels =
      match resolveComponents x (ServiceUsageState.resolveWithLabels x fuel) user service'
          context allocation
          ((labels.applyTransform context.Labels).applyTransform allocation.Labels) comps
          { usage with
            Policy :=
              { Services := usage.Policy.Services.set serviceName service'
                Contexts := (usage.Policy.storeResolvedName x service user labels
                  (labels.applyTransform context.Labels)).Contexts } } GoMap.empty with
      | .fatal message => .fatal message
      | .outOfFuel => .outOfFuel
      | .returned (usage, _, some err) => .returned (usage, some err)
      | .returned (u2, m2, none) =>
        .returned ({ (u2.recordUsage x user service' context allocation none
            ((labels.applyTransform context.Labels).applyTransform allocation.Labels)).1 with
          ComponentInstanceMap :=
            (u2.recordUsage x user service' context allocation none
              ((labels.applyTransform context.Labels).applyTransform
                allocation.Labels)).1.ComponentInstanceMap.set
              (createServiceUsageKey x service' context allocation none) m2 }, none) := by
    simp only [ServiceUsageState.resolveWithLabels, resolveStep, hs, hc, ha, hsort,
      storeResolvedName_services, recordUsage_snd]
  refine ⟨?_, ?_, ?_⟩
  · intro pre c post u1 m1 componentLabels hcomps hcl hpre
    subst hcomps hcl
    have happ := resolveComponents_append x (ServiceUsageState.resolveWithLabels x fuel) user
      service' context allocation
      ((labels.applyTransform context.Labels).applyTransform allocation.Labels) pre (c :: post)
      _ _ u1 m1 hpre
    refine ⟨?_, ?_⟩
    · intro hcode
      rw [happ]
      simp only [resolveComponents, hcode, if_true, recordUsage_snd]
    · intro hcode hservice
      have hstep : resolveComponents x (ServiceUsageState.resolveWithLabels x fuel) user
          service' context allocation
          ((labels.applyTransform context.Labels).applyTransform allocation.Labels)
          (c :: post) u1 m1 =
          match u1.resolveWithLabels x fuel user c.Service
              (((labels.applyTransform context.Labels).applyTransform
                allocation.Labels).applyTransform c.Labels) with
          | .returned (usage, some err) => .returned (usage, m1, some err)
          | .returned (usage, none) =>
            resolveComponents x (ServiceUsageState.resolveWithLabels x fuel) user service'
              context allocation
              ((labels.applyTransform context.Labels).applyTransform allocation.Labels) post
              (usage.recordUsage x user service' context allocation (some c)
                (((labels.applyTransform context.Labels).applyTransform
                  allocation.Labels).applyTransform c.Labels)).1
              (m1.set c.Name (createServiceUsageKey x service' context allocation (some c)))
          | .fatal message => .fatal message
          | .outOfFuel => .outOfFuel := by
        simp only [resolveComponents, hcode, hservice, recordUsage_snd]
        rw [if_pos hservice, if_neg (by simp)]
      refine ⟨?_, ?_, ?_, ?_⟩
      · intro u2 h2
        rw [happ, hstep, h2]
      · intro u2 err h2
        rw [hcall, happ, hstep, h2]
      · intro message h2
        rw [hcall, happ, hstep, h2]
      · intro h2
        rw [hcall, happ, hstep, h2]
  · intro u2 m2 hloop
    rw [hcall, hloop]
  · intro u component given k
    rw [recordUsage_labels, Option.getD_some, addLabels_get]

/-- Witness for C34: the claim of `alice`, who has the label `env: prod`, on service `W`. The
code component `c` sets `env` to `qa` and the component `t`, which comes after it and refers
to service `D`, sets `tier` to `db`. When the loop has come to `t`, service `D` is resolved
and `t` is recorded with the labels `env: prod` and `tier: db`: the operations of `c` do not
show in them, and the context `prod` of `D` matches. The labels of the service have
`env: prod` and no label `tier`, and so have the labels calculated for the key of `W`. -/
theorem resolveWithLabels_component_labels_witness :
    resolveComponents exampleExternals (ServiceUsageState.resolveWithLabels exampleExternals 2)
        alice frontSorted (simpleContext "any") ⟨"a", "a", none⟩ frontLabels
        [frontCode, frontRef] frontStart GoMap.empty =
      resolveComponents exampleExternals (ServiceUsageState.resolveWithLabels exampleExternals 2)
        alice frontSorted (simpleContext "any") ⟨"a", "a", none⟩ frontLabels []
        (frontAfterBack.recordUsage exampleExternals alice frontSorted (simpleContext "any")
          ⟨"a", "a", none⟩ (some frontRef) (frontLabels.applyTransform frontRef.Labels)).1
        ((GoMap.single "c" "W#any#a#c").set "t" "W#any#a#t") ∧
      (GoMap.getOf (frontLabels.applyTransform frontCode.Labels).Labels "env" = some "qa" ∧
        GoMap.getOf (frontLabels.applyTransform frontRef.Labels).Labels "env" = some "prod" ∧
        GoMap.getOf (frontLabels.applyTransform frontRef.Labels).Labels "tier" = some "db" ∧
        GoMap.getOf frontLabels.Labels "env" = some "prod" ∧
        GoMap.getOf frontLabels.Labels "tier" = none) ∧
      orderAndError ((initialState policyFrontBack GoMap.empty).resolveWithLabels
          exampleExternals 3 alice "W" aliceLabels) =
        some (["W#any#a#c", "D#prod#a#d", "D#prod#a##root", "W#any#a#t", "W#any#a##root"],
          none) ∧
      ((((initialState policyFrontBack GoMap.empty).resolveWithLabels exampleExternals 3 alice
          "W" aliceLabels).result?.bind
            (fun r => r.1.CalculatedLabels.get "W#any#a##root")).map
              (fun l => (GoMap.getOf l.Labels "env", GoMap.getOf l.Labels "tier")) =
          some (some "prod", none) ∧
        (((initialState policyFrontBack GoMap.empty).resolveWithLabels exampleExternals 3 alice
          "W" aliceLabels).result?.bind
            (fun r => r.1.CalculatedLabels.get "W#any#a#t")).map
              (fun l => (GoMap.getOf l.Labels "env", GoMap.getOf l.Labels "tier")) =
          some (some "prod", some "db")) :=
  ⟨((resolveWithLabels_component_labels exampleExternals 2
      (initialState policyFrontBack GoMap.empty) alice "W" aliceLabels serviceFront
      (simpleContext "any") ⟨"a", "a", none⟩ frontSorted [frontCode, frontRef] frontLabels
      frontStart rfl rfl rfl rfl rfl rfl).1 [frontCode] frontRef [] frontAfterCode
      (GoMap.single "c" "W#any#a#c") (frontLabels.applyTransform frontRef.Labels) rfl rfl
      rfl).2 rfl (by decide) |>.1 frontAfterBack rfl,
    by decide, by decide, by decide⟩

end ComponentLabelClaims

end Slinga

/-! ## Iteration order of Go maps -/

section IterationOrderClaims

open Slinga

/-- C14, the code at the failing input: two contributions with the same instance map, visited
in opposite orders, give different processing orders after `AppendData`; and the same
dependencies, visited in opposite orders, give different processing orders after
`ResolveUsage`. -/
theorem processingOrder_depends_on_iteration_order :
    (resolvedRootFirst.ComponentInstanceMap.entries =
        resolvedComponentFirst.ComponentInstanceMap.entries.reverse ∧
      resolvedRootFirst.componentProcessingOrder =
        resolvedComponentFirst.componentProcessingOrder ∧
      ((NewPolicyResolution true : PolicyResolution (GoMap String)).AppendData
          resolvedComponentFirst).1.componentProcessingOrder =
        [exampleKey.GetKey, exampleRootKey.GetKey] ∧
      ((NewPolicyResolution true : PolicyResolution (GoMap String)).AppendData
          resolvedRootFirst).1.componentProcessingOrder =
        [exampleRootKey.GetKey, exampleKey.GetKey]) ∧
    (dependenciesTS.entries = dependenciesST.entries.reverse ∧
      orderAndError ((initialState policyST dependenciesST).ResolveUsage exampleExternals 3
          exampleUsers) =
        some (["S#any#a#c", "S#any#a##root", "T#any#a#d", "T#any#a##root"], none) ∧
      orderAndError ((initialState policyST dependenciesTS).ResolveUsage exampleExternals 3
          exampleUsers) =
        some (["T#any#a#d", "T#any#a##root", "S#any#a#c", "S#any#a##root"], none)) := by
  refine ⟨⟨rfl, rfl, by decide, by decide⟩, rfl, by decide, by decide⟩

end IterationOrderClaims

/-! ## Lemmas on the resolver of privileges -/

namespace Lang

theorem goMap_eq_of_entries {V : Type} (a b : GoMap V) (h : a.entries = b.entries) : a = b := by
  obtain ⟨ea, _⟩ := a
  obtain ⟨eb, _⟩ := b
  simp only at h
  subst h
  rfl

theorem firstCoveringRole_append (x : ACLExternals) (roleMap : Option RoleMap)
    (obj : ObjectBase) (pre : List (ACLRole x.Privilege)) (role : ACLRole x.Privilege)
    (post : List (ACLRole x.Privilege))
    (hpre : ∀ r ∈ pre, roleCovers x roleMap obj r = false)
    (hrole : roleCovers x roleMap obj role = true) :
    firstCoveringRole x roleMap obj (pre ++ role :: post) =
      some (role.Privileges.getObjectPrivileges x obj) := by
  induction pre with
  | nil => simp [firstCoveringRole, hrole]
  | cons hd tl ih =>
    have hhd : roleCovers x roleMap obj hd = false := hpre hd (List.mem_cons_self _ _)
    simp only [List.cons_append, firstCoveringRole, hhd, Bool.false_eq_true, if_false]
    exact ih (fun r hr => hpre r (List.mem_cons_of_mem _ hr))

theorem firstCoveringRole_none (x : ACLExternals) (roleMap : Option RoleMap)
    (obj : ObjectBase) (roles : List (ACLRole x.Privilege))
    (h : ∀ r ∈ roles, roleCovers x roleMap obj r = false) :
    firstCoveringRole x roleMap obj roles = none := by
  induction roles with
  | nil => rfl
  | cons hd tl ih =>
    have hhd : roleCovers x roleMap obj hd = false := h hd (List.mem_cons_self _ _)
    simp only [firstCoveringRole, hhd, Bool.false_eq_true, if_false]
    exact ih (fun r hr => h r (List.mem_cons_of_mem _ hr))

theorem GetUserPrivileges_of_roleMap {x : ACLExternals} (resolver resolver' : ACLResolver x)
    (user : User) (obj : ObjectBase) (roleMap : Option RoleMap)
    (h : resolver.getUserRoleMap user = (resolver', roleMap, none)) :
    resolver.GetUserPrivileges user obj = (resolver', privilegesFor x roleMap obj, none) := by
  simp only [ACLResolver.GetUserPrivileges, h]

/-- The role map of an administrator: the role `domainAdmin` for all namespaces. -/
theorem adminRoleMap_eq (x : ACLExternals) :
    ((GoMap.empty : RoleMap).set x.domainAdmin.ID GoMap.empty).set x.domainAdmin.ID
        ((GoMap.empty : GoMap Bool).set x.namespaceAll true) =
      GoMap.single x.domainAdmin.ID (GoMap.single x.namespaceAll true) := by
  apply goMap_eq_of_entries
  simp [GoMap.set, GoMap.setEntries, GoMap.single, GoMap.empty]

theorem getUserRoleMap_of_admin {x : ACLExternals} (resolver : ACLResolver x) (user : User)
    (hadmin : user.Admin = true) (hcache : resolver.roleMapCache.get user.ID = none) :
    resolver.getUserRoleMap user =
      ({ resolver with
          roleMapCache := resolver.roleMapCache.set user.ID
            (GoMap.single x.domainAdmin.ID (GoMap.single x.namespaceAll true)) },
        some (GoMap.single x.domainAdmin.ID (GoMap.single x.namespaceAll true)), none) := by
  simp only [ACLResolver.getUserRoleMap, hcache, hadmin, if_true, NewRuleActionResult,
    adminRoleMap_eq]

theorem roleCovers_admin (x : ACLExternals) (obj : ObjectBase) (role : ACLRole x.Privilege) :
    roleCovers x (some (GoMap.single x.domainAdmin.ID (GoMap.single x.namespaceAll true))) obj
      role = decide (role.ID = x.domainAdmin.ID) := by
  by_cases h : role.ID = x.domainAdmin.ID
  · simp [roleCovers, GoMap.getOf, GoMap.single, GoMap.get_set, GoMap.get_empty, h]
  · simp [roleCovers, GoMap.getOf, GoMap.single, GoMap.get_set, GoMap.get_empty, h]

theorem getUserRoleMap_cached_entry {x : ACLExternals} (resolver resolver' : ACLResolver x)
    (user : User) (roleMap : RoleMap)
    (h : resolver.getUserRoleMap user = (resolver', some roleMap, none)) :
    resolver'.roleMapCache.get user.ID = some roleMap := by
  unfold ACLResolver.getUserRoleMap at h
  split at h
  · rename_i cached hc
    cases h
    exact hc
  · split at h
    · cases h
      exact GoMap.get_set_self _ _ _
    · dsimp only at h
      split at h
      · cases h
      · cases h
        exact GoMap.get_set_self _ _ _

theorem getUserRoleMap_keeps_entries {x : ACLExternals} (resolver : ACLResolver x)
    (user : User) (id : String) (roleMap : RoleMap)
    (h : resolver.roleMapCache.get id = some roleMap) :
    (resolver.getUserRoleMap user).1.roleMapCache.get id = some roleMap := by
  unfold ACLResolver.getUserRoleMap
  split
  · exact h
  · rename_i hnone
    have hne : id ≠ user.ID := by
      intro e
      rw [e, hnone] at h
      cases h
    split
    · simp only
      rw [GoMap.get_set_of_ne _ _ hne]
      exact h
    · dsimp only
      split
      · exact h
      · simp only
        rw [GoMap.get_set_of_ne _ _ hne]
        exact h

theorem afterCalls_keeps_entries {x : ACLExternals} (resolver : ACLResolver x)
    (users : List User) (id : String) (roleMap : RoleMap)
    (h : resolver.roleMapCache.get id = some roleMap) :
    (resolver.afterCalls users).roleMapCache.get id = some roleMap := by
  induction users generalizing resolver with
  | nil => exact h
  | cons u rest ih =>
    exact ih _ (getUserRoleMap_keeps_entries resolver u id roleMap h)

theorem getUserRoleMap_of_cached {x : ACLExternals} (resolver : ACLResolver x) (user : User)
    (roleMap : RoleMap) (h : resolver.roleMapCache.get user.ID = some roleMap) :
    resolver.getUserRoleMap user = (resolver, some roleMap, none) := by
  simp only [ACLResolver.getUserRoleMap, h]

/-! ## The contract of the resolver of privileges -/

section PrivilegeClaims

/-- C27: when `getUserRoleMap` returns a role map, `GetUserPrivileges` returns the privileges
of the first role of `ACLRolesOrderedList` that covers the object, which is a role whose span
of namespaces in the role map holds `true` for the marker of all namespaces or for that
of the object; the roles after it are not looked at. When no role of the list covers the
object, the privileges of the role `nobody` are returned. -/
theorem GetUserPrivileges_first_covering_role {x : ACLExternals}
    (resolver resolver' : ACLResolver x) (user : User) (obj : ObjectBase)
    (roleMap : Option RoleMap)
    (h : resolver.getUserRoleMap user = (resolver', roleMap, none)) :
    (∀ role, roleCovers x roleMap obj role = true ↔
        GoMap.getOf (GoMap.getOf roleMap role.ID) x.namespaceAll = some true ∨
          GoMap.getOf (GoMap.getOf roleMap role.ID) obj.Namespace = some true) ∧
      (∀ pre role post, x.ACLRolesOrderedList = pre ++ role :: post →
        (∀ r ∈ pre, roleCovers x roleMap obj r = false) →
        roleCovers x roleMap obj role = true →
        resolver.GetUserPrivileges user obj =
          (resolver', role.Privileges.getObjectPrivileges x obj, none)) ∧
      ((∀ r ∈ x.ACLRolesOrderedList, roleCovers x roleMap obj r = false) →
        resolver.GetUserPrivileges user obj =
          (resolver', x.nobody.Privileges.getObjectPrivileges x obj, none)) := by
  refine ⟨?_, ?_, ?_⟩
  · intro role
    unfold roleCovers
    simp only [Bool.or_eq_true]
    constructor
    · rintro (h1 | h1)
      · left
        cases hg : GoMap.getOf (GoMap.getOf roleMap role.ID) x.namespaceAll with
        | none => rw [hg] at h1; cases h1
        | some b => rw [hg] at h1; cases h1; rfl
      · right
        cases hg : GoMap.getOf (GoMap.getOf roleMap role.ID) obj.Namespace with
        | none => rw [hg] at h1; cases h1
        | some b => rw [hg] at h1; cases h1; rfl
    · rintro (h1 | h1)
      · left; rw [h1]; rfl
      · right; rw [h1]; rfl
  · intro pre role post hsplit hpre hrole
    rw [GetUserPrivileges_of_roleMap resolver resolver' user obj roleMap h]
    unfold privilegesFor
    rw [hsplit, firstCoveringRole_append x roleMap obj pre role post hpre hrole]
  · intro hnone
    rw [GetUserPrivileges_of_roleMap resolver resolver' user obj roleMap h]
    unfold privilegesFor
    rw [firstCoveringRole_none x roleMap obj _ hnone]

/-- Witness for C27: for `bob` the rules give the roles `service-consumer` and
`namespace-admin` in the namespace `main`; `namespace-admin` comes first in the list of roles
and its privilege for a service of `main` is returned. -/
theorem GetUserPrivileges_first_covering_role_witness :
    devResolver.GetUserPrivileges bob mainService =
      ((devResolver.getUserRoleMap bob).1, some "manage", none) :=
  (GetUserPrivileges_first_covering_role devResolver (devResolver.getUserRoleMap bob).1 bob
    mainService (devResolver.getUserRoleMap bob).2.1 rfl).2.1
    [⟨"domain-admin", examplePrivileges "write"⟩] ⟨"namespace-admin", examplePrivileges "manage"⟩
    [⟨"service-consumer", examplePrivileges "consume"⟩] rfl (by decide) (by decide)

/-- C28: `getObjectPrivileges` returns the entry of the kind of the object in the privileges
for global objects when the namespace of the object is the system namespace, and in the
privileges for namespaced objects otherwise; when there is no such entry, or it is nil, it
returns `noAccess`. The result is never nil. -/
theorem getObjectPrivileges_never_nil (x : ACLExternals) (privileges : Privileges x.Privilege)
    (obj : ObjectBase) :
    privileges.getObjectPrivileges x obj =
        some (((GoMap.getOf
          (if obj.Namespace = x.SystemNS then privileges.GlobalObjects
            else privileges.NamespaceObjects) obj.Kind).join).getD x.noAccess) ∧
      (privileges.getObjectPrivileges x obj).isSome = true := by
  unfold Privileges.getObjectPrivileges
  by_cases hns : obj.Namespace = x.SystemNS
  · simp only [hns, if_true]
    cases (GoMap.getOf privileges.GlobalObjects obj.Kind).join <;> simp
  · simp only [hns, if_false]
    cases (GoMap.getOf privileges.NamespaceObjects obj.Kind).join <;> simp

theorem firstCoveringRole_admin (x : ACLExternals) (obj : ObjectBase)
    (roles : List (ACLRole x.Privilege)) :
    firstCoveringRole x
        (some (GoMap.single x.domainAdmin.ID (GoMap.single x.namespaceAll true))) obj roles =
      (roles.find? (fun role => decide (role.ID = x.domainAdmin.ID))).map
        (fun role => role.Privileges.getObjectPrivileges x obj) := by
  induction roles with
  | nil => rfl
  | cons role rest ih =>
    simp only [firstCoveringRole, roleCovers_admin, List.find?_cons]
    by_cases h : role.ID = x.domainAdmin.ID
    · simp [h]
    · simp [h, ih]

/-- C29, counterexample: the administrator `root` has no cached role map and the role
`domain-admin` heads the list of roles, with the privilege `write` for services in a
namespace and for clusters in the system namespace. For a service in the namespace `main`
`GetUserPrivileges` returns `write`; for a service in the system namespace and for a cluster
in the namespace `main`, for which the tables of the role hold nothing, it returns
`no-access`. -/
theorem admin_without_write_privilege :
    root.Admin = true ∧ exampleResolver.roleMapCache.get root.ID = none ∧
      (exampleResolver.GetUserPrivileges root mainService).2 = (some "write", none) ∧
      (exampleResolver.GetUserPrivileges root systemService).2 = (some "no-access", none) ∧
      (exampleResolver.GetUserPrivileges root ⟨"main", "cluster"⟩).2 =
        (some "no-access", none) :=
  ⟨rfl, rfl, rfl, rfl, rfl⟩

/-- C29, amended: for a user with `Admin` set and no cached role map, `getUserRoleMap` returns
without error the role map that gives the role `domainAdmin` for all namespaces and stores it
in the cache, whatever the rules of the resolver and whatever `Matches` does with them; the
rules and the expression cache of the resolver are as before. `GetUserPrivileges` then
returns, for every object, what `getObjectPrivileges` gives for the first role of the list of
roles that has the ID of `domainAdmin`, and for the role `nobody` when the list has no such
role; with `domainAdmin` at the head of the list this is what `getObjectPrivileges` gives for
`domainAdmin`. -/
theorem getUserRoleMap_admin_bypasses_rules {x : ACLExternals} (resolver : ACLResolver x)
    (user : User) (hadmin : user.Admin = true)
    (hcache : resolver.roleMapCache.get user.ID = none) :
    resolver.getUserRoleMap user =
        ({ rules := resolver.rules
           cache := resolver.cache
           roleMapCache := resolver.roleMapCache.set user.ID
            (GoMap.single x.domainAdmin.ID (GoMap.single x.namespaceAll true)) },
          some (GoMap.single x.domainAdmin.ID (GoMap.single x.namespaceAll true)), none) ∧
      (∀ obj, (resolver.GetUserPrivileges user obj).2 =
        ((((x.ACLRolesOrderedList.find? (fun role => decide (role.ID = x.domainAdmin.ID))).getD
          x.nobody).Privileges).getObjectPrivileges x obj, none)) ∧
      ∀ rest obj, x.ACLRolesOrderedList = x.domainAdmin :: rest →
        (resolver.GetUserPrivileges user obj).2 =
          (x.domainAdmin.Privileges.getObjectPrivileges x obj, none) := by
  have hpriv : ∀ obj, (resolver.GetUserPrivileges user obj).2 =
      ((((x.ACLRolesOrderedList.find? (fun role => decide (role.ID = x.domainAdmin.ID))).getD
        x.nobody).Privileges).getObjectPrivileges x obj, none) := by
    intro obj
    rw [GetUserPrivileges_of_roleMap resolver _ user obj _
      (getUserRoleMap_of_admin resolver user hadmin hcache)]
    simp only [privilegesFor, firstCoveringRole_admin]
    cases x.ACLRolesOrderedList.find? (fun role => decide (role.ID = x.domainAdmin.ID)) <;> rfl
  refine ⟨getUserRoleMap_of_admin resolver user hadmin hcache, hpriv, ?_⟩
  intro rest obj hlist
  rw [hpriv obj, hlist]
  simp

/-- Witness for C29 as amended: the administrator `root` with a resolver whose first rule
cannot be evaluated; the expression cache still counts no evaluation, and for a service in
the system namespace the privilege is what the table of `domain-admin` gives, `no-access`. -/
theorem getUserRoleMap_admin_bypasses_rules_witness :
    exampleResolver.getUserRoleMap root =
        ({ rules := exampleResolver.rules
           cache := exampleResolver.cache
           roleMapCache := exampleResolver.roleMapCache.set root.ID
            (GoMap.single exampleACL.domainAdmin.ID (GoMap.single exampleACL.namespaceAll true)) },
          some (GoMap.single exampleACL.domainAdmin.ID
            (GoMap.single exampleACL.namespaceAll true)), none) ∧
      (exampleResolver.GetUserPrivileges root systemService).2 =
        (exampleACL.domainAdmin.Privileges.getObjectPrivileges exampleACL systemService,
          none) :=
  have h := getUserRoleMap_admin_bypasses_rules exampleResolver root rfl rfl
  ⟨h.1, h.2.2 _ systemService rfl⟩

/-- C30: after a call of `getUserRoleMap` that returned a role map for a user, every later
call on the resolver for a user with the same ID, whatever its labels and its flag `Admin` and
whatever calls were made in between, returns that role map without error and leaves the
resolver, with its expression cache, as it was: no rule is evaluated. So a call of
`GetUserPrivileges` that follows a successful call for the same ID and the same object returns
the same privilege. -/
theorem getUserRoleMap_cached {x : ACLExternals} (resolver resolver' : ACLResolver x)
    (user : User) (roleMap : RoleMap)
    (h : resolver.getUserRoleMap user = (resolver', some roleMap, none))
    (others : List User) (later : User) (hid : later.ID = user.ID) (obj : ObjectBase) :
    (resolver'.afterCalls others).getUserRoleMap later =
        (resolver'.afterCalls others, some roleMap, none) ∧
      resolver.GetUserPrivileges user obj =
        (resolver', privilegesFor x (some roleMap) obj, none) ∧
      (resolver'.afterCalls others).GetUserPrivileges later obj =
        (resolver'.afterCalls others, privilegesFor x (some roleMap) obj, none) := by
  have hentry : (resolver'.afterCalls others).roleMapCache.get later.ID = some roleMap := by
    rw [hid]
    exact afterCalls_keeps_entries resolver' others user.ID roleMap
      (getUserRoleMap_cached_entry resolver resolver' user roleMap h)
  have hlater := getUserRoleMap_of_cached (resolver'.afterCalls others) later roleMap hentry
  exact ⟨hlater, GetUserPrivileges_of_roleMap resolver resolver' user obj _ h,
    GetUserPrivileges_of_roleMap _ _ later obj _ hlater⟩

/-- Witness for C30: `bob` is resolved through the rules; then the administrator `root` is
resolved, and then a user with the ID of `bob`, no labels and the flag `Admin` gets the role
map of `bob`. -/
theorem getUserRoleMap_cached_witness :
    (((devResolver.getUserRoleMap bob).1).afterCalls [root]).getUserRoleMap
        { ID := "bob", Labels := none, Admin := true } =
      (((devResolver.getUserRoleMap bob).1).afterCalls [root],
        (devResolver.getUserRoleMap bob).2.1, none) :=
  (getUserRoleMap_cached devResolver (devResolver.getUserRoleMap bob).1 bob
    (((GoMap.empty : RoleMap).set "service-consumer" (GoMap.single "main" true)).set
      "namespace-admin" (GoMap.single "main" true)) rfl [root]
    { ID := "bob", Labels := none, Admin := true } rfl mainService).1

end PrivilegeClaims

end Lang

/-! ## The contract of `Validate` -/

namespace PolicyResolution

theorem validateKey_valid_iff (policy : Lang.Policy) (key : ComponentInstanceKey) :
    validateKey policy key = .valid ↔ policy.HasObjectsOf key := by
  unfold validateKey Lang.Policy.HasObjectsOf
  rcases hc : policy.GetObject policy.ContractKind key.ContractName key.Namespace with
    ⟨_ | cobj, _ | cerr⟩
  · simp
  · simp
  · cases cobj with
    | contract contract =>
      simp only [Prod.mk.injEq, Option.some.injEq, Lang.Object.contract.injEq, and_true,
        exists_eq_left']
      by_cases hctx : contract.Contexts.any (fun context => context.Name == key.ContextName)
          = true
      · have hex : ∃ context ∈ contract.Contexts, context.Name = key.ContextName := by
          obtain ⟨c, hc1, hc2⟩ := List.any_eq_true.1 hctx
          exact ⟨c, hc1, by simpa using hc2⟩
        simp only [hctx, Bool.not_true, Bool.false_eq_true, if_false, hex, true_and]
        rcases hs : policy.GetObject policy.ServiceKind key.ServiceName key.Namespace with
          ⟨_ | sobj, _ | serr⟩
        · simp
        · simp
        · simp only [Prod.mk.injEq, Option.some.injEq, and_true, exists_eq_left']
          by_cases hroot : key.ComponentName = policy.componentRootName
          · simp only [hroot, ne_eq, not_true_eq_false, if_false, false_imp_iff, true_and]
            rcases hk : policy.GetObject policy.ClusterKind key.ClusterName
              policy.SystemNS with ⟨_ | kobj, _ | kerr⟩ <;> simp
          · simp only [ne_eq, hroot, not_false_eq_true, if_true, true_imp_iff]
            cases sobj with
            | service service =>
              rcases hcomp : service.GetComponentsMap.get key.ComponentName with
                _ | _ | component
              · simp [hcomp]
              · simp [hcomp]
              · rcases hk : policy.GetObject policy.ClusterKind key.ClusterName
                  policy.SystemNS with ⟨_ | kobj, _ | kerr⟩ <;> simp [hcomp, hk]
            | contract c => simp
            | cluster => simp
            | other => simp
        · simp
      · have hex : ¬ ∃ context ∈ contract.Contexts, context.Name = key.ContextName := by
          rintro ⟨c, hc1, hc2⟩
          apply hctx
          exact List.any_eq_true.2 ⟨c, hc1, by simpa using hc2⟩
        simp [hctx, hex]
    | service s => simp
    | cluster => simp
    | other => simp
  · simp

theorem validateInstances_valid_iff {P : Type} (policy : Lang.Policy)
    (entries : List (String × ComponentInstance P)) :
    validateInstances policy entries = .valid ↔
      ∀ kv ∈ entries, policy.HasObjectsOf kv.2.Metadata.Key := by
  induction entries with
  | nil => simp [validateInstances]
  | cons hd tl ih =>
    obtain ⟨k, inst⟩ := hd
    simp only [validateInstances, List.mem_cons, forall_eq_or_imp]
    rw [← ih, ← validateKey_valid_iff]
    cases hv : validateKey policy inst.Metadata.Key <;> simp

end PolicyResolution

section ValidateClaims

/-- C26: `Validate` returns no error exactly when, for every instance of
`ComponentInstanceMap`, the contract of the key of the instance exists in the namespace of the
key and has the context of the key, the service exists in the namespace of the key, the
component is in the component map of the service unless its name is the root name, and the
cluster exists in the system namespace. `Validate` of an empty resolution returns no error. -/
theorem Validate_valid_iff {P : Type} (resolution : PolicyResolution P) (policy : Lang.Policy)
    (isDesired : Bool) :
    (resolution.Validate policy = .valid ↔
        ∀ kv ∈ resolution.ComponentInstanceMap.entries,
          policy.HasObjectsOf kv.2.Metadata.Key) ∧
      (NewPolicyResolution isDesired : PolicyResolution P).Validate policy = .valid :=
  ⟨PolicyResolution.validateInstances_valid_iff policy _, rfl⟩

/-- Witness for C26: the resolution of the claim on service `S` is valid for the policy with
the objects of its keys, so every instance refers to objects that exist. -/
theorem Validate_valid_iff_witness :
    ∀ kv ∈ resolvedScenario.ComponentInstanceMap.entries,
      examplePolicy.HasObjectsOf kv.2.Metadata.Key :=
  (Validate_valid_iff resolvedScenario examplePolicy true).1.1 (by decide)

end ValidateClaims

/-! ## Times, recorded params and appending into an empty resolution -/

theorem setEntries_of_lookup {V : Type} (k : String) (v : V) (l : List (String × V))
    (h : GoMap.lookupEntries k l = some v) : GoMap.setEntries k v l = l := by
  induction l with
  | nil => simp [GoMap.lookupEntries] at h
  | cons hd tl ih =>
    obtain ⟨k0, v0⟩ := hd
    by_cases h0 : k0 = k
    · simp only [GoMap.lookupEntries, h0, if_true, Option.some.injEq] at h
      simp [GoMap.setEntries, h0, h]
    · simp only [GoMap.lookupEntries, h0, if_false] at h
      simp only [GoMap.setEntries, h0, if_false, List.cons.injEq, true_and]
      exact ih h

theorem GoMap.set_of_get {V : Type} (m : GoMap V) (k : String) (v : V)
    (h : m.get k = some v) : m.set k v = m := by
  obtain ⟨l, hl⟩ := m
  have hentries : GoMap.setEntries k v l = l := setEntries_of_lookup k v l h
  simp only [GoMap.set, hentries]

section TimesClaims

variable {P : Type}

/-- C32, counterexample: the instance was created at instant 10; `UpdateTimes` with the
creation time 5, which is not zero and earlier, moves `CreatedAt` to 5. -/
theorem UpdateTimes_moves_createdAt_back :
    port5000Timed.CreatedAt ≠ 0 ∧
      (port5000Timed.UpdateTimes 5 0).CreatedAt = 5 ∧
      (port5000Timed.UpdateTimes 5 0).CreatedAt ≠ port5000Timed.CreatedAt := by
  decide

/-- C32, amended: for an instance whose `CreatedAt` is set, `UpdateTimes` changes `CreatedAt`
only when the creation time passed in is not zero and earlier, and then `CreatedAt` becomes
that earlier time, so `CreatedAt` never moves forwards and stays set; and `UpdatedAt` never
moves backwards: after the call it is the later of its previous value and the time passed in
when that time is not zero, and its previous value when the time is zero. -/
theorem UpdateTimes_keeps_earliest_and_latest (inst : ComponentInstance P)
    (createdAt updatedAt : Int) (hset : inst.CreatedAt ≠ 0) :
    (inst.UpdateTimes createdAt updatedAt).CreatedAt =
        (if createdAt ≠ 0 ∧ createdAt < inst.CreatedAt then createdAt else inst.CreatedAt) ∧
      (inst.UpdateTimes createdAt updatedAt).CreatedAt ≤ inst.CreatedAt ∧
      (inst.UpdateTimes createdAt updatedAt).CreatedAt ≠ 0 ∧
      (inst.UpdateTimes createdAt updatedAt).UpdatedAt =
        (if updatedAt ≠ 0 then max inst.UpdatedAt updatedAt else inst.UpdatedAt) ∧
      inst.UpdatedAt ≤ (inst.UpdateTimes createdAt updatedAt).UpdatedAt := by
  unfold ComponentInstance.UpdateTimes
  simp only [hset, false_or, max_def]
  split_ifs <;> simp_all <;> omega

/-- Witness for C32 as amended: the instance created at 10 and updated at 20, with the times
15 and 30. -/
theorem UpdateTimes_keeps_earliest_and_latest_witness :
    (port5000Timed.UpdateTimes 15 30).CreatedAt =
        (if (15 : Int) ≠ 0 ∧ 15 < port5000Timed.CreatedAt then 15
          else port5000Timed.CreatedAt) ∧
      (port5000Timed.UpdateTimes 15 30).CreatedAt ≤ port5000Timed.CreatedAt ∧
      (port5000Timed.UpdateTimes 15 30).CreatedAt ≠ 0 ∧
      (port5000Timed.UpdateTimes 15 30).UpdatedAt =
        (if (30 : Int) ≠ 0 then max port5000Timed.UpdatedAt 30 else port5000Timed.UpdatedAt) ∧
      port5000Timed.UpdatedAt ≤ (port5000Timed.UpdateTimes 15 30).UpdatedAt :=
  UpdateTimes_keeps_earliest_and_latest port5000Timed 15 30 (by decide)

end TimesClaims

section RecordParamsClaims

variable {P : Type} [NestedParameterMap P]

/-- C33, counterexample: component `c` has the code params `port: 5000` and `RecordCodeParams`
is called with `port: 6000`. The call returns an error, and the `Error` of the instance is
nil afterwards, as it was before. -/
theorem RecordCodeParams_leaves_error_nil :
    ((resolved5000.ComponentInstanceMap.get exampleKey.GetKey).map
        (fun inst => inst.CalculatedCodeParams.len)) = some 1 ∧
      (resolved5000.RecordCodeParams exampleKey (GoMap.single "port" "6000")).2.isSome = true ∧
      (((resolved5000.RecordCodeParams exampleKey
          (GoMap.single "port" "6000")).1.ComponentInstanceMap.get exampleKey.GetKey).map
        (fun inst => inst.Error.isSome)) = some false := by
  decide

/-- C33, amended: when the instance of the key has non-empty code params, `RecordCodeParams`
with a map that is not deep-equal to them returns the error of the conflict and leaves the
resolution as it was: the instance is still in `ComponentInstanceMap`, with the `Error` and
the params that it had. The same holds for `RecordDiscoveryParams` and the discovery
params. -/
theorem RecordParams_returns_conflict (resolution : PolicyResolution P)
    (cik : ComponentInstanceKey) (inst : ComponentInstance P) (params : P)
    (hinst : resolution.ComponentInstanceMap.get cik.GetKey = some inst) :
    (NestedParameterMap.len inst.CalculatedCodeParams ≠ 0 →
      NestedParameterMap.DeepEqual inst.CalculatedCodeParams params = false →
      (resolution.RecordCodeParams cik params).1 = resolution ∧
        ((resolution.RecordCodeParams cik params).2.map GoError.message) =
          some ("conflicting code parameters for component instance: " ++ inst.GetKey)) ∧
    (NestedParameterMap.len inst.CalculatedDiscovery ≠ 0 →
      NestedParameterMap.DeepEqual inst.CalculatedDiscovery params = false →
      (resolution.RecordDiscoveryParams cik params).1 = resolution ∧
        ((resolution.RecordDiscoveryParams cik params).2.map GoError.message) =
          some ("conflicting discovery parameters for component instance: " ++
            inst.GetKey)) := by
  have hstore : resolution.storeEntry cik inst = resolution := by
    unfold PolicyResolution.storeEntry
    rw [GoMap.set_of_get _ _ _ hinst]
  constructor
  · intro hlen hne
    simp only [PolicyResolution.RecordCodeParams, PolicyResolution.GetComponentInstanceEntry,
      hinst, ComponentInstance.addCodeParams, hlen, if_false, hne, Bool.not_false, if_true,
      hstore, GoError.message, Option.map_some', and_self]
  · intro hlen hne
    simp only [PolicyResolution.RecordDiscoveryParams,
      PolicyResolution.GetComponentInstanceEntry, hinst, ComponentInstance.addDiscoveryParams,
      hlen, if_false, hne, Bool.not_false, if_true, hstore, GoError.message, Option.map_some',
      and_self]

/-- Witness for C33 as amended: component `c` with the code params `port: 5000` and the new
map `port: 6000`. -/
theorem RecordParams_returns_conflict_witness :
    (resolved5000.RecordCodeParams exampleKey (GoMap.single "port" "6000")).1 = resolved5000 ∧
      ((resolved5000.RecordCodeParams exampleKey (GoMap.single "port" "6000")).2.map
          GoError.message) =
        some ("conflicting code parameters for component instance: " ++
          (((resolved5000.ComponentInstanceMap.get exampleKey.GetKey).getD port5000).GetKey)) :=
  (RecordParams_returns_conflict resolved5000 exampleKey
    ((resolved5000.ComponentInstanceMap.get exampleKey.GetKey).getD port5000)
    (GoMap.single "port" "6000") rfl).1 (by decide) (by decide)

end RecordParamsClaims

section AppendIntoEmptyClaims

/-- C36, the code at the failing input: the resolution holds one instance, which is code and
has no error. `AppendData` of it to a new resolution creates the entry of the key, which is
not code, and `appendData` then finds the flags to differ: the instance of the key has an
`Error` afterwards and is not code. -/
theorem AppendData_to_empty_rejects_code :
    ((codeResolution.ComponentInstanceMap.get exampleKey.GetKey).map
        (fun inst => (inst.Error.isSome, inst.IsCode))) = some (false, true) ∧
      ((((NewPolicyResolution true : PolicyResolution (GoMap String)).AppendData
          codeResolution).1.ComponentInstanceMap.get exampleKey.GetKey).map
        (fun inst => (inst.Error.map GoError.message, inst.IsCode))) =
        some (some ("component main#S#prod#a#S#c#k1 can't be converted from code to " ++
          "non-code and vice versa"), false) := by
  decide

end AppendIntoEmptyClaims

/-! ## The rules of the resolver of privileges -/

namespace Lang

theorem applyRules_eq_applyMatching (x : ACLExternals) (userID : String)
    (labels : Option (GoMap String)) (rules : List x.Rule)
    (hok : ∀ rule ∈ rules, ∀ cache, (x.Matches rule labels cache).2.2 = none)
    (cache : x.Cache) (result : RuleActionResult) :
    applyRules x userID labels rules cache result =
      ((applyMatching x labels rules cache result).1,
        .ok (applyMatching x labels rules cache result).2) := by
  induction rules generalizing cache result with
  | nil => rfl
  | cons rule rest ih =>
    have hrule := hok rule (List.mem_cons_self _ _) cache
    rcases hm : x.Matches rule labels cache with ⟨cache', matched, err⟩
    rw [hm] at hrule
    simp only at hrule
    subst hrule
    simp only [applyRules, applyMatching, hm]
    exact ih (fun r hr => hok r (List.mem_cons_of_mem _ hr)) _ _

theorem applyMatching_eq_filter (x : ACLExternals) (labels : Option (GoMap String))
    (rules : List x.Rule) (m : x.Rule → Bool)
    (hm : ∀ rule ∈ rules, ∀ cache, (x.Matches rule labels cache).2.1 = m rule)
    (cache : x.Cache) (result : RuleActionResult) :
    (applyMatching x labels rules cache result).2 =
      (rules.filter m).foldl (fun result rule => x.ApplyActions rule result) result := by
  induction rules generalizing cache result with
  | nil => rfl
  | cons rule rest ih =>
    have hrule := hm rule (List.mem_cons_self _ _) cache
    simp only [applyMatching, hrule]
    rw [ih (fun r hr => hm r (List.mem_cons_of_mem _ hr))]
    cases hmr : m rule
    · simp [List.filter_cons, hmr]
    · simp [List.filter_cons, hmr]

theorem applyRules_error (x : ACLExternals) (userID : String)
    (labels : Option (GoMap String)) (rules : List x.Rule)
    (hfail : ∃ rule ∈ rules, ∀ cache, (x.Matches rule labels cache).2.2 ≠ none)
    (cache : x.Cache) (result : RuleActionResult) :
    ∃ cache' err, applyRules x userID labels rules cache result = (cache', .error err) := by
  induction rules generalizing cache result with
  | nil =>
    obtain ⟨rule, hrule, _⟩ := hfail
    cases hrule
  | cons rule rest ih =>
    rcases hm : x.Matches rule labels cache with ⟨cache', matched, _ | err⟩
    · obtain ⟨r, hr, hfails⟩ := hfail
      rcases List.mem_cons.1 hr with rfl | hr
      · have := hfails cache
        rw [hm] at this
        exact absurd rfl this
      · simp only [applyRules, hm]
        exact ih ⟨r, hr, hfails⟩ _ _
    · refine ⟨cache', "unable to resolve role for user '" ++ userID ++ "': " ++ err, ?_⟩
      simp only [applyRules, hm]

theorem roleCovers_empty (x : ACLExternals) (obj : ObjectBase) (role : ACLRole x.Privilege) :
    roleCovers x (some GoMap.empty) obj role = false := by
  simp [roleCovers, GoMap.getOf, GoMap.get_empty]

theorem privilegesFor_empty (x : ACLExternals) (obj : ObjectBase) :
    privilegesFor x (some GoMap.empty) obj = x.nobody.Privileges.getObjectPrivileges x obj := by
  unfold privilegesFor
  rw [firstCoveringRole_none x _ obj _ (fun r _ => roleCovers_empty x obj r)]

/-- For a user that is not an administrator and for whom no rule matches, the rules give the
empty role map. -/
theorem getUserRoleMap_of_no_match {x : ACLExternals} (resolver : ACLResolver x) (user : User)
    (hadmin : user.Admin = false)
    (hno : ∀ rule ∈ resolver.rules, ∀ cache,
      (x.Matches rule user.Labels cache).2 = (false, none))
    (hcache : resolver.roleMapCache.get user.ID = none) :
    ∃ cache, resolver.getUserRoleMap user =
      ({ rules := resolver.rules, cache := cache,
         roleMapCache := resolver.roleMapCache.set user.ID GoMap.empty },
        some GoMap.empty, none) := by
  have hok : ∀ rule ∈ resolver.rules, ∀ cache,
      (x.Matches rule user.Labels cache).2.2 = none := fun rule hr cache => by
    rw [hno rule hr cache]
  have hm : ∀ rule ∈ resolver.rules, ∀ cache,
      (x.Matches rule user.Labels cache).2.1 = (fun _ => false) rule := fun rule hr cache => by
    rw [hno rule hr cache]
  have hres := applyMatching_eq_filter x user.Labels resolver.rules (fun _ => false) hm
    resolver.cache (NewRuleActionResult (NewLabelSet GoMap.empty))
  simp only [List.filter_false, List.foldl_nil] at hres
  refine ⟨(applyMatching x user.Labels resolver.rules resolver.cache
    (NewRuleActionResult (NewLabelSet GoMap.empty))).1, ?_⟩
  simp only [ACLResolver.getUserRoleMap, hcache, hadmin, Bool.false_eq_true, if_false,
    applyRules_eq_applyMatching x user.ID user.Labels resolver.rules hok, hres]
  rfl

theorem getUserRoleMap_rules {x : ACLExternals} (resolver : ACLResolver x) (user : User) :
    (resolver.getUserRoleMap user).1.rules = resolver.rules := by
  unfold ACLResolver.getUserRoleMap
  split
  · rfl
  · split
    · rfl
    · dsimp only
      split <;> rfl

theorem getUserRoleMap_other_entry {x : ACLExternals} (resolver : ACLResolver x)
    (user : User) (id : String) (hne : id ≠ user.ID) :
    (resolver.getUserRoleMap user).1.roleMapCache.get id = resolver.roleMapCache.get id := by
  unfold ACLResolver.getUserRoleMap
  split
  · rfl
  · split
    · simp only
      rw [GoMap.get_set_of_ne _ _ hne]
    · dsimp only
      split
      · rfl
      · simp only
        rw [GoMap.get_set_of_ne _ _ hne]

theorem NoRoles.step {x : ACLExternals} {resolver : ACLResolver x} {rules : List x.Rule}
    {user : User} (h : NoRoles resolver rules user.ID)
    (hno : ∀ rule ∈ rules, ∀ cache, (x.Matches rule user.Labels cache).2 = (false, none))
    (u : User) (hu : u.ID = user.ID → u.Admin = false ∧ u.Labels = user.Labels) :
    NoRoles (resolver.getUserRoleMap u).1 rules user.ID := by
  refine ⟨(getUserRoleMap_rules resolver u).trans h.1, ?_⟩
  by_cases hid : u.ID = user.ID
  · obtain ⟨hadmin, hlabels⟩ := hu hid
    rcases h.2 with hnone | hsome
    · have hno' : ∀ rule ∈ resolver.rules, ∀ cache,
          (x.Matches rule u.Labels cache).2 = (false, none) := by
        rw [h.1, hlabels]
        exact hno
      obtain ⟨cache, hret⟩ := getUserRoleMap_of_no_match resolver u hadmin hno'
        (by rw [hid]; exact hnone)
      right
      rw [hret]
      simp only
      rw [hid]
      exact GoMap.get_set_self _ _ _
    · right
      rw [getUserRoleMap_of_cached resolver u GoMap.empty (by rw [hid]; exact hsome)]
      exact hsome
  · rw [getUserRoleMap_other_entry resolver u user.ID (fun e => hid e.symm)]
    exact h.2

theorem NoRoles.afterCalls {x : ACLExternals} {resolver : ACLResolver x} {rules : List x.Rule}
    {user : User} (h : NoRoles resolver rules user.ID)
    (hno : ∀ rule ∈ rules, ∀ cache, (x.Matches rule user.Labels cache).2 = (false, none))
    (others : List User)
    (hothers : ∀ u ∈ others, u.ID = user.ID → u.Admin = false ∧ u.Labels = user.Labels) :
    NoRoles (resolver.afterCalls others) rules user.ID := by
  induction others generalizing resolver with
  | nil => exact h
  | cons u rest ih =>
    exact ih (h.step hno u (hothers u (List.mem_cons_self _ _)))
      (fun u' hu' => hothers u' (List.mem_cons_of_mem _ hu'))

section RuleClaims

/-- C31, counterexample: `carol` is no administrator and no rule of the resolver matches her
labels. The cache of role maps is keyed by the ID of the user: after a call of the resolver
for a user with the ID `carol` and the flag `Admin`, the role map of that call is returned
for `carol`, and `GetUserPrivileges` returns `write` for a service in the namespace
`main`. -/
theorem stale_role_map_grants_privilege :
    carol.Admin = false ∧
      (devResolver.rules.all
        (fun rule => (exampleACL.Matches rule carol.Labels (0 : Nat)).2.1 == false)) = true ∧
      carolAsAdmin.ID = carol.ID ∧
      (((NewACLResolver exampleACL devResolver.rules (0 : Nat)).afterCalls
        [carolAsAdmin]).GetUserPrivileges carol mainService).2 = (some "write", none) :=
  ⟨rfl, rfl, rfl, rfl⟩

/-- C31, amended: a resolver is created with the rules and is then called for any users, of
which those with the ID of `user` are, like `user`, no administrators and have the labels of
`user`. When no rule matches the labels of `user`, `GetUserPrivileges` returns for every
object the privileges of the role `nobody`, which is `noAccess` as the role `nobody` grants
nothing. -/
theorem GetUserPrivileges_noAccess_without_roles (x : ACLExternals) (rules : List x.Rule)
    (newCache : x.Cache) (user : User) (hadmin : user.Admin = false)
    (hno : ∀ rule ∈ rules, ∀ cache, (x.Matches rule user.Labels cache).2 = (false, none))
    (hnobody : ∀ obj, x.nobody.Privileges.getObjectPrivileges x obj = some x.noAccess)
    (others : List User)
    (hothers : ∀ u ∈ others, u.ID = user.ID → u.Admin = false ∧ u.Labels = user.Labels)
    (obj : ObjectBase) :
    (((NewACLResolver x rules newCache).afterCalls others).GetUserPrivileges user obj).2 =
      (some x.noAccess, none) := by
  have hinv : NoRoles ((NewACLResolver x rules newCache).afterCalls others) rules user.ID :=
    NoRoles.afterCalls ⟨rfl, Or.inl (GoMap.get_empty _)⟩ hno others hothers
  rcases hinv.2 with hnone | hsome
  · have hno' : ∀ rule ∈ ((NewACLResolver x rules newCache).afterCalls others).rules,
        ∀ cache, (x.Matches rule user.Labels cache).2 = (false, none) := by
      rw [hinv.1]
      exact hno
    obtain ⟨cache, hret⟩ := getUserRoleMap_of_no_match _ user hadmin hno' hnone
    rw [GetUserPrivileges_of_roleMap _ _ user obj _ hret, privilegesFor_empty, hnobody]
  · rw [GetUserPrivileges_of_roleMap _ _ user obj _
      (getUserRoleMap_of_cached _ user GoMap.empty hsome), privilegesFor_empty, hnobody]

/-- Witness for C31 as amended: `carol` is of team `ops` and the rules are for team `dev`; the
resolver was called for `bob` and for `carol` before. -/
theorem GetUserPrivileges_noAccess_without_roles_witness :
    (((NewACLResolver exampleACL devResolver.rules (0 : Nat)).afterCalls
        [bob, carol]).GetUserPrivileges carol mainService).2 = (some "no-access", none) :=
  GetUserPrivileges_noAccess_without_roles exampleACL devResolver.rules (0 : Nat) carol rfl
    (by
      intro rule hrule cache
      simp only [devResolver, List.mem_cons, List.mem_singleton, List.not_mem_nil,
        or_false] at hrule
      rcases hrule with rfl | rfl <;> rfl)
    (by
      intro obj
      simp [Privileges.getObjectPrivileges, exampleACL, GoMap.getOf])
    [bob, carol]
    (by
      intro u hu hid
      simp only [List.mem_cons, List.mem_singleton, List.not_mem_nil, or_false] at hu
      rcases hu with rfl | rfl
      · exact absurd hid (by decide)
      · exact ⟨rfl, rfl⟩)
    mainService

/-- C35: for a user that is not an administrator and has no cached role map, when every rule
is evaluated without error, `getUserRoleMap` returns the role map of the result that the
rules leave: starting from the new, empty result, the rules are taken in the order of the
list of the resolver and the actions of every rule that matches the labels of the user are
applied. When the outcome of matching does not depend on the expression cache, this is the
fold of `ApplyActions` over the matching rules, all of them, in the order of the list. The
role map is stored in the cache under the ID of the user. -/
theorem getUserRoleMap_applies_matching_rules {x : ACLExternals} (resolver : ACLResolver x)
    (user : User) (hadmin : user.Admin = false)
    (hcache : resolver.roleMapCache.get user.ID = none)
    (hok : ∀ rule ∈ resolver.rules, ∀ cache, (x.Matches rule user.Labels cache).2.2 = none) :
    resolver.getUserRoleMap user =
        ({ rules := resolver.rules
           cache := (applyMatching x user.Labels resolver.rules resolver.cache
            (NewRuleActionResult (NewLabelSet GoMap.empty))).1
           roleMapCache := resolver.roleMapCache.set user.ID
            (applyMatching x user.Labels resolver.rules resolver.cache
              (NewRuleActionResult (NewLabelSet GoMap.empty))).2.RoleMap },
          some (applyMatching x user.Labels resolver.rules resolver.cache
            (NewRuleActionResult (NewLabelSet GoMap.empty))).2.RoleMap, none) ∧
      (NewRuleActionResult (NewLabelSet GoMap.empty)).RoleMap = GoMap.empty ∧
      ∀ m : x.Rule → Bool,
        (∀ rule ∈ resolver.rules, ∀ cache, (x.Matches rule user.Labels cache).2.1 = m rule) →
        (applyMatching x user.Labels resolver.rules resolver.cache
            (NewRuleActionResult (NewLabelSet GoMap.empty))).2 =
          (resolver.rules.filter m).foldl (fun result rule => x.ApplyActions rule result)
            (NewRuleActionResult (NewLabelSet GoMap.empty)) := by
  refine ⟨?_, rfl, fun m hm => applyMatching_eq_filter x user.Labels resolver.rules m hm _ _⟩
  simp only [ACLResolver.getUserRoleMap, hcache, hadmin, Bool.false_eq_true, if_false,
    applyRules_eq_applyMatching x user.ID user.Labels resolver.rules hok]

/-- Witness for C35: both rules of the resolver match `bob`, and `bob` gets both roles. -/
theorem getUserRoleMap_applies_matching_rules_witness :
    (devResolver.getUserRoleMap bob).2 =
      (some (((GoMap.empty : RoleMap).set "service-consumer" (GoMap.single "main" true)).set
        "namespace-admin" (GoMap.single "main" true)), none) :=
  congrArg Prod.snd (getUserRoleMap_applies_matching_rules devResolver bob rfl rfl (by
    intro rule hrule cache
    simp only [devResolver, List.mem_cons, List.mem_singleton, List.not_mem_nil,
      or_false] at hrule
    rcases hrule with rfl | rfl <;> rfl)).1

/-- C39: for a user that is not an administrator and has no cached role map, when the
evaluation of some rule fails, `GetUserPrivileges` returns an error and no privilege, and the
rules and the cache of role maps of the resolver are as before: no role map is stored for
the user. A later call for the user finds no cached role map and, as it evaluates the rules
again, fails again. -/
theorem GetUserPrivileges_error_stores_nothing {x : ACLExternals} (resolver : ACLResolver x)
    (user : User) (obj : ObjectBase) (hadmin : user.Admin = false)
    (hcache : resolver.roleMapCache.get user.ID = none)
    (hfail : ∃ rule ∈ resolver.rules, ∀ cache, (x.Matches rule user.Labels cache).2.2 ≠ none) :
    (∃ cache err, resolver.GetUserPrivileges user obj =
        ({ rules := resolver.rules, cache := cache, roleMapCache := resolver.roleMapCache },
          none, some err)) ∧
      (resolver.GetUserPrivileges user obj).1.roleMapCache.get user.ID = none ∧
      ((resolver.GetUserPrivileges user obj).1.GetUserPrivileges user obj).2.1 = none ∧
      ((resolver.GetUserPrivileges user obj).1.GetUserPrivileges user obj).2.2.isSome = true := by
  have hstep : ∀ r : ACLResolver x, r.rules = resolver.rules →
      r.roleMapCache = resolver.roleMapCache →
      ∃ cache err, r.GetUserPrivileges user obj =
        ({ rules := resolver.rules, cache := cache, roleMapCache := resolver.roleMapCache },
          none, some err) := by
    intro r hrules hmap
    obtain ⟨cache, err, happ⟩ := applyRules_error x user.ID user.Labels r.rules
      (by rw [hrules]; exact hfail) r.cache (NewRuleActionResult (NewLabelSet GoMap.empty))
    refine ⟨cache, err, ?_⟩
    rw [hrules] at happ
    simp only [ACLResolver.GetUserPrivileges, ACLResolver.getUserRoleMap, hmap, hcache, hadmin,
      Bool.false_eq_true, if_false, happ, hrules]
  obtain ⟨cache, err, h1⟩ := hstep resolver rfl rfl
  obtain ⟨cache2, err2, h2⟩ := hstep (resolver.GetUserPrivileges user obj).1
    (by rw [h1]) (by rw [h1])
  refine ⟨⟨cache, err, h1⟩, ?_, ?_, ?_⟩
  · rw [h1]
    exact hcache
  · rw [h2]
  · rw [h2]
    rfl

/-- Witness for C39: the first rule of the resolver cannot be evaluated; `bob` gets an error
and the cache of role maps stays empty. -/
theorem GetUserPrivileges_error_stores_nothing_witness :
    (exampleResolver.GetUserPrivileges bob mainService).1.roleMapCache.get bob.ID = none ∧
      (exampleResolver.GetUserPrivileges bob mainService).2 =
        (none, some "unable to resolve role for user 'bob': cannot evaluate") :=
  ⟨(GetUserPrivileges_error_stores_nothing exampleResolver bob mainService rfl rfl
    ⟨("fail", "service-consumer", "main"), by simp [exampleResolver], fun cache => by
      simp [exampleACL]⟩).2.1, rfl⟩

end RuleClaims

end Lang

end Aptomi
